import Mathlib

/-! # Resilience primitives of the teaching repository

Shallow embedding of

* `chapter4-patterns/04-api-gateway/gateway/main.go` (per-client rate limiter `allow`),
* `chapter4-patterns/08-circuit-breaker/payments/main.go` (`breaker.allow`, `breaker.report`),
* `chapter4-patterns/06-service-mesh/meshproxy/main.go` (`handleProxy` and its retry loop),

followed by the theorems about them.

Conventions.  Instants (`time.Time`) and durations (`time.Duration`) are integers counting
nanoseconds; the clock reading `time.Now()` is an explicit argument `now` of every function
that reads the clock.  Go `int` is a 64-bit two's-complement integer: increments go through
`wrapInt`.  A Go `error` value is `Option String` (`none` is `nil`).
-/

/-! ## Shared machine-level helpers -/

/-- Largest `time.Duration` (`1<<63 - 1` nanoseconds). -/
def maxDuration : Int := 9223372036854775807

/-- Smallest `time.Duration` (`-1 << 63` nanoseconds). -/
def minDuration : Int := -9223372036854775808

/-- One second as a `time.Duration`. -/
def second : Int := 1000000000

/-- One millisecond as a `time.Duration`. -/
def millisecond : Int := 1000000

/-- Two's-complement wrap of a Go `int` (64 bit) after an arithmetic step. -/
def wrapInt (x : Int) : Int := (x + 9223372036854775808) % 18446744073709551616 - 9223372036854775808

/-- Go `Time.Sub`: the duration `t - u`, saturating at the largest and smallest `Duration`. -/
def timeSub (t u : Int) : Int :=
  if t - u > maxDuration then maxDuration
  else if t - u < minDuration then minDuration
  else t - u

/-- Go `Time.Add`: the instant `t + d`; instants are unbounded integers here. -/
def timeAdd (t d : Int) : Int := t + d

/-- Go `Time.After`: whether instant `t` is strictly later than instant `u`. -/
def timeAfter (t u : Int) : Bool := decide (u < t)

/-! ## API gateway: rate limiting per client key (`gateway/main.go`) -/

namespace Gateway

/-- Go `type bucket struct` with fields `tokens int` and `last time.Time`. -/
structure bucket where
  tokens : Int
  last : Int
deriving DecidableEq, Repr

/-- The package-level map `buckets` (`map[string]*bucket`): a key is absent when it maps to
`none`. -/
abbrev Buckets := String → Option bucket

/-- The empty map `buckets = map[string]*bucket{}` of a freshly started gateway. -/
def emptyBuckets : Buckets := fun _ => none

/-- Map assignment `buckets[ip] = b`; since the map holds pointers, this is also how a
mutation of the bucket of `ip` shows in the map. -/
def setBucket (m : Buckets) (ip : String) (b : bucket) : Buckets :=
  fun k => if k = ip then some b else m k

/-- Package variable `var rate = 5`. -/
def rate : Int := 5

/-- Package variable `var per = 10 * time.Second`. -/
def per : Int := 10 * second

/-- Go `func allow(ip string) bool`, with the package variables `rate` and `per` and the clock
reading `now` as arguments.  Returns the decision and the map afterwards. -/
def allow (rate per : Int) (now : Int) (ip : String) (buckets : Buckets) : Bool × Buckets :=
  -- b, ok := buckets[ip]; if !ok { b = &bucket{tokens: rate, last: now}; buckets[ip] = b }
  let b : bucket :=
    match buckets ip with
    | some b => b
    | none => { tokens := rate, last := now }
  -- if now.Sub(b.last) >= per { b.tokens = rate; b.last = now }
  let b : bucket := if timeSub now b.last ≥ per then { tokens := rate, last := now } else b
  -- if b.tokens > 0 { b.tokens--; return true }; return false
  if b.tokens > 0 then
    (true, setBucket buckets ip { b with tokens := b.tokens - 1 })
  else
    (false, setBucket buckets ip b)

/-- A run of successive `allow(ip)` calls for one key, the `i`-th at clock reading
`nows[i]`: the list of decisions and the final map. -/
def allowCalls (rate per : Int) (ip : String) : List Int → Buckets → List Bool × Buckets
  | [], m => ([], m)
  | now :: rest, m =>
    let r := allow rate per now ip m
    let rs := allowCalls rate per ip rest r.2
    (r.1 :: rs.1, rs.2)

end Gateway

/-! ## Circuit breaker (`08-circuit-breaker/payments/main.go`) -/

namespace Payments

/-- Go `type breaker struct` with fields `mu sync.Mutex`, `state string`, `failCount int`
and `openUntil time.Time`.  The mutex is not part of the sequential state; `state` is the Go string, meant to hold
`"closed"`, `"open"` or `"half"`. -/
structure breaker where
  state : String
  failCount : Int
  openUntil : Int
deriving DecidableEq, Repr

/-- Package variable `brk`, a breaker whose `state` is `closed` and whose other fields hold
their zero values. -/
def brk : breaker := { state := "closed", failCount := 0, openUntil := 0 }

/-- Go `func (b *breaker) allow() bool` at clock reading `now`: the decision and the breaker
afterwards. -/
def breaker.allow (b : breaker) (now : Int) : Bool × breaker :=
  if b.state = "open" then
    if timeAfter now b.openUntil then
      (true, { b with state := "half" })
    else
      (false, b)
  else
    (true, b) -- closed or half

/-- Go `func (b *breaker) report(err error)` at clock reading `now` (the clock is read only on
the branches that open the breaker). -/
def breaker.report (b : breaker) (err : Option String) (now : Int) : breaker :=
  if b.state = "half" then
    match err with
    | none => { b with state := "closed", failCount := 0 }
    | some _ => { b with state := "open", openUntil := timeAdd now (10 * second) }
  else
    match err with
    | none => { b with failCount := 0 }
    | some _ =>
      let b1 : breaker := { b with failCount := wrapInt (b.failCount + 1) }
      if b1.failCount ≥ 3 then
        { b1 with state := "open", openUntil := timeAdd now (10 * second) }
      else
        b1

/-- Successive `allow()` calls, the `i`-th at clock reading `nows[i]`, with no `report` in
between: the decisions and the breaker afterwards. -/
def breaker.allowCalls : breaker → List Int → List Bool × breaker
  | b, [] => ([], b)
  | b, now :: rest =>
    let r := b.allow now
    let rs := breaker.allowCalls r.2 rest
    (r.1 :: rs.1, rs.2)

end Payments

/-! ## HTTP values used by the handlers -/

/-- A Go `[]byte`. -/
abbrev Bytes := List UInt8

/-- Go `http.Header` (`map[string][]string`) as an association list from header name to its
values.  `Get`, `Set` and `Add` canonicalise the name they are given in the same way, so a
name stands for its canonical form. -/
abbrev Header := List (String × List String)

/-- Go `Header.Get`: the first value stored under `key`, or the empty string. -/
def headerGet (h : Header) (key : String) : String :=
  match h.lookup key with
  | some (v :: _) => v
  | _ => ""

/-- Go `Header.Set`: replaces whatever is stored under `key` by the single value `value`. -/
def headerSet (h : Header) (key value : String) : Header :=
  h.filter (fun kv => kv.1 != key) ++ [(key, [value])]

/-- Go `Header.Add`: appends `value` to the values stored under `key`. -/
def headerAdd : Header → String → String → Header
  | [], key, value => [(key, [value])]
  | (k, vs) :: rest, key, value =>
    if k = key then (k, vs ++ [value]) :: rest else (k, vs) :: headerAdd rest key value

/-- What a handler has written to its `http.ResponseWriter`: the status code, the headers the
handler set, and the body. -/
structure Response where
  status : Int
  header : Header
  body : Bytes
deriving DecidableEq, Repr

/-- Go `http.Error(w, error, code)` on a writer whose header map is `h`: sets the plain-text
content type and `nosniff`, writes the status code and the message followed by a newline. -/
def httpError (h : Header) (error : String) (code : Int) : Response :=
  { status := code
    header := headerSet (headerSet h "Content-Type" "text/plain; charset=utf-8")
      "X-Content-Type-Options" "nosniff"
    body := (error ++ "\n").toUTF8.data.toList }

/-- Go `http.StatusBadGateway`. -/
def StatusBadGateway : Int := 502

/-- Lower-case hexadecimal digit of a value below 16. -/
def hexDigit (n : Nat) : Char :=
  if n < 10 then Char.ofNat (48 + n) else Char.ofNat (87 + n)

/-- Go `hex.EncodeToString`. -/
def hexEncodeToString (bs : Bytes) : String :=
  String.mk (bs.flatMap fun b => [hexDigit (b.toNat / 16), hexDigit (b.toNat % 16)])

/-! ## Service-mesh proxy (`06-service-mesh/meshproxy/main.go`) -/

namespace Meshproxy

/-- Constant `upstreamURL`: the ledger base address. -/
def upstreamURL : String := "http://localhost:7002"

/-- Constant `perTryTimeout = 300 * time.Millisecond`. -/
def perTryTimeout : Int := 300 * millisecond

/-- Constant `maxRetries = 2`. -/
def maxRetries : Nat := 2

/-- The inbound `*http.Request` as far as the handler reads it: method, `r.URL.Path`, headers
and the bytes `io.ReadAll(r.Body)` yields. -/
structure Request where
  method : String
  path : String
  header : Header
  body : Bytes
deriving DecidableEq, Repr

/-- An outbound request as handed to `client.Do`. -/
structure OutRequest where
  method : String
  url : String
  header : Header
  body : Bytes
deriving DecidableEq, Repr

/-- Outcome of one `client.Do(req)` under the per-try timeout: a non-nil error (transport
failure or timeout), or a response with its status code and the body read from it. -/
inductive DoResult where
  | failure (e : String)
  | response (status : Int) (body : Bytes)
deriving DecidableEq, Repr

/-- Go `func randomID() string`: hex encoding of the eight bytes `rand.Read` delivers. -/
def randomID (entropy : Fin 8 → UInt8) : String :=
  hexEncodeToString (List.ofFn entropy)

/-- Go `func cloneHeaders(h http.Header) http.Header`. -/
def cloneHeaders (h : Header) : Header :=
  h.foldl (fun out kvv => kvv.2.foldl (fun out v => headerAdd out kvv.1 v) out) []

/-- The request one attempt hands to `client.Do` once
`http.NewRequest(r.Method, target, bytes.NewReader(inBody))` has returned a request: its
header map is replaced by the cloned inbound headers and the three mesh headers are set on
top. -/
def outboundRequest (r : Request) (traceID target : String) (inBody : Bytes) : OutRequest :=
  { method := r.method
    url := target
    header :=
      headerSet (headerSet (headerSet (cloneHeaders r.header) "X-Request-ID" traceID)
        "X-Mesh-mTLS" "true") "X-Service-Identity" "payments"
    body := inBody }

/-- Whether the loop of `handleProxy` goes on to another attempt after this outcome: a
non-nil error, or a response whose status is at least 500. -/
def DoResult.failed : DoResult → Bool
  | DoResult.failure _ => true
  | DoResult.response status _ => decide (status ≥ 500)

/-- The variables the retry loop of `handleProxy` updates: `lastStatus`, `lastBody`, `err`,
the package counter `totalRetry`, and the outbound calls issued so far, oldest first. -/
structure LoopVars where
  lastStatus : Int
  lastBody : Bytes
  err : Option String
  totalRetry : Int
  sent : List OutRequest
deriving DecidableEq, Repr

/-- The loop `for attempt := 0; attempt <= maxRetries; attempt++ { ... }` of `handleProxy`,
from the iteration numbered `attempt` on.  `newRequestOK method url` tells whether
`http.NewRequest(method, url, body)` returns a request (true) or nil with an error (false):
the source discards the error and assigns to `req.Header`, so on nil the run panics, before
the call of that iteration; the result is then `none`.  `upstream k` is the outcome of the
outbound call made in iteration `k`.  The first number bounds the iterations still to run;
`maxRetries + 1` of them suffice from `attempt = 0`. -/
def retryLoop (newRequestOK : String → String → Bool) (upstream : Nat → DoResult)
    (r : Request) (traceID target : String) (inBody : Bytes) :
    Nat → Nat → LoopVars → Option LoopVars
  | 0, _, v => some v
  | fuel + 1, attempt, v =>
    if attempt ≤ maxRetries then
      -- if attempt > 0 { totalRetry++ }
      let v : LoopVars :=
        if attempt > 0 then { v with totalRetry := wrapInt (v.totalRetry + 1) } else v
      -- req, _ := http.NewRequest(r.Method, target, bytes.NewReader(inBody))
      -- req.Header = cloneHeaders(r.Header)
      if newRequestOK r.method target then
        -- resp, e := client.Do(req)
        let req := outboundRequest r traceID target inBody
        let v : LoopVars := { v with sent := v.sent ++ [req] }
        match upstream attempt with
        | DoResult.failure e =>
          -- err = e; continue
          retryLoop newRequestOK upstream r traceID target inBody fuel (attempt + 1)
            { v with err := some e }
        | DoResult.response status body =>
          let v : LoopVars := { v with lastStatus := status, lastBody := body }
          if status ≥ 500 then
            -- continue
            retryLoop newRequestOK upstream r traceID target inBody fuel (attempt + 1) v
          else
            -- err = nil; break
            some { v with err := none }
      else
        none
    else
      some v

/-- What one run of `handleProxy` leaves behind: the response written to `w`, the package
counters afterwards, and the outbound calls it issued, oldest first. -/
structure ProxyRun where
  response : Response
  totalReq : Int
  totalRetry : Int
  sent : List OutRequest
deriving DecidableEq, Repr

/-- Go `func handleProxy(w http.ResponseWriter, r *http.Request)`.  `newRequestOK` is the
verdict of `http.NewRequest` on a method and URL, `upstream k` the outcome of the `k`-th
outbound call (0-based), `entropy` the bytes `randomID` would draw, `totalReq` and
`totalRetry` the package counters before the call.  The result is `none` when the run
panics on the nil request (no response is written then; what the counters hold after the
panic is not recorded).  The response records the argument of `w.WriteHeader` and the bytes
given to `w.Write`; log lines are not modelled. -/
def handleProxy (newRequestOK : String → String → Bool) (upstream : Nat → DoResult)
    (entropy : Fin 8 → UInt8) (totalReq totalRetry : Int) (r : Request) : Option ProxyRun :=
  let totalReq := wrapInt (totalReq + 1)
  let traceID :=
    if headerGet r.header "X-Request-ID" = "" then randomID entropy
    else headerGet r.header "X-Request-ID"
  let inBody := r.body
  let target := upstreamURL ++ r.path
  match retryLoop newRequestOK upstream r traceID target inBody (maxRetries + 1) 0
      { lastStatus := 0, lastBody := [], err := none, totalRetry := totalRetry, sent := [] } with
  | none => none
  | some v =>
    match v.err with
    | some _ =>
      some
        { response :=
            httpError [] "\x7b\"error\":\"upstream_timeout_or_unreachable\"\x7d" StatusBadGateway
          totalReq := totalReq
          totalRetry := v.totalRetry
          sent := v.sent }
    | none =>
      some
        { response :=
            { status := v.lastStatus
              header := headerSet (headerSet [] "X-Request-ID" traceID) "Content-Type"
                "application/json"
              body := v.lastBody }
          totalReq := totalReq
          totalRetry := v.totalRetry
          sent := v.sent }

/-- The trace id `handleProxy` works with: the inbound `X-Request-ID` if non-empty, else a
fresh `randomID()`. -/
def proxyTraceID (entropy : Fin 8 → UInt8) (r : Request) : String :=
  if headerGet r.header "X-Request-ID" = "" then randomID entropy
  else headerGet r.header "X-Request-ID"

/-- The loop variables of `handleProxy` when its loop has run to its end (`none` when it
panicked): the loop started at `attempt = 0` with `lastStatus`, `lastBody`, `err` at their
zero values. -/
def proxyLoop (newRequestOK : String → String → Bool) (upstream : Nat → DoResult)
    (entropy : Fin 8 → UInt8) (totalRetry : Int) (r : Request) : Option LoopVars :=
  retryLoop newRequestOK upstream r (proxyTraceID entropy r) (upstreamURL ++ r.path) r.body
    (maxRetries + 1) 0
    { lastStatus := 0, lastBody := [], err := none, totalRetry := totalRetry, sent := [] }

/-- The response `handleProxy` writes with `http.Error` when its loop ends with an error:
502 Bad Gateway with the `upstream_timeout_or_unreachable` message. -/
def upstreamUnavailable : Response :=
  httpError [] "\x7b\"error\":\"upstream_timeout_or_unreachable\"\x7d" StatusBadGateway

/-- A verdict of `http.NewRequest` used in the examples.  It accepts the methods `GET` and
`POST` with a URL that is `upstreamURL` followed by a path of letters, digits and slashes
that starts with a slash; `http.NewRequest` returns a request for each of these.  It rejects
everything else; among the URLs it rejects is `upstreamURL` followed by `/%zz`, whose
malformed escape makes `http.NewRequest` return nil with an error. -/
def plainRequestOK (method url : String) : Bool :=
  (method = "GET" || method = "POST") &&
    (url.data.take upstreamURL.length == upstreamURL.data) &&
    ((url.data.drop upstreamURL.length).head? == some '/') &&
    (url.data.drop upstreamURL.length).all (fun c => c.isAlphanum || c = '/')

end Meshproxy

/-! ## Payments handler behind the circuit breaker (`08-circuit-breaker/payments/main.go`) -/

namespace Payments

/-- Constant `riskURL`: where the risk score is asked for. -/
def riskURL : String := "http://localhost:7002/score"

/-- Go `type PayReq struct` with fields `UserID string` and `Amount float64`.  A decoded JSON
number is a finite float64; `Amount` holds its exact value, which is all that the comparison
in `fallback` looks at. -/
structure PayReq where
  UserID : String
  Amount : ℚ
deriving DecidableEq

/-- Go `type Decision struct` with fields `Approved bool`, `Reason string` and `Mode string`
(`normal` or `fallback`). -/
structure Decision where
  Approved : Bool
  Reason : String
  Mode : String
deriving DecidableEq, Repr

/-- Go `func fallback(in PayReq) Decision`. -/
def fallback (req : PayReq) : Decision :=
  if req.Amount ≤ 50 then
    { Approved := true, Reason := "challenge_small", Mode := "fallback" }
  else
    { Approved := false, Reason := "hold_high_amount", Mode := "fallback" }

/-- Outcome of the one `client.Do(req)` of `handlePay` under its 600ms timeout: a non-nil
error, or a response with its status code. -/
inductive RiskResult where
  | failure (e : String)
  | response (status : Int)
deriving DecidableEq, Repr

/-- What `handlePay` writes to `w`: the `bad json` error with status 400, or the JSON
encoding of a decision. -/
inductive PayWritten where
  | badJSON
  | decision (d : Decision)
deriving DecidableEq

/-- What one run of `handlePay` leaves behind: what it wrote, the breaker afterwards, the
arguments of its `brk.report` calls in order, and the payloads it posted to `riskURL`. -/
structure PayRun where
  written : PayWritten
  brk : breaker
  reports : List (Option String)
  riskCalls : List PayReq
deriving DecidableEq

/-- Go `func handlePay(w http.ResponseWriter, r *http.Request)` on the breaker `b`.
`decoded` is what `json.NewDecoder(r.Body).Decode(&in)` yields (`none` when it returns an
error), `nowAllow` and `nowReport` are the clock readings of `brk.allow()` and of
`brk.report(...)`, and `risk` is the outcome of the outbound call if it is made. -/
def handlePay (decoded : Option PayReq) (nowAllow nowReport : Int) (risk : RiskResult)
    (b : breaker) : PayRun :=
  match decoded with
  | none =>
    -- http.Error(w, "bad json", http.StatusBadRequest); return
    { written := PayWritten.badJSON, brk := b, reports := [], riskCalls := [] }
  | some req =>
    -- 1) Ask breaker if we should try Risk
    let a := b.allow nowAllow
    if a.1 = false then
      { written := PayWritten.decision (fallback req), brk := a.2, reports := [],
        riskCalls := [] }
    else
      -- 2) Call Risk with a short timeout
      match risk with
      | RiskResult.failure e =>
        { written := PayWritten.decision (fallback req)
          brk := a.2.report (some e) nowReport
          reports := [some e]
          riskCalls := [req] }
      | RiskResult.response status =>
        if status ≥ 500 then
          { written := PayWritten.decision (fallback req)
            brk := a.2.report (some "5xx") nowReport
            reports := [some "5xx"]
            riskCalls := [req] }
        else
          -- Success path
          { written := PayWritten.decision
              { Approved := true, Reason := "risk_ok", Mode := "normal" }
            brk := a.2.report none nowReport
            reports := [none]
            riskCalls := [req] }

end Payments

/-! ## API gateway: routing and the request handler (`gateway/main.go`) -/

namespace Gateway

/-- Constant `validAPIKey`. -/
def validAPIKey : String := "demo-key-123"

/-- Route table `backends` (path prefix to backend address), in the order of the source
text.  It is a Go map: a `range` over it visits the entries in an unspecified order, so the
functions that range over it take the order of the visit as an argument. -/
def backends : List (String × String) :=
  [("/users/", "http://localhost:7001"), ("/payments/", "http://localhost:7002")]

/-- The fields of a `*url.URL` that the gateway uses. -/
structure URL where
  scheme : String
  host : String
  path : String
deriving DecidableEq, Repr

/-- Go `strings.HasPrefix(s, p)`. -/
def startsWith (s p : String) : Bool := p.data.isPrefixOf s.data

/-- Go `strings.HasSuffix(s, p)`. -/
def endsWith (s p : String) : Bool := p.data.isSuffixOf s.data

/-- Go `strings.TrimPrefix(s, p)`. -/
def trimLeading (s p : String) : String :=
  if startsWith s p then String.mk (s.data.drop p.data.length) else s

/-- The pieces of a text between the occurrences of a one-character separator; a text
without the separator is one piece. -/
def splitChars (sep : Char) : List Char → List (List Char)
  | [] => [[]]
  | c :: cs =>
    if c = sep then [] :: splitChars sep cs
    else
      match splitChars sep cs with
      | [] => [[c]]
      | piece :: pieces => (c :: piece) :: pieces

/-- Go `strings.Split(s, sep)` for a separator of one character. -/
def stringsSplit (s : String) (sep : Char) : List String :=
  (splitChars sep s.data).map String.mk

/-- The inbound `*http.Request` as far as the gateway reads it.  `remoteHost` is the host
that `net.SplitHostPort(r.RemoteAddr)` returns, `none` when it returns an error. -/
structure Request where
  method : String
  path : String
  header : Header
  body : Bytes
  remoteAddr : String
  remoteHost : Option String
deriving DecidableEq, Repr

/-- Go `func getClientIP(r *http.Request) string`; `none` stands for the run-time panic of
an index out of range. -/
def getClientIP (r : Request) : Option String :=
  let xff := headerGet r.header "X-Forwarded-For"
  if xff ≠ "" then
    (stringsSplit xff ',')[0]?
  else
    match r.remoteHost with
    | none => some r.remoteAddr
    | some host => some host

/-- Go `func randomRequestID() string`: hex encoding of the eight bytes `rand.Read`
delivers. -/
def randomRequestID (entropy : Fin 8 → UInt8) : String :=
  hexEncodeToString (List.ofFn entropy)

/-- Go `func chooseBackend(path string) *url.URL` when the `range` over `backends` visits
the entries in the order of the list given.  `parse raw` is the pointer `url.Parse(raw)`
returns, `none` (nil) when it fails. -/
def chooseBackend (parse : String → Option URL) : List (String × String) → String → Option URL
  | [], _ => none
  | (pfx, raw) :: rest, path =>
    if startsWith path pfx then parse raw else chooseBackend parse rest path

/-- What `url.Parse` returns on the two addresses of the configured table: scheme `http`,
the host with its port, and an empty path.  Other addresses do not occur in `backends`. -/
def parseBackend (raw : String) : Option URL :=
  if raw = "http://localhost:7001" then some { scheme := "http", host := "localhost:7001", path := "" }
  else if raw = "http://localhost:7002" then
    some { scheme := "http", host := "localhost:7002", path := "" }
  else none

/-- Go `http.StatusUnauthorized`. -/
def StatusUnauthorized : Int := 401

/-- Go `http.StatusTooManyRequests`. -/
def StatusTooManyRequests : Int := 429

/-- Go `http.StatusNotFound`. -/
def StatusNotFound : Int := 404

/-- The outbound request of the reverse proxy, as far as the handler shapes it: method,
target, path, headers and body. -/
structure OutRequest where
  method : String
  scheme : String
  host : String
  path : String
  header : Header
  body : Bytes
deriving DecidableEq, Repr

/-- Go `singleJoiningSlash(a, b)` of `net/http/httputil`. -/
def singleJoiningSlash (a b : String) : String :=
  if endsWith a "/" && startsWith b "/" then a ++ String.mk (b.data.drop 1)
  else if !endsWith a "/" && !startsWith b "/" then a ++ "/" ++ b
  else a ++ b

/-- The loop over `backends` inside `proxy.Director`: the first entry visited whose prefix
the path starts with has that prefix removed from the path (an empty rest becomes `/`), and
the loop ends. -/
def rewritePath : List (String × String) → String → String
  | [], path => path
  | (pfx, _) :: rest, path =>
    if startsWith path pfx then
      (if trimLeading path pfx = "" then "/" else trimLeading path pfx)
    else rewritePath rest path

/-- The closure assigned to `proxy.Director`: the director of
`httputil.NewSingleHostReverseProxy(target)` points the request at the target and joins the
paths, then the request id is set and the route prefix is removed.  The result is the
request as the Director leaves it; `proxy.ServeHTTP` still removes the hop-by-hop headers
from it before it goes to the backend (`proxiedRequest`). -/
def director (order : List (String × String)) (target : URL) (reqID : String)
    (r : Request) (header : Header) : OutRequest :=
  { method := r.method
    scheme := target.scheme
    host := target.host
    path := rewritePath order (singleJoiningSlash target.path r.path)
    header := headerSet header "X-Request-ID" reqID
    body := r.body }

/-- Outcome of the round trip that `proxy.ServeHTTP` makes: an error, or the upstream
response with its status, its headers (hop-by-hop headers removed) and its body. -/
inductive RoundTrip where
  | failure (e : String)
  | response (status : Int) (header : Header) (body : Bytes)
deriving DecidableEq, Repr

/-- Go `copyHeader(dst, src)` of `net/http/httputil`: every value of `src` is added to
`dst`. -/
def copyHeader (dst src : Header) : Header :=
  src.foldl (fun out kvv => kvv.2.foldl (fun out v => headerAdd out kvv.1 v) out) dst

/-- What `proxy.ServeHTTP(w, r)` writes on a writer whose header map is `w`: 502 Bad Gateway
when the round trip fails, else the upstream status and body with the upstream headers
added to those already set. -/
def serveProxy (w : Header) : RoundTrip → Response
  | RoundTrip.failure _ => { status := StatusBadGateway, header := w, body := [] }
  | RoundTrip.response status header body =>
    { status := status, header := copyHeader w header, body := body }

/-- Go `Header.Values`: all values stored under `key`. -/
def headerValues (h : Header) (key : String) : List String :=
  (h.lookup key).getD []

/-- Go `validHeaderFieldByte` of `net/textproto`: the characters of an HTTP token. -/
def validHeaderFieldChar (c : Char) : Bool :=
  c.isAlphanum || ("!#$%&'*+-.^_`|~" : String).data.contains c

/-- The rewriting loop of `canonicalMIMEHeaderKey` of `net/textproto`: a letter at the start
or after a hyphen becomes upper case, every other letter lower case. -/
def canonicalChars : Bool → List Char → List Char
  | _, [] => []
  | upper, c :: cs =>
    let c1 :=
      if upper && c.isLower then c.toUpper
      else if !upper && c.isUpper then c.toLower
      else c
    c1 :: canonicalChars (c1 == '-') cs

/-- Go `textproto.CanonicalMIMEHeaderKey`: a text that is not an HTTP token is returned
unchanged, a token in its canonical capitalisation. -/
def canonicalMIMEHeaderKey (s : String) : String :=
  if s.data.all validHeaderFieldChar then String.mk (canonicalChars true s.data) else s

/-- Go `Header.Del`: removes what is stored under the canonical form of `key`.  The names in
a `Header` stand for their canonical forms, so the entries removed are those whose name has
the canonical form of `key`. -/
def headerDel (h : Header) (key : String) : Header :=
  h.filter (fun kv => canonicalMIMEHeaderKey kv.1 != canonicalMIMEHeaderKey key)

/-- Go `isASCIISpace` of `net/textproto`. -/
def isASCIISpace (c : Char) : Bool :=
  c = ' ' || c = '\t' || c = '\n' || c = '\r'

/-- Go `textproto.TrimString`: leading and trailing ASCII space removed. -/
def trimString (s : String) : String :=
  String.mk (((s.data.dropWhile isASCIISpace).reverse.dropWhile isASCIISpace).reverse)

/-- The variable `hopHeaders` of `net/http/httputil`. -/
def hopHeaders : List String :=
  ["Connection", "Proxy-Connection", "Keep-Alive", "Proxy-Authenticate",
    "Proxy-Authorization", "Te", "Trailer", "Transfer-Encoding", "Upgrade"]

/-- The header names listed in the `Connection` values of `h`, as the first loop of
`removeHopByHopHeaders` visits them: every value split at commas, each piece trimmed, the
empty pieces left out. -/
def connectionNames (h : Header) : List String :=
  (headerValues h "Connection").flatMap fun f =>
    ((stringsSplit f ',').map trimString).filter (fun sf => sf != "")

/-- Go `removeHopByHopHeaders(h)` of `net/http/httputil`: deletes every header named in a
`Connection` value, then the headers of `hopHeaders`. -/
def removeHopByHopHeaders (h : Header) : Header :=
  hopHeaders.foldl headerDel ((connectionNames h).foldl headerDel h)

/-- The outbound proxied request: `proxy.ServeHTTP` calls the Director on its copy of the
inbound request and afterwards removes the hop-by-hop headers from it.  The headers that
`ServeHTTP` and the transport set on their own after that (`X-Forwarded-For`, `User-Agent`,
`Te`, and `Connection` and `Upgrade` for a protocol switch) are not recorded; none of them
is a header the handler sets.  `ReverseProxy` is taken at its documented contract; that
recent versions answer 502 themselves, without a round trip, to a request whose `Upgrade`
value has non-printing bytes is not modelled. -/
def proxiedRequest (out : OutRequest) : OutRequest :=
  { out with header := removeHopByHopHeaders out.header }

/-- What one run of `handleGateway` leaves behind: the response written, the bucket map
afterwards, the keys `allow` was called with, the paths `chooseBackend` was called with,
and the outbound proxied requests (the Director's result with the hop-by-hop headers
removed), each list in order. -/
structure GatewayRun where
  response : Response
  buckets : Buckets
  allowed : List String
  resolved : List String
  forwarded : List OutRequest

/-- Go `func handleGateway(w http.ResponseWriter, r *http.Request)`.  `order1` and `order2`
are the orders in which `chooseBackend` and `proxy.Director` visit `backends`, `rate`, `per`
and `now` are what `allow` reads, `entropy` the bytes `randomRequestID` draws, `upstream`
the outcome of the proxied round trip.  The result is `none` when the run panics. -/
def handleGateway (parse : String → Option URL) (order1 order2 : List (String × String))
    (rate per now : Int) (entropy : Fin 8 → UInt8) (upstream : RoundTrip)
    (buckets : Buckets) (r : Request) : Option GatewayRun :=
  -- 1) API key check
  if headerGet r.header "X-API-Key" ≠ validAPIKey then
    some { response := httpError [] "\x7b\"error\":\"unauthorized\"\x7d" StatusUnauthorized
           buckets := buckets, allowed := [], resolved := [], forwarded := [] }
  else
    -- 2) Rate limit
    match getClientIP r with
    | none => none
    | some ip =>
      let a := allow rate per now ip buckets
      if a.1 = false then
        some { response :=
                 httpError [] "\x7b\"error\":\"rate_limit_exceeded\"\x7d" StatusTooManyRequests
               buckets := a.2, allowed := [ip], resolved := [], forwarded := [] }
      else
        -- 3) Add a request ID
        let reqID := randomRequestID entropy
        let wHeader := headerSet [] "X-Request-ID" reqID
        let rHeader := headerSet r.header "X-Request-ID" reqID
        -- 4) Find the backend
        match chooseBackend parse order1 r.path with
        | none =>
          some { response := httpError wHeader "\x7b\"error\":\"not_found\"\x7d" StatusNotFound
                 buckets := a.2, allowed := [ip], resolved := [r.path], forwarded := [] }
        | some target =>
          -- 5) Proxy the request
          some { response := serveProxy wHeader upstream
                 buckets := a.2, allowed := [ip], resolved := [r.path]
                 forwarded := [proxiedRequest (director order2 target reqID r rHeader)] }

end Gateway

/-! ## Runs of calls on the shared state -/

namespace Gateway

/-- A run of successive `allow` calls for any keys: the call `(now, ip)` is `allow(ip)` at
clock reading `now`.  Gives the decisions in order and the final map. -/
def allowTrace (rate per : Int) : List (Int × String) → Buckets → List Bool × Buckets
  | [], m => ([], m)
  | (now, ip) :: rest, m =>
    let r := allow rate per now ip m
    let rs := allowTrace rate per rest r.2
    (r.1 :: rs.1, rs.2)

/-- The clock readings of the calls of a run of `allow(ip)` that returned true, in order. -/
def allowedTimes (rate per : Int) (ip : String) : List Int → Buckets → List Int
  | [], _ => []
  | now :: rest, m =>
    let r := allow rate per now ip m
    if r.1 then now :: allowedTimes rate per ip rest r.2
    else allowedTimes rate per ip rest r.2

end Gateway

namespace Payments

/-- One call on the breaker: `allow()` at a clock reading, or `report(err)` at a clock
reading. -/
inductive Event where
  | allow (now : Int)
  | report (err : Option String) (now : Int)
deriving DecidableEq, Repr

/-- The clock reading of a call. -/
def Event.time : Event → Int
  | Event.allow now => now
  | Event.report _ now => now

/-- The breaker after one call. -/
def breaker.step (b : breaker) : Event → breaker
  | Event.allow now => (b.allow now).2
  | Event.report err now => b.report err now

/-- The breaker after a sequence of calls, made one after another. -/
def breaker.run : breaker → List Event → breaker
  | b, [] => b
  | b, e :: rest => breaker.run (b.step e) rest

/-- Whether a call is a `report` with a non-nil error. -/
def Event.isFailure : Event → Bool
  | Event.report (some _) _ => true
  | _ => false

/-- The outcomes of the `report` calls of a sequence, in order: true for a report with a
non-nil error, false for `report(nil)`; `allow` calls are left out. -/
def reportedFailures : List Event → List Bool
  | [] => []
  | Event.allow _ :: rest => reportedFailures rest
  | Event.report (some _) _ :: rest => true :: reportedFailures rest
  | Event.report none _ :: rest => false :: reportedFailures rest

end Payments

/-! ## Theorems -/

section SharedLemmas

theorem timeSub_lt_of_lt {t u p : Int} (hp : 0 < p) (h : t - u < p) : timeSub t u < p := by
  unfold timeSub maxDuration minDuration
  split_ifs <;> omega

end SharedLemmas

section HexLemmas

/-- Distinct values below 16 have distinct hexadecimal digits. -/
theorem hexDigit_injective :
    ∀ a : Fin 16, ∀ b : Fin 16, hexDigit a.val = hexDigit b.val → a = b := by decide

/-- The hexadecimal digit of a value below 16 is one of `0`..`9`, `a`..`f`. -/
theorem hexDigit_mem : ∀ a : Fin 16, hexDigit a.val ∈ ("0123456789abcdef" : String).data := by
  decide

/-- Two values below 16 with the same hexadecimal digit are equal. -/
theorem hexDigit_eq (a b : Nat) (ha : a < 16) (hb : b < 16) (h : hexDigit a = hexDigit b) :
    a = b :=
  congrArg Fin.val (hexDigit_injective ⟨a, ha⟩ ⟨b, hb⟩ h)

/-- The hexadecimal encoding has two characters for each byte. -/
theorem hexEncodeToString_length (bs : Bytes) :
    (hexEncodeToString bs).length = 2 * bs.length := by
  simp only [hexEncodeToString, String.length_mk]
  induction bs with
  | nil => rfl
  | cons b bs ih =>
    simp only [List.flatMap_cons, List.length_append, List.length_cons, List.length_nil, ih]
    omega

/-- The hexadecimal encoding consists of the characters `0`..`9`, `a`..`f`. -/
theorem hexEncodeToString_chars (bs : Bytes) :
    ∀ c ∈ (hexEncodeToString bs).data, c ∈ ("0123456789abcdef" : String).data := by
  intro c hc
  simp only [hexEncodeToString, List.mem_flatMap] at hc
  obtain ⟨b, _, hb⟩ := hc
  have hlt : b.toNat < 256 := b.val.isLt
  have h1 : b.toNat / 16 < 16 := by omega
  have h2 : b.toNat % 16 < 16 := by omega
  simp only [List.mem_cons, List.mem_singleton, List.mem_nil_iff, or_false] at hb
  rcases hb with hb | hb
  · rw [hb]; exact hexDigit_mem ⟨_, h1⟩
  · rw [hb]; exact hexDigit_mem ⟨_, h2⟩

/-- The hexadecimal encoding determines the bytes. -/
theorem hexEncodeToString_injective :
    ∀ bs1 bs2 : Bytes, hexEncodeToString bs1 = hexEncodeToString bs2 → bs1 = bs2 := by
  intro bs1
  induction bs1 with
  | nil =>
    intro bs2 h
    cases bs2 with
    | nil => rfl
    | cons b bs2 =>
      have := congrArg String.length h
      rw [hexEncodeToString_length, hexEncodeToString_length] at this
      simp at this
  | cons a bs1 ih =>
    intro bs2 h
    cases bs2 with
    | nil =>
      have := congrArg String.length h
      rw [hexEncodeToString_length, hexEncodeToString_length] at this
      simp at this
    | cons b bs2 =>
      have hd : (hexEncodeToString (a :: bs1)).data = (hexEncodeToString (b :: bs2)).data :=
        congrArg String.data h
      simp only [hexEncodeToString, List.flatMap_cons, List.cons_append, List.nil_append,
        List.cons.injEq] at hd
      obtain ⟨h1, h2, h3⟩ := hd
      have ha : a.toNat < 256 := a.val.isLt
      have hb : b.toNat < 256 := b.val.isLt
      have e1 := hexDigit_eq _ _ (by omega) (by omega) h1
      have e2 := hexDigit_eq _ _ (by omega) (by omega) h2
      have hab : a = b := UInt8.ext (by omega)
      have hrest : bs1 = bs2 := ih bs2 (by
        simp only [hexEncodeToString]
        exact congrArg String.mk h3)
      rw [hab, hrest]

end HexLemmas

namespace Gateway

theorem setBucket_same (m : Buckets) (ip : String) (b : bucket) : setBucket m ip b ip = some b := by
  simp [setBucket]

/-- Inside the window a call on an existing bucket never refills: it spends one token when
one is left and is refused otherwise. -/
theorem allow_in_window (rate per now : Int) (ip : String) (m : Buckets) (b : bucket)
    (hb : m ip = some b) (hp : 0 < per) (hw : now - b.last < per) :
    allow rate per now ip m =
      if b.tokens > 0 then (true, setBucket m ip { b with tokens := b.tokens - 1 })
      else (false, setBucket m ip b) := by
  have h1 : ¬ (timeSub now b.last ≥ per) := not_le.mpr (timeSub_lt_of_lt hp hw)
  simp only [allow, hb, h1, if_false]

/-- On an existing bucket whose window started at `t0`, the `i`-th call (0-based) of a run
staying inside the window is allowed exactly when `i < tokens`. -/
theorem allowCalls_in_window (rate per : Int) (ip : String) (t0 : Int) (hp : 0 < per) :
    ∀ (ts : List Int) (m : Buckets) (b : bucket), m ip = some b → b.last = t0 →
      (∀ t ∈ ts, t - t0 < per) →
      ∀ i, i < ts.length →
        (allowCalls rate per ip ts m).1.get? i = some (decide ((i : Int) < b.tokens)) := by
  intro ts
  induction ts with
  | nil => intro m b _ _ _ i hi; simp at hi
  | cons t rest ih =>
    intro m b hb hl hw i hi
    have hwt : t - b.last < per := by rw [hl]; exact hw t (List.mem_cons_self _ _)
    have hstep := allow_in_window rate per t ip m b hb hp hwt
    have hw' : ∀ t ∈ rest, t - t0 < per := fun x hx => hw x (List.mem_cons_of_mem _ hx)
    by_cases htok : b.tokens > 0
    · rw [if_pos htok] at hstep
      cases i with
      | zero => simp [allowCalls, hstep, htok]
      | succ j =>
        have hj : j < rest.length := by simpa using hi
        have := ih (setBucket m ip { b with tokens := b.tokens - 1 })
          { b with tokens := b.tokens - 1 } (setBucket_same _ _ _) hl hw' j hj
        simp only [allowCalls, hstep, List.get?_cons_succ, this]
        congr 1
        simp only [decide_eq_decide]
        push_cast
        omega
    · rw [if_neg htok] at hstep
      cases i with
      | zero => simp [allowCalls, hstep, htok]
      | succ j =>
        have hj : j < rest.length := by simpa using hi
        have := ih (setBucket m ip b) b (setBucket_same _ _ _) hl hw' j hj
        simp only [allowCalls, hstep, List.get?_cons_succ, this]
        congr 1
        simp only [decide_eq_decide]
        push_cast
        omega

end Gateway

namespace Gateway

theorem setBucket_setBucket (m : Buckets) (ip : String) (b c : bucket) :
    setBucket (setBucket m ip b) ip c = setBucket m ip c := by
  funext k
  simp only [setBucket]
  split_ifs <;> rfl

/-- The first call for a key without a bucket behaves like a call on the bucket that the
call itself creates. -/
theorem allow_fresh (rate per now : Int) (ip : String) (m : Buckets) (hm : m ip = none) :
    allow rate per now ip m
      = allow rate per now ip (setBucket m ip { tokens := rate, last := now }) := by
  simp only [allow, hm, setBucket_same, setBucket_setBucket]

/-- C1. Rate limiter `allow(ip)` with capacity `rate` and window `per`: for a client key
that has no bucket yet and a run of calls for that key whose clock readings all lie strictly
less than `per` after the reading `t0` of the first call, the `i`-th call (1-based, so index
`i - 1` in the list of decisions) returns true if and only if `i ≤ rate`; in particular with
`rate = 2` three such calls return `[true, true, false]`. -/
theorem allow_fresh_window_first_rate_calls (rate per : Int) (ip : String) (m : Buckets)
    (t0 : Int) (ts : List Int) (hfresh : m ip = none)
    (hwin : ∀ t ∈ t0 :: ts, t - t0 < per) :
    (allowCalls rate per ip (t0 :: ts) m).1.length = (t0 :: ts).length ∧
    (∀ i, 1 ≤ i → i ≤ (t0 :: ts).length →
      (allowCalls rate per ip (t0 :: ts) m).1.get? (i - 1) = some (decide ((i : Int) ≤ rate))) ∧
    (rate = 2 → ts.length = 2 →
      (allowCalls rate per ip (t0 :: ts) m).1 = [true, true, false]) := by
  have hp : 0 < per := by simpa using hwin t0 (List.mem_cons_self _ _)
  have hrun : allowCalls rate per ip (t0 :: ts) m
      = allowCalls rate per ip (t0 :: ts) (setBucket m ip { tokens := rate, last := t0 }) := by
    simp only [allowCalls, allow_fresh rate per t0 ip m hfresh]
  have hidx : ∀ i, i < (t0 :: ts).length →
      (allowCalls rate per ip (t0 :: ts) m).1.get? i = some (decide ((i : Int) < rate)) := by
    intro i hi
    rw [hrun]
    exact allowCalls_in_window rate per ip t0 hp (t0 :: ts) _ { tokens := rate, last := t0 }
      (setBucket_same _ _ _) rfl hwin i hi
  have hlen : ∀ (l : List Int) (m : Buckets), (allowCalls rate per ip l m).1.length = l.length := by
    intro l
    induction l with
    | nil => intro m; rfl
    | cons a l ih => intro m; simp [allowCalls, ih]
  refine ⟨hlen _ _, ?_, ?_⟩
  · intro i h1 h2
    have := hidx (i - 1) (by omega)
    rw [this]
    congr 1
    simp only [decide_eq_decide]
    omega
  · intro hr hl
    have h3 : (allowCalls rate per ip (t0 :: ts) m).1.length = 3 := by
      rw [hlen]; simp [hl]
    have e0 := hidx 0 (by simp)
    have e1 := hidx 1 (by simp [hl])
    have e2 := hidx 2 (by simp [hl])
    subst hr
    generalize (allowCalls 2 per ip (t0 :: ts) m).1 = ds at h3 e0 e1 e2
    match ds, h3 with
    | [a, b, c], _ =>
      simp at e0 e1 e2
      simp [e0, e1, e2]

/-- Witness for C1: capacity 2, window 10s, three calls at 0s, 1s and 2s on an empty map. -/
theorem allow_fresh_window_first_rate_calls_witness :
    emptyBuckets "10.0.0.1" = none ∧
    (∀ t ∈ (0 : Int) :: [1 * second, 2 * second], t - 0 < per) ∧
    (allowCalls 2 per "10.0.0.1" [0, 1 * second, 2 * second] emptyBuckets).1
      = [true, true, false] :=
  ⟨rfl, by simp [per, second],
    (allow_fresh_window_first_rate_calls 2 per "10.0.0.1" emptyBuckets 0
      [1 * second, 2 * second] rfl (by simp [per, second])).2.2 rfl rfl⟩

end Gateway

namespace Payments

theorem allow_open_not_after (b : breaker) (now : Int) (hs : b.state = "open")
    (hle : now ≤ b.openUntil) : b.allow now = (false, b) := by
  have h : timeAfter now b.openUntil = false := by
    simp only [timeAfter, decide_eq_false_iff_not]; omega
  simp [breaker.allow, hs, h]

theorem allow_open_after (b : breaker) (now : Int) (hs : b.state = "open")
    (hlt : b.openUntil < now) : b.allow now = (true, { b with state := "half" }) := by
  have h : timeAfter now b.openUntil = true := by
    simp only [timeAfter, decide_eq_true_eq]; exact hlt
  simp [breaker.allow, hs, h]

theorem allow_not_open (b : breaker) (now : Int) (hs : b.state ≠ "open") :
    b.allow now = (true, b) := by
  simp [breaker.allow, hs]

/-- While the breaker is open, calls that are not later than `openUntil` are all refused and
change nothing. -/
theorem allowCalls_open_not_after (b : breaker) (hs : b.state = "open") :
    ∀ nows : List Int, (∀ now ∈ nows, now ≤ b.openUntil) →
      b.allowCalls nows = (List.replicate nows.length false, b) := by
  intro nows
  induction nows with
  | nil => intro _; rfl
  | cons t rest ih =>
    intro h
    have h1 := allow_open_not_after b t hs (h t (List.mem_cons_self _ _))
    have h2 := ih (fun x hx => h x (List.mem_cons_of_mem _ hx))
    simp [breaker.allowCalls, h1, h2, List.replicate_succ]

theorem report_failure_closed (b : breaker) (e : String) (now : Int) (hs : b.state = "closed") :
    b.report (some e) now =
      if wrapInt (b.failCount + 1) ≥ 3 then
        { state := "open", failCount := wrapInt (b.failCount + 1),
          openUntil := timeAdd now (10 * second) }
      else { b with failCount := wrapInt (b.failCount + 1) } := by
  have h : ¬ b.state = "half" := by rw [hs]; decide
  simp only [breaker.report, h, if_false]

/-- C2. Circuit breaker trip: from a closed breaker with `failCount = 0`, one or two
consecutive failure reports leave the breaker closed (and `allow` still true), the third
sets the state to open with `openUntil` = (clock reading of the third report) + 10s, and
every run of `allow()` calls at readings earlier than that `openUntil` returns false each
time and leaves the breaker as it is, so still open. -/
theorem breaker_trips_on_third_failure (b : breaker) (e1 e2 e3 : String) (t1 t2 t3 : Int)
    (hs : b.state = "closed") (hf : b.failCount = 0) :
    (b.report (some e1) t1).state = "closed" ∧
    (∀ now, ((b.report (some e1) t1).allow now).1 = true) ∧
    ((b.report (some e1) t1).report (some e2) t2).state = "closed" ∧
    (∀ now, (((b.report (some e1) t1).report (some e2) t2).allow now).1 = true) ∧
    (((b.report (some e1) t1).report (some e2) t2).report (some e3) t3).state = "open" ∧
    (((b.report (some e1) t1).report (some e2) t2).report (some e3) t3).openUntil
      = t3 + 10 * second ∧
    (∀ nows : List Int,
      (∀ now ∈ nows,
        now < (((b.report (some e1) t1).report (some e2) t2).report (some e3) t3).openUntil) →
      (((b.report (some e1) t1).report (some e2) t2).report (some e3) t3).allowCalls nows
        = (List.replicate nows.length false,
            ((b.report (some e1) t1).report (some e2) t2).report (some e3) t3)) ∧
    (∀ now, now < t3 + 10 * second →
      ((((b.report (some e1) t1).report (some e2) t2).report (some e3) t3).allow now).1 = false ∧
      ((((b.report (some e1) t1).report (some e2) t2).report (some e3) t3).allow now).2.state
        = "open") := by
  have w1 : wrapInt (0 + 1) = 1 := by decide
  have w2 : wrapInt (1 + 1) = 2 := by decide
  have w3 : wrapInt (2 + 1) = 3 := by decide
  have r1 : b.report (some e1) t1 = { b with failCount := 1 } := by
    rw [report_failure_closed b e1 t1 hs, hf, w1]; simp
  have r2 : (b.report (some e1) t1).report (some e2) t2 = { b with failCount := 2 } := by
    rw [r1, report_failure_closed { b with failCount := 1 } e2 t2 hs]
    simp only [w2]; simp
  have r3 : ((b.report (some e1) t1).report (some e2) t2).report (some e3) t3
      = { state := "open", failCount := 3, openUntil := t3 + 10 * second } := by
    rw [r2, report_failure_closed { b with failCount := 2 } e3 t3 hs]
    simp only [w3]; simp [timeAdd]
  have hno : b.state ≠ "open" := by rw [hs]; decide
  rw [r3, r2, r1]
  refine ⟨hs, ?_, hs, ?_, rfl, rfl, ?_, ?_⟩
  · intro now; rw [allow_not_open { b with failCount := 1 } now hno]
  · intro now; rw [allow_not_open { b with failCount := 2 } now hno]
  · intro nows h
    exact allowCalls_open_not_after _ rfl nows (fun x hx => le_of_lt (h x hx))
  · intro now h
    rw [allow_open_not_after _ now rfl (le_of_lt h)]
    exact ⟨rfl, rfl⟩

/-- Witness for C2: the initial breaker `brk`, failures reported at 1s, 2s and 3s, then
`allow()` at 4s and at 12s, both before 13s. -/
theorem breaker_trips_on_third_failure_witness :
    brk.state = "closed" ∧ brk.failCount = 0 ∧
    (((brk.report (some "5xx") (1 * second)).report (some "5xx") (2 * second)).report
        (some "5xx") (3 * second)).state = "open" ∧
    (((brk.report (some "5xx") (1 * second)).report (some "5xx") (2 * second)).report
        (some "5xx") (3 * second)).openUntil = 3 * second + 10 * second ∧
    ((((brk.report (some "5xx") (1 * second)).report (some "5xx") (2 * second)).report
        (some "5xx") (3 * second)).allowCalls [4 * second, 12 * second]).1 = [false, false] :=
  have h := breaker_trips_on_third_failure brk "5xx" "5xx" "5xx" (1 * second) (2 * second)
    (3 * second) rfl rfl
  ⟨rfl, rfl, h.2.2.2.2.1, h.2.2.2.2.2.1, by
    rw [h.2.2.2.2.2.2.1 [4 * second, 12 * second] (by
      intro now hnow
      rw [h.2.2.2.2.2.1]
      simp only [List.mem_cons, List.mem_singleton, List.not_mem_nil, or_false] at hnow
      rcases hnow with rfl | rfl <;> simp [second])]
    rfl⟩

end Payments

namespace Payments

/-- C3, as stated, fails at the boundary: the breaker tripped by three failures at reading 0
has `openUntil` = 10s; an `allow()` at exactly 10s (so `now ≥ openUntil`) returns false and
the breaker stays open. -/
theorem allow_at_openUntil_refused :
    (((brk.report (some "5xx") 0).report (some "5xx") 0).report (some "5xx") 0).state = "open" ∧
    (((brk.report (some "5xx") 0).report (some "5xx") 0).report (some "5xx") 0).openUntil
      = 10 * second ∧
    (10 * second : Int)
      ≥ (((brk.report (some "5xx") 0).report (some "5xx") 0).report (some "5xx") 0).openUntil ∧
    ((((brk.report (some "5xx") 0).report (some "5xx") 0).report (some "5xx") 0).allow
      (10 * second)).1 = false ∧
    ((((brk.report (some "5xx") 0).report (some "5xx") 0).report (some "5xx") 0).allow
      (10 * second)).2.state = "open" := by
  decide

/-- C3 (amended). Open -> HalfOpen: for an open breaker, an `allow()` at a reading strictly
later than `openUntil` returns true and changes the state to half-open (the other fields
are kept), while an `allow()` at a reading not later than `openUntil`, equality included,
returns false and changes nothing; so after tripping at reading `t` (`openUntil = t + 10s`),
`allow()` at `t + 1s` returns false and `allow()` at `t + 11s` returns true and enters
half-open. -/
theorem allow_open_to_half_strictly_after (b : breaker) (now : Int) (hs : b.state = "open") :
    (b.openUntil < now →
      b.allow now = (true, { state := "half", failCount := b.failCount,
                             openUntil := b.openUntil })) ∧
    (now ≤ b.openUntil → b.allow now = (false, b)) ∧
    (∀ t, b.openUntil = t + 10 * second →
      (b.allow (t + 1 * second)).1 = false ∧
      (b.allow (t + 1 * second)).2.state = "open" ∧
      (b.allow (t + 11 * second)).1 = true ∧
      (b.allow (t + 11 * second)).2.state = "half") := by
  refine ⟨fun h => allow_open_after b now hs h, fun h => allow_open_not_after b now hs h, ?_⟩
  intro t ht
  have h1 : t + 1 * second ≤ b.openUntil := by rw [ht]; simp only [second]; omega
  have h2 : b.openUntil < t + 11 * second := by rw [ht]; simp only [second]; omega
  rw [allow_open_not_after b _ hs h1, allow_open_after b _ hs h2]
  exact ⟨rfl, hs, rfl, rfl⟩

/-- Witness for C3 (amended): a breaker open until 10s, asked at 11s. -/
theorem allow_open_to_half_strictly_after_witness :
    (⟨"open", 3, 10 * second⟩ : breaker).state = "open" ∧
    (⟨"open", 3, 10 * second⟩ : breaker).openUntil < 11 * second ∧
    (⟨"open", 3, 10 * second⟩ : breaker).allow (11 * second)
      = (true, ⟨"half", 3, 10 * second⟩) :=
  ⟨rfl, by decide,
    (allow_open_to_half_strictly_after ⟨"open", 3, 10 * second⟩ (11 * second) rfl).1
      (by decide)⟩

/-- C4 fails on the code: the breaker tripped by three failures at reading 0 is asked at 11s,
12s and 13s with no report in between; the first call moves it to half-open and returns
true, and the two further calls return true as well. -/
theorem allow_half_open_admits_every_call :
    ((((brk.report (some "5xx") 0).report (some "5xx") 0).report (some "5xx") 0).allow
      (11 * second)) = (true, ⟨"half", 3, 10 * second⟩) ∧
    ((((brk.report (some "5xx") 0).report (some "5xx") 0).report (some "5xx") 0).allowCalls
      [11 * second, 12 * second, 13 * second]) = ([true, true, true], ⟨"half", 3, 10 * second⟩) := by
  decide

/-- C5. HalfOpen -> Closed: for a half-open breaker, `report(nil)` sets the state to closed
and `failCount` to 0 whatever `failCount` and `openUntil` were (and keeps `openUntil`);
and every transition into closed leaves `failCount = 0`: a `report` that takes a breaker
from a state other than closed to closed ends with `failCount = 0`, `allow` never enters
closed from another state, and the initial breaker `brk` is closed with `failCount = 0`. -/
theorem report_success_in_half_closes_and_resets (b : breaker) (now : Int)
    (hs : b.state = "half") :
    b.report none now = { state := "closed", failCount := 0, openUntil := b.openUntil } ∧
    (∀ (c : breaker) (err : Option String) (t : Int), c.state ≠ "closed" →
      (c.report err t).state = "closed" → (c.report err t).failCount = 0) ∧
    (∀ (c : breaker) (t : Int), c.state ≠ "closed" → (c.allow t).2.state ≠ "closed") ∧
    (brk.state = "closed" ∧ brk.failCount = 0) := by
  refine ⟨by simp [breaker.report, hs], ?_, ?_, rfl, rfl⟩
  · intro c err t hc hr
    by_cases hh : c.state = "half"
    · cases err with
      | none => simp [breaker.report, hh]
      | some e => simp [breaker.report, hh] at hr
    · cases err with
      | none => simp [breaker.report, hh] at hr; exact absurd hr hc
      | some e =>
        simp only [breaker.report, hh, if_false] at hr
        split_ifs at hr
        · simp at hr
        · exact absurd hr hc
  · intro c t hc
    simp only [breaker.allow]
    split_ifs with h1 h2
    · simp
    · exact hc
    · exact hc

/-- Witness for C5: a half-open breaker with `failCount = 7`, success reported at 5s. -/
theorem report_success_in_half_closes_and_resets_witness :
    (⟨"half", 7, 123⟩ : breaker).state = "half" ∧
    (⟨"half", 7, 123⟩ : breaker).report none (5 * second) = ⟨"closed", 0, 123⟩ :=
  ⟨rfl, (report_success_in_half_closes_and_resets ⟨"half", 7, 123⟩ (5 * second) rfl).1⟩

/-- C6. HalfOpen -> Open: for a half-open breaker, `report(err)` with `err != nil` at clock
reading `now` sets the state to open and `openUntil` to `now + 10s`, whatever `openUntil`
was before (`failCount` is kept), and every `allow()` at a reading before that new
`openUntil` returns false and leaves the breaker open. -/
theorem report_failure_in_half_reopens_fresh_cooldown (b : breaker) (e : String) (now : Int)
    (hs : b.state = "half") :
    b.report (some e) now
      = { state := "open", failCount := b.failCount, openUntil := now + 10 * second } ∧
    (∀ t, t < now + 10 * second →
      (b.report (some e) now).allow t = (false, b.report (some e) now)) ∧
    (∀ nows : List Int, (∀ t ∈ nows, t < now + 10 * second) →
      (b.report (some e) now).allowCalls nows
        = (List.replicate nows.length false, b.report (some e) now)) := by
  have hr : b.report (some e) now
      = { state := "open", failCount := b.failCount, openUntil := now + 10 * second } := by
    simp [breaker.report, hs, timeAdd]
  rw [hr]
  refine ⟨rfl, ?_, ?_⟩
  · intro t ht
    exact allow_open_not_after _ t rfl (le_of_lt ht)
  · intro nows h
    exact allowCalls_open_not_after _ rfl nows (fun x hx => le_of_lt (h x hx))

/-- Witness for C6: a probe fails at 20s on a breaker first opened until 10s; the breaker is
open until 30s and refuses a call at 25s, long after the original `openUntil`. -/
theorem report_failure_in_half_reopens_fresh_cooldown_witness :
    (⟨"half", 3, 10 * second⟩ : breaker).state = "half" ∧
    (⟨"half", 3, 10 * second⟩ : breaker).report (some "timeout") (20 * second)
      = ⟨"open", 3, 20 * second + 10 * second⟩ ∧
    (25 * second : Int) < 20 * second + 10 * second ∧
    ((⟨"half", 3, 10 * second⟩ : breaker).report (some "timeout") (20 * second)).allow
        (25 * second)
      = (false, (⟨"half", 3, 10 * second⟩ : breaker).report (some "timeout") (20 * second)) :=
  have h := report_failure_in_half_reopens_fresh_cooldown ⟨"half", 3, 10 * second⟩ "timeout"
    (20 * second) rfl
  ⟨rfl, h.1, by decide, h.2.1 (25 * second) (by decide)⟩

end Payments

namespace Meshproxy

/-- When `http.NewRequest` returns nil, an iteration that is run panics. -/
theorem retryLoop_rejected (newRequestOK : String → String → Bool)
    (upstream : Nat → DoResult) (r : Request) (traceID target : String) (inBody : Bytes)
    (fuel attempt : Nat) (v : LoopVars) (ha : attempt ≤ maxRetries)
    (hno : newRequestOK r.method target = false) :
    retryLoop newRequestOK upstream r traceID target inBody (fuel + 1) attempt v = none := by
  simp only [retryLoop, ha, if_true, hno]
  rfl

/-- One iteration whose outbound call fails: the call is recorded, a transport error is
stored in `err`, a 5xx response is stored in `lastStatus` and `lastBody`, and the loop goes
on with the next attempt. -/
theorem retryLoop_step_failed (newRequestOK : String → String → Bool)
    (upstream : Nat → DoResult) (r : Request)
    (traceID target : String) (inBody : Bytes) (fuel attempt : Nat) (v : LoopVars)
    (hok : newRequestOK r.method target = true)
    (ha : attempt ≤ maxRetries) (hf : (upstream attempt).failed = true) :
    ∃ v1 : LoopVars,
      retryLoop newRequestOK upstream r traceID target inBody (fuel + 1) attempt v
        = retryLoop newRequestOK upstream r traceID target inBody fuel (attempt + 1) v1 ∧
      v1.sent = v.sent ++ [outboundRequest r traceID target inBody] ∧
      (∀ e, upstream attempt = DoResult.failure e →
        v1.err = some e ∧ v1.lastStatus = v.lastStatus ∧ v1.lastBody = v.lastBody) ∧
      (∀ st b, upstream attempt = DoResult.response st b →
        v1.err = v.err ∧ v1.lastStatus = st ∧ v1.lastBody = b) := by
  cases hu : upstream attempt with
  | failure e =>
    refine ⟨{ lastStatus := v.lastStatus, lastBody := v.lastBody, err := some e,
              totalRetry := if attempt > 0 then wrapInt (v.totalRetry + 1) else v.totalRetry,
              sent := v.sent ++ [outboundRequest r traceID target inBody] }, ?_, rfl, ?_, ?_⟩
    · simp only [retryLoop, ha, if_true, hok, hu]
      split_ifs <;> rfl
    · intro e1 he1
      cases he1
      exact ⟨rfl, rfl, rfl⟩
    · intro st b h; cases h
  | response st b =>
    have hst : st ≥ 500 := by simpa [hu, DoResult.failed] using hf
    refine ⟨{ lastStatus := st, lastBody := b, err := v.err,
              totalRetry := if attempt > 0 then wrapInt (v.totalRetry + 1) else v.totalRetry,
              sent := v.sent ++ [outboundRequest r traceID target inBody] }, ?_, rfl, ?_, ?_⟩
    · simp only [retryLoop, ha, if_true, hok, hu, hst]
      split_ifs <;> rfl
    · intro e h; cases h
    · intro st1 b1 h
      cases h
      exact ⟨rfl, rfl, rfl⟩

/-- One iteration whose outbound call returns a status below 500: the call is recorded and
the loop ends with `err = nil` and that status and body. -/
theorem retryLoop_step_success (newRequestOK : String → String → Bool)
    (upstream : Nat → DoResult) (r : Request)
    (traceID target : String) (inBody : Bytes) (fuel attempt : Nat) (v : LoopVars)
    (st : Int) (b : Bytes) (hok : newRequestOK r.method target = true)
    (ha : attempt ≤ maxRetries) (hu : upstream attempt = DoResult.response st b)
    (hst : st < 500) :
    retryLoop newRequestOK upstream r traceID target inBody (fuel + 1) attempt v
      = some { lastStatus := st, lastBody := b, err := none,
               totalRetry := if attempt > 0 then wrapInt (v.totalRetry + 1) else v.totalRetry,
               sent := v.sent ++ [outboundRequest r traceID target inBody] } := by
  have hst1 : ¬ st ≥ 500 := not_le.mpr hst
  simp only [retryLoop, ha, if_true, hok, hu, hst1, if_false]
  split_ifs <;> rfl

/-- The iteration bound of `retryLoop` is not what ends the loop: once it covers the
iterations up to `maxRetries`, a larger bound gives the same result. -/
theorem retryLoop_fuel_enough (newRequestOK : String → String → Bool)
    (upstream : Nat → DoResult) (r : Request)
    (traceID target : String) (inBody : Bytes) (extra : Nat) :
    ∀ (fuel attempt : Nat) (v : LoopVars), maxRetries + 1 ≤ attempt + fuel →
      retryLoop newRequestOK upstream r traceID target inBody (fuel + extra) attempt v
        = retryLoop newRequestOK upstream r traceID target inBody fuel attempt v := by
  intro fuel
  induction fuel with
  | zero =>
    intro attempt v h
    have hgt : ¬ attempt ≤ maxRetries := by omega
    cases extra with
    | zero => rfl
    | succ n => simp only [Nat.zero_add, retryLoop, hgt, if_false]
  | succ fuel ih =>
    intro attempt v h
    have e : fuel + 1 + extra = fuel + extra + 1 := by omega
    rw [e]
    by_cases ha : attempt ≤ maxRetries
    · by_cases hok : newRequestOK r.method target = true
      · cases hu : upstream attempt with
        | failure e =>
          simp only [retryLoop, ha, if_true, hok, hu]
          exact ih (attempt + 1) _ (by omega)
        | response st b =>
          by_cases hst : st ≥ 500
          · simp only [retryLoop, ha, if_true, hok, hu, hst]
            exact ih (attempt + 1) _ (by omega)
          · simp only [retryLoop, ha, if_true, hok, hu, hst, if_false]
      · have hno : newRequestOK r.method target = false := by simpa using hok
        rw [retryLoop_rejected newRequestOK upstream r traceID target inBody _ attempt v ha hno,
          retryLoop_rejected newRequestOK upstream r traceID target inBody _ attempt v ha hno]
    · simp only [retryLoop, ha, if_false]

/-- A stretch of `k` failing iterations starting at `attempt`: the loop reaches iteration
`attempt + k` having issued `k` more calls; `err` is set as soon as one of them errored (or
was set before), is untouched when all of them returned a response, and the last response
of the stretch, if its last call returned one, is what `lastStatus` and `lastBody` hold. -/
theorem retryLoop_failed_stretch (newRequestOK : String → String → Bool)
    (upstream : Nat → DoResult) (r : Request)
    (traceID target : String) (inBody : Bytes) (hok : newRequestOK r.method target = true) :
    ∀ (k fuel attempt : Nat) (v : LoopVars), attempt + k ≤ maxRetries + 1 →
      (∀ i, attempt ≤ i → i < attempt + k → (upstream i).failed = true) →
      ∃ v1 : LoopVars,
        retryLoop newRequestOK upstream r traceID target inBody (fuel + k) attempt v
          = retryLoop newRequestOK upstream r traceID target inBody fuel (attempt + k) v1 ∧
        v1.sent = v.sent ++ List.replicate k (outboundRequest r traceID target inBody) ∧
        ((v.err ≠ none ∨ ∃ i e, attempt ≤ i ∧ i < attempt + k ∧ upstream i = DoResult.failure e) →
          v1.err ≠ none) ∧
        ((∀ i, attempt ≤ i → i < attempt + k → ∃ st b, upstream i = DoResult.response st b) →
          v1.err = v.err) ∧
        (∀ st b, 0 < k → upstream (attempt + k - 1) = DoResult.response st b →
          v1.lastStatus = st ∧ v1.lastBody = b) ∧
        (k = 0 → v1 = v) := by
  intro k
  induction k with
  | zero =>
    intro fuel attempt v _ _
    refine ⟨v, rfl, by simp, ?_, fun _ => rfl, ?_, fun _ => rfl⟩
    · rintro (h | ⟨i, e, h1, h2, _⟩)
      · exact h
      · omega
    · intro st b h; omega
  | succ k ih =>
    intro fuel attempt v hle hfail
    have ha : attempt ≤ maxRetries := by omega
    obtain ⟨v1, hrun1, hsent1, herr1, hresp1⟩ :=
      retryLoop_step_failed newRequestOK upstream r traceID target inBody (fuel + k) attempt v
        hok ha (hfail attempt (le_refl _) (by omega))
    obtain ⟨v2, hrun2, hsent2, herr2, hkeep2, hlast2, hzero2⟩ :=
      ih fuel (attempt + 1) v1 (by omega) (fun i h1 h2 => hfail i (by omega) (by omega))
    refine ⟨v2, ?_, ?_, ?_, ?_, ?_, fun h => by omega⟩
    · have e1 : fuel + (k + 1) = fuel + k + 1 := by omega
      have e2 : attempt + (k + 1) = attempt + 1 + k := by omega
      rw [e1, hrun1, hrun2, e2]
    · rw [hsent2, hsent1, List.append_assoc, List.replicate_succ]
      rfl
    · intro h
      apply herr2
      rcases h with h | ⟨i, e, h1, h2, h3⟩
      · left
        cases hu : upstream attempt with
        | failure e => rw [(herr1 e hu).1]; simp
        | response st b => rw [(hresp1 st b hu).1]; exact h
      · by_cases hi : i = attempt
        · left
          subst hi
          rw [(herr1 e h3).1]; simp
        · right
          exact ⟨i, e, by omega, by omega, h3⟩
    · intro h
      rw [hkeep2 (fun i h1 h2 => h i (by omega) (by omega))]
      obtain ⟨st, b, hu⟩ := h attempt (le_refl _) (by omega)
      exact (hresp1 st b hu).1
    · intro st b _ hu
      by_cases hk : k = 0
      · subst hk
        rw [hzero2 rfl]
        have hu1 : upstream attempt = DoResult.response st b := by simpa using hu
        exact (hresp1 st b hu1).2
      · have hidx : attempt + 1 + k - 1 = attempt + (k + 1) - 1 := by omega
        exact hlast2 st b (by omega) (by rw [hidx]; exact hu)

end Meshproxy

namespace Meshproxy

/-- A run whose request `http.NewRequest` rejects panics: nothing is sent and no response is
written. -/
theorem handleProxy_of_rejected (newRequestOK : String → String → Bool)
    (upstream : Nat → DoResult) (entropy : Fin 8 → UInt8) (totalReq totalRetry : Int)
    (r : Request) (hno : newRequestOK r.method (upstreamURL ++ r.path) = false) :
    handleProxy newRequestOK upstream entropy totalReq totalRetry r = none := by
  simp only [handleProxy]
  rw [retryLoop_rejected newRequestOK upstream r _ _ _ maxRetries 0 _ (Nat.zero_le _) hno]

/-- When the loop ends with `err = nil` the response relays `lastStatus` and `lastBody`. -/
theorem handleProxy_of_err_none (newRequestOK : String → String → Bool)
    (upstream : Nat → DoResult) (entropy : Fin 8 → UInt8) (totalReq totalRetry : Int)
    (r : Request) (v : LoopVars)
    (hv : proxyLoop newRequestOK upstream entropy totalRetry r = some v)
    (h : v.err = none) :
    handleProxy newRequestOK upstream entropy totalReq totalRetry r
      = some
          { response :=
              { status := v.lastStatus
                header := headerSet (headerSet [] "X-Request-ID" (proxyTraceID entropy r))
                  "Content-Type" "application/json"
                body := v.lastBody }
            totalReq := wrapInt (totalReq + 1)
            totalRetry := v.totalRetry
            sent := v.sent } := by
  simp only [proxyLoop, proxyTraceID] at hv
  simp only [handleProxy, proxyTraceID, hv, h]

/-- When the loop ends with `err != nil` the response is the 502 error response. -/
theorem handleProxy_of_err_some (newRequestOK : String → String → Bool)
    (upstream : Nat → DoResult) (entropy : Fin 8 → UInt8) (totalReq totalRetry : Int)
    (r : Request) (v : LoopVars)
    (hv : proxyLoop newRequestOK upstream entropy totalRetry r = some v)
    (h : v.err ≠ none) :
    handleProxy newRequestOK upstream entropy totalReq totalRetry r
      = some
          { response := upstreamUnavailable
            totalReq := wrapInt (totalReq + 1)
            totalRetry := v.totalRetry
            sent := v.sent } := by
  simp only [proxyLoop, proxyTraceID] at hv
  cases he : v.err with
  | none => exact absurd he h
  | some e => simp only [handleProxy, hv, he, upstreamUnavailable]

/-- The outbound calls of a run that does not panic are those of its loop. -/
theorem handleProxy_sent (newRequestOK : String → String → Bool)
    (upstream : Nat → DoResult) (entropy : Fin 8 → UInt8) (totalReq totalRetry : Int)
    (r : Request) (run : ProxyRun)
    (h : handleProxy newRequestOK upstream entropy totalReq totalRetry r = some run) :
    ∃ v, proxyLoop newRequestOK upstream entropy totalRetry r = some v ∧ run.sent = v.sent := by
  cases hv : proxyLoop newRequestOK upstream entropy totalRetry r with
  | none =>
    simp only [proxyLoop, proxyTraceID] at hv
    simp [handleProxy, hv] at h
  | some v =>
    refine ⟨v, rfl, ?_⟩
    by_cases he : v.err = none
    · rw [handleProxy_of_err_none newRequestOK upstream entropy totalReq totalRetry r v hv he]
        at h
      cases h; rfl
    · rw [handleProxy_of_err_some newRequestOK upstream entropy totalReq totalRetry r v hv he]
        at h
      cases h; rfl

/-- A run whose loop ends without a panic: what it sent and counted is what the loop did,
and the response relays `lastStatus` and `lastBody` when `err` is nil and is the 502 error
response otherwise. -/
theorem handleProxy_of_loop (newRequestOK : String → String → Bool)
    (upstream : Nat → DoResult) (entropy : Fin 8 → UInt8) (totalReq totalRetry : Int)
    (r : Request) (v : LoopVars)
    (hv : proxyLoop newRequestOK upstream entropy totalRetry r = some v) :
    ∃ run, handleProxy newRequestOK upstream entropy totalReq totalRetry r = some run ∧
      run.sent = v.sent ∧ run.totalRetry = v.totalRetry ∧
      (v.err = none → run.response.status = v.lastStatus ∧ run.response.body = v.lastBody) ∧
      (v.err ≠ none → run.response = upstreamUnavailable) := by
  by_cases he : v.err = none
  · rw [handleProxy_of_err_none newRequestOK upstream entropy totalReq totalRetry r v hv he]
    exact ⟨_, rfl, rfl, rfl, fun _ => ⟨rfl, rfl⟩, fun h => absurd he h⟩
  · rw [handleProxy_of_err_some newRequestOK upstream entropy totalReq totalRetry r v hv he]
    exact ⟨_, rfl, rfl, rfl, fun h => absurd h he, fun _ => rfl⟩

/-- When `http.NewRequest` accepts the request, the loop runs to its end; it only appends
copies of the one outbound request, and appends at least one when an iteration is run. -/
theorem retryLoop_sent_replicate (newRequestOK : String → String → Bool)
    (upstream : Nat → DoResult) (r : Request) (traceID target : String) (inBody : Bytes)
    (hok : newRequestOK r.method target = true) :
    ∀ (fuel attempt : Nat) (v : LoopVars), ∃ (w : LoopVars) (n : Nat),
      retryLoop newRequestOK upstream r traceID target inBody fuel attempt v = some w ∧
      w.sent = v.sent ++ List.replicate n (outboundRequest r traceID target inBody) ∧
      (attempt ≤ maxRetries → 1 ≤ fuel → 1 ≤ n) := by
  intro fuel
  induction fuel with
  | zero =>
    intro attempt v
    exact ⟨v, 0, rfl, by simp, fun _ h => absurd h (by omega)⟩
  | succ fuel ih =>
    intro attempt v
    by_cases ha : attempt ≤ maxRetries
    · by_cases hf : (upstream attempt).failed = true
      · obtain ⟨v1, hrun, hsent1, _⟩ :=
          retryLoop_step_failed newRequestOK upstream r traceID target inBody fuel attempt v
            hok ha hf
        obtain ⟨w, n, hw, hn, _⟩ := ih (attempt + 1) v1
        refine ⟨w, n + 1, by rw [hrun, hw], ?_, fun _ _ => by omega⟩
        rw [hn, hsent1, List.append_assoc, List.replicate_succ]
        rfl
      · cases hu : upstream attempt with
        | failure e => rw [hu] at hf; exact absurd rfl hf
        | response st b =>
          have hst : st < 500 := by
            rw [hu] at hf
            simpa [DoResult.failed] using hf
          refine ⟨_, 1, retryLoop_step_success newRequestOK upstream r traceID target inBody
            fuel attempt v st b hok ha hu hst, rfl, fun _ _ => le_refl _⟩
    · exact ⟨v, 0, by simp only [retryLoop, ha, if_false], by simp, fun h _ => absurd h ha⟩

/-- A run of `handleProxy` panics exactly when `http.NewRequest` rejects the method and
target URL; otherwise it sends at least one request and all it sends are copies of one. -/
theorem handleProxy_runs_iff (newRequestOK : String → String → Bool)
    (upstream : Nat → DoResult) (entropy : Fin 8 → UInt8) (totalReq totalRetry : Int)
    (r : Request) :
    (newRequestOK r.method (upstreamURL ++ r.path) = false →
      handleProxy newRequestOK upstream entropy totalReq totalRetry r = none) ∧
    (newRequestOK r.method (upstreamURL ++ r.path) = true →
      ∃ run n, handleProxy newRequestOK upstream entropy totalReq totalRetry r = some run ∧
        1 ≤ n ∧
        run.sent = List.replicate n
          (outboundRequest r (proxyTraceID entropy r) (upstreamURL ++ r.path) r.body)) := by
  refine ⟨handleProxy_of_rejected newRequestOK upstream entropy totalReq totalRetry r, ?_⟩
  intro hok
  obtain ⟨w, n, hw, hn, hpos⟩ := retryLoop_sent_replicate newRequestOK upstream r
    (proxyTraceID entropy r) (upstreamURL ++ r.path) r.body hok (maxRetries + 1) 0
    { lastStatus := 0, lastBody := [], err := none, totalRetry := totalRetry, sent := [] }
  obtain ⟨run, hrun, hsent, _⟩ :=
    handleProxy_of_loop newRequestOK upstream entropy totalReq totalRetry r w hw
  exact ⟨run, n, hrun, hpos (Nat.zero_le _) (by omega), by rw [hsent, hn]; rfl⟩

/-- The model at a path `http.NewRequest` rejects: for `/%zz` the run panics, whatever the
upstream would answer, while for `/ledger` it does not. -/
theorem handleProxy_malformed_path_panics :
    handleProxy plainRequestOK (fun _ => DoResult.response 200 []) (fun _ => 0) 0 0
      ⟨"GET", "/%zz", [], []⟩ = none ∧
    (handleProxy plainRequestOK (fun _ => DoResult.response 200 []) (fun _ => 0) 0 0
      ⟨"GET", "/ledger", [], []⟩).isSome = true := by
  decide

/-- The loop of `handleProxy` when every attempt fails. -/
theorem proxyLoop_all_failed (newRequestOK : String → String → Bool)
    (upstream : Nat → DoResult) (entropy : Fin 8 → UInt8)
    (totalRetry : Int) (r : Request)
    (hok : newRequestOK r.method (upstreamURL ++ r.path) = true)
    (hall : ∀ i, i ≤ maxRetries → (upstream i).failed = true) :
    ∃ v, proxyLoop newRequestOK upstream entropy totalRetry r = some v ∧
      v.sent = List.replicate (maxRetries + 1)
          (outboundRequest r (proxyTraceID entropy r) (upstreamURL ++ r.path) r.body) ∧
      ((∃ i e, i ≤ maxRetries ∧ upstream i = DoResult.failure e) → v.err ≠ none) ∧
      ((∀ i, i ≤ maxRetries → ∃ st b, upstream i = DoResult.response st b) → v.err = none) ∧
      (∀ st b, upstream maxRetries = DoResult.response st b →
        v.lastStatus = st ∧ v.lastBody = b) := by
  obtain ⟨v1, hrun, hsent, herr, hkeep, hlast, _⟩ :=
    retryLoop_failed_stretch newRequestOK upstream r (proxyTraceID entropy r)
      (upstreamURL ++ r.path) r.body hok (maxRetries + 1) 0 0
      { lastStatus := 0, lastBody := [], err := none, totalRetry := totalRetry, sent := [] }
      (by omega) (fun i _ h2 => hall i (by omega))
  have hloop : proxyLoop newRequestOK upstream entropy totalRetry r = some v1 := by
    rw [Nat.zero_add] at hrun
    rw [proxyLoop, hrun]
    rfl
  refine ⟨v1, hloop, by simpa using hsent, ?_, ?_, ?_⟩
  · rintro ⟨i, e, hi, hu⟩
    exact herr (Or.inr ⟨i, e, Nat.zero_le _, by omega, hu⟩)
  · intro h
    exact hkeep (fun i _ h2 => h i (by omega))
  · intro st b hu
    exact hlast st b (by omega) (by simpa using hu)

/-- The loop of `handleProxy` when the first `k` attempts fail and the next one returns a
status below 500. -/
theorem proxyLoop_success_after (newRequestOK : String → String → Bool)
    (upstream : Nat → DoResult) (entropy : Fin 8 → UInt8)
    (totalRetry : Int) (r : Request) (k : Nat) (st : Int) (b : Bytes)
    (hok : newRequestOK r.method (upstreamURL ++ r.path) = true)
    (hk : k ≤ maxRetries) (hfail : ∀ i, i < k → (upstream i).failed = true)
    (hu : upstream k = DoResult.response st b) (hst : st < 500) :
    ∃ v, proxyLoop newRequestOK upstream entropy totalRetry r = some v ∧
      v.sent = List.replicate (k + 1)
          (outboundRequest r (proxyTraceID entropy r) (upstreamURL ++ r.path) r.body) ∧
      v.err = none ∧ v.lastStatus = st ∧ v.lastBody = b ∧
      (k = 0 → v.totalRetry = totalRetry) := by
  obtain ⟨v1, hrun, hsent, _, _, _, hzero⟩ :=
    retryLoop_failed_stretch newRequestOK upstream r (proxyTraceID entropy r)
      (upstreamURL ++ r.path) r.body hok k (maxRetries - k + 1) 0
      { lastStatus := 0, lastBody := [], err := none, totalRetry := totalRetry, sent := [] }
      (by omega) (fun i _ h2 => hfail i (by omega))
  have hfuel : maxRetries - k + 1 + k = maxRetries + 1 := by omega
  have hloop : proxyLoop newRequestOK upstream entropy totalRetry r
      = some { lastStatus := st, lastBody := b, err := none,
               totalRetry := if k > 0 then wrapInt (v1.totalRetry + 1) else v1.totalRetry,
               sent := v1.sent
                 ++ [outboundRequest r (proxyTraceID entropy r) (upstreamURL ++ r.path)
                       r.body] } := by
    rw [hfuel, Nat.zero_add] at hrun
    rw [proxyLoop, hrun]
    exact retryLoop_step_success newRequestOK upstream r _ _ _ (maxRetries - k) k v1 st b hok
      hk hu hst
  refine ⟨_, hloop, ?_, rfl, rfl, rfl, ?_⟩
  · simp only [hsent, List.nil_append]
    rw [List.replicate_succ']
  · intro h0
    subst h0
    simp [hzero rfl]

end Meshproxy

namespace Meshproxy

/-- C8, as stated, fails: when the upstream answers 500 with body `boom` to every call of
`GET /ledger`, all three attempts are made and fail, yet the caller receives status 500 with
the upstream body, not 502. -/
theorem handleProxy_all_500_relays_upstream :
    plainRequestOK "GET" (upstreamURL ++ "/ledger") = true ∧
    (∀ i, i ≤ maxRetries →
      ((fun _ => DoResult.response 500 [98, 111, 111, 109]) i).failed = true) ∧
    (handleProxy plainRequestOK (fun _ => DoResult.response 500 [98, 111, 111, 109])
      (fun _ => 0) 0 0 ⟨"GET", "/ledger", [], []⟩).map
        (fun run => (run.sent.length, run.response.status, run.response.body))
      = some (3, 500, [98, 111, 111, 109]) ∧
    (500 : Int) ≠ StatusBadGateway :=
  ⟨by decide, fun _ _ => rfl, by decide, by decide⟩

/-- C8 (amended). Retry exhaustion result: when all `maxRetries + 1` attempts are made
(`http.NewRequest` returns a request for the method and target URL) and fail, and at least
one of them fails with a transport error or timeout, the caller receives the 502 Bad
Gateway response with the `upstream_timeout_or_unreachable` body; when all of them return a
response (each with status >= 500), the caller receives the status code and body of the
last upstream response. -/
theorem handleProxy_exhausted_response (newRequestOK : String → String → Bool)
    (upstream : Nat → DoResult)
    (entropy : Fin 8 → UInt8) (totalReq totalRetry : Int) (r : Request)
    (hok : newRequestOK r.method (upstreamURL ++ r.path) = true)
    (hall : ∀ i, i ≤ maxRetries → (upstream i).failed = true) :
    ∃ run, handleProxy newRequestOK upstream entropy totalReq totalRetry r = some run ∧
      run.sent.length = maxRetries + 1 ∧
      ((∃ i e, i ≤ maxRetries ∧ upstream i = DoResult.failure e) →
        run.response = upstreamUnavailable) ∧
      (upstreamUnavailable.status = 502 ∧
        upstreamUnavailable.body
          = ("\x7b\"error\":\"upstream_timeout_or_unreachable\"\x7d" ++ "\n").toUTF8.data.toList) ∧
      ((∀ i, i ≤ maxRetries → ∃ st b, upstream i = DoResult.response st b) →
        ∀ st b, upstream maxRetries = DoResult.response st b →
          500 ≤ st ∧ run.response.status = st ∧ run.response.body = b) := by
  obtain ⟨v, hv, hsent, herr, hnone, hlast⟩ :=
    proxyLoop_all_failed newRequestOK upstream entropy totalRetry r hok hall
  obtain ⟨run, hrun, hrs, _, hrelay, hbad⟩ :=
    handleProxy_of_loop newRequestOK upstream entropy totalReq totalRetry r v hv
  refine ⟨run, hrun, by rw [hrs, hsent]; simp, fun h => hbad (herr h), ⟨rfl, rfl⟩, ?_⟩
  intro h st b hu
  have hst : 500 ≤ st := by
    have := hall maxRetries (le_refl _)
    simpa [hu, DoResult.failed] using this
  obtain ⟨h1, h2⟩ := hrelay (hnone h)
  exact ⟨hst, by rw [h1]; exact (hlast st b hu).1, by rw [h2]; exact (hlast st b hu).2⟩

/-- Witness for C8 (amended): the first call of `GET /ledger` times out, the two retries are
answered 500; the caller receives the 502 response. -/
theorem handleProxy_exhausted_response_witness :
    plainRequestOK "GET" (upstreamURL ++ "/ledger") = true ∧
    (∀ i, i ≤ maxRetries →
      ((fun i => if i = 0 then DoResult.failure "timeout" else DoResult.response 500 []) i).failed
        = true) ∧
    (∃ i e, i ≤ maxRetries ∧
      (fun i => if i = 0 then DoResult.failure "timeout" else DoResult.response 500 []) i
        = DoResult.failure e) ∧
    (handleProxy plainRequestOK
      (fun i => if i = 0 then DoResult.failure "timeout" else DoResult.response 500 [])
      (fun _ => 0) 0 0 ⟨"GET", "/ledger", [], []⟩).map (fun run => run.response)
      = some upstreamUnavailable :=
  have hall : ∀ i, i ≤ maxRetries →
      ((fun i => if i = 0 then DoResult.failure "timeout" else DoResult.response 500 []) i).failed
        = true := by
    intro i _
    by_cases h : i = 0 <;> simp [h, DoResult.failed]
  ⟨by decide, hall, ⟨0, "timeout", Nat.zero_le _, rfl⟩, by
    obtain ⟨run, hrun, _, hbad, _⟩ :=
      handleProxy_exhausted_response plainRequestOK _ (fun _ => 0) 0 0
        ⟨"GET", "/ledger", [], []⟩ (by decide) hall
    rw [hrun]
    exact congrArg some (hbad ⟨0, "timeout", Nat.zero_le _, rfl⟩)⟩

/-- C9. Retry then success: for every `k` with `0 <= k <= maxRetries`, if the first `k`
attempts fail (each by transport error/timeout or by status >= 500, in any mix) and attempt
`k + 1` (index `k`) returns a response with status < 500, then the run ends with exactly
`k + 1` outbound calls made and the caller receives that response's status code and body.
That the attempts take place is the hypothesis that `http.NewRequest` returns a request for
the method and target URL. -/
theorem handleProxy_retry_then_success (newRequestOK : String → String → Bool)
    (upstream : Nat → DoResult)
    (entropy : Fin 8 → UInt8) (totalReq totalRetry : Int) (r : Request)
    (k : Nat) (st : Int) (b : Bytes)
    (hok : newRequestOK r.method (upstreamURL ++ r.path) = true)
    (hk : k ≤ maxRetries) (hfail : ∀ i, i < k → (upstream i).failed = true)
    (hu : upstream k = DoResult.response st b) (hst : st < 500) :
    ∃ run, handleProxy newRequestOK upstream entropy totalReq totalRetry r = some run ∧
      run.sent.length = k + 1 ∧
      run.response.status = st ∧
      run.response.body = b := by
  obtain ⟨v, hv, hsent, herr, hstatus, hbody, _⟩ :=
    proxyLoop_success_after newRequestOK upstream entropy totalRetry r k st b hok hk hfail hu
      hst
  obtain ⟨run, hrun, hrs, _, hrelay, _⟩ :=
    handleProxy_of_loop newRequestOK upstream entropy totalReq totalRetry r v hv
  obtain ⟨h1, h2⟩ := hrelay herr
  exact ⟨run, hrun, by rw [hrs, hsent]; simp, by rw [h1, hstatus], by rw [h2, hbody]⟩

/-- Witness for C9: a timeout, then a 503, then a 200 with body `ok`: three calls, and the
caller receives 200 with that body. -/
theorem handleProxy_retry_then_success_witness :
    plainRequestOK "POST" (upstreamURL ++ "/ledger") = true ∧
    2 ≤ maxRetries ∧
    (∀ i, i < 2 →
      ((fun i => if i = 0 then DoResult.failure "timeout"
        else if i = 1 then DoResult.response 503 [] else DoResult.response 200 [111, 107]) i).failed
        = true) ∧
    (200 : Int) < 500 ∧
    (handleProxy plainRequestOK (fun i => if i = 0 then DoResult.failure "timeout"
        else if i = 1 then DoResult.response 503 [] else DoResult.response 200 [111, 107])
      (fun _ => 0) 0 0 ⟨"POST", "/ledger", [], []⟩).map
        (fun run => (run.sent.length, run.response.status, run.response.body))
      = some (2 + 1, 200, [111, 107]) :=
  have hfail : ∀ i, i < 2 →
      ((fun i => if i = 0 then DoResult.failure "timeout"
        else if i = 1 then DoResult.response 503 [] else DoResult.response 200 [111, 107]) i).failed
        = true := by
    intro i hi
    interval_cases i <;> simp [DoResult.failed]
  ⟨by decide, le_refl _, hfail, by decide, by
    obtain ⟨run, hrun, h1, h2, h3⟩ :=
      handleProxy_retry_then_success plainRequestOK _ (fun _ => 0) 0 0
        ⟨"POST", "/ledger", [], []⟩ 2 200 [111, 107] (by decide) (le_refl _) hfail rfl
        (by decide)
    rw [hrun, Option.map_some', h1, h2, h3]⟩

/-- C10. Client errors are not retried: if the first outbound attempt returns any status
< 500 (404 for example), the run ends with exactly one outbound call made, `totalRetry`
keeps its value, and the caller receives that status and body unchanged.  That the first
attempt takes place is the hypothesis that `http.NewRequest` returns a request for the
method and target URL. -/
theorem handleProxy_first_below_500_single_call (newRequestOK : String → String → Bool)
    (upstream : Nat → DoResult)
    (entropy : Fin 8 → UInt8) (totalReq totalRetry : Int) (r : Request)
    (st : Int) (b : Bytes)
    (hok : newRequestOK r.method (upstreamURL ++ r.path) = true)
    (hu : upstream 0 = DoResult.response st b) (hst : st < 500) :
    ∃ run, handleProxy newRequestOK upstream entropy totalReq totalRetry r = some run ∧
      run.sent.length = 1 ∧
      run.totalRetry = totalRetry ∧
      run.response.status = st ∧
      run.response.body = b := by
  obtain ⟨v, hv, hsent, herr, hstatus, hbody, hretry⟩ :=
    proxyLoop_success_after newRequestOK upstream entropy totalRetry r 0 st b hok
      (Nat.zero_le _) (fun i hi => absurd hi (Nat.not_lt_zero i)) hu hst
  obtain ⟨run, hrun, hrs, hrt, hrelay, _⟩ :=
    handleProxy_of_loop newRequestOK upstream entropy totalReq totalRetry r v hv
  obtain ⟨h1, h2⟩ := hrelay herr
  exact ⟨run, hrun, by rw [hrs, hsent]; simp, by rw [hrt, hretry rfl], by rw [h1, hstatus],
    by rw [h2, hbody]⟩

/-- Witness for C10: the upstream answers 404 with body `no` to the first call of
`GET /missing`. -/
theorem handleProxy_first_below_500_single_call_witness :
    plainRequestOK "GET" (upstreamURL ++ "/missing") = true ∧
    (fun _ => DoResult.response 404 [110, 111]) 0 = DoResult.response 404 [110, 111] ∧
    (404 : Int) < 500 ∧
    (handleProxy plainRequestOK (fun _ => DoResult.response 404 [110, 111]) (fun _ => 0) 7 5
      ⟨"GET", "/missing", [], []⟩).map
        (fun run => (run.sent.length, run.totalRetry, run.response.status, run.response.body))
      = some (1, 5, 404, [110, 111]) :=
  ⟨by decide, rfl, by decide, by
    obtain ⟨run, hrun, h1, h2, h3, h4⟩ :=
      handleProxy_first_below_500_single_call plainRequestOK
        (fun _ => DoResult.response 404 [110, 111]) (fun _ => 0) 7 5
        ⟨"GET", "/missing", [], []⟩ 404 [110, 111] (by decide) rfl (by decide)
    rw [hrun, Option.map_some', h1, h2, h3, h4]⟩

end Meshproxy


namespace Payments

/-- A refused `allow()` leaves the breaker as it was. -/
theorem allow_false_unchanged (b : breaker) (now : Int) (h : (b.allow now).1 = false) :
    (b.allow now).2 = b := by
  unfold breaker.allow at h ⊢
  split_ifs at h ⊢
  all_goals simp_all

theorem fallback_mode (req : PayReq) : (fallback req).Mode = "fallback" := by
  unfold fallback
  split_ifs <;> rfl

/-- C11. One breaker report per call: a run of `handlePay` whose `brk.allow()` returned true
calls `brk.report` exactly once, with `nil` if and only if the upstream call returned
without error and with status < 500 and with a non-nil error otherwise, and the breaker it
leaves is the allowed breaker after that one report; a run rejected as bad JSON, or whose
`allow()` returned false, calls `report` zero times. -/
theorem handlePay_reports_exactly_once (decoded : Option PayReq) (nowAllow nowReport : Int)
    (risk : RiskResult) (b : breaker) :
    (decoded = none → (handlePay decoded nowAllow nowReport risk b).reports = []) ∧
    (∀ req, decoded = some req → (b.allow nowAllow).1 = false →
      (handlePay decoded nowAllow nowReport risk b).reports = []) ∧
    (∀ req, decoded = some req → (b.allow nowAllow).1 = true →
      (handlePay decoded nowAllow nowReport risk b).reports.length = 1 ∧
      ((handlePay decoded nowAllow nowReport risk b).reports = [none] ↔
        ∃ status, risk = RiskResult.response status ∧ status < 500) ∧
      ((¬ ∃ status, risk = RiskResult.response status ∧ status < 500) →
        ∃ e, (handlePay decoded nowAllow nowReport risk b).reports = [some e]) ∧
      (∀ err, (handlePay decoded nowAllow nowReport risk b).reports = [err] →
        (handlePay decoded nowAllow nowReport risk b).brk
          = (b.allow nowAllow).2.report err nowReport)) := by
  refine ⟨?_, ?_, ?_⟩
  · intro h
    subst h
    rfl
  · intro req h ha
    subst h
    simp [handlePay, ha]
  · intro req h ha
    subst h
    cases risk with
    | failure e =>
      simp [handlePay, ha]
    | response status =>
      by_cases hs : status ≥ 500
      · have hs1 : ¬ status < 500 := not_lt.mpr hs
        simp [handlePay, ha, hs, hs1]
      · have hs1 : status < 500 := not_le.mp hs
        have hs2 : ¬ 500 ≤ status := hs
        simp [handlePay, ha, hs1, hs2]

/-- Witness for C11: on the initial breaker a 503 from the risk service is reported once,
as an error, and a 200 is reported once, as `nil`. -/
theorem handlePay_reports_exactly_once_witness :
    (brk.allow 0).1 = true ∧
    (handlePay (some ⟨"u1", 20⟩) 0 1 (RiskResult.response 503) brk).reports.length = 1 ∧
    ¬ (handlePay (some ⟨"u1", 20⟩) 0 1 (RiskResult.response 503) brk).reports = [none] ∧
    (handlePay (some ⟨"u1", 20⟩) 0 1 (RiskResult.response 200) brk).reports = [none] :=
  ⟨rfl,
    ((handlePay_reports_exactly_once (some ⟨"u1", 20⟩) 0 1 (RiskResult.response 503) brk).2.2
      ⟨"u1", 20⟩ rfl rfl).1,
    fun h =>
      absurd
        ((((handlePay_reports_exactly_once (some ⟨"u1", 20⟩) 0 1 (RiskResult.response 503)
          brk).2.2 ⟨"u1", 20⟩ rfl rfl).2.1).mp h)
        (by rintro ⟨status, hs, hlt⟩; cases hs; exact absurd hlt (by decide)),
    (((handlePay_reports_exactly_once (some ⟨"u1", 20⟩) 0 1 (RiskResult.response 200) brk).2.2
      ⟨"u1", 20⟩ rfl rfl).2.1).mpr ⟨200, rfl, by decide⟩⟩

/-- C12. Fail fast when open: when `brk.allow()` returns false, `handlePay` makes no
outbound call to the risk service and no `report`, the breaker's `state`, `failCount` and
`openUntil` are as before the request, and what is written is the fallback decision, whose
`Mode` is `fallback`. -/
theorem handlePay_fail_fast_when_refused (req : PayReq) (nowAllow nowReport : Int)
    (risk : RiskResult) (b : breaker) (h : (b.allow nowAllow).1 = false) :
    (handlePay (some req) nowAllow nowReport risk b).riskCalls = [] ∧
    (handlePay (some req) nowAllow nowReport risk b).reports = [] ∧
    (handlePay (some req) nowAllow nowReport risk b).brk = b ∧
    (handlePay (some req) nowAllow nowReport risk b).brk.state = b.state ∧
    (handlePay (some req) nowAllow nowReport risk b).brk.failCount = b.failCount ∧
    (handlePay (some req) nowAllow nowReport risk b).brk.openUntil = b.openUntil ∧
    (handlePay (some req) nowAllow nowReport risk b).written
      = PayWritten.decision (fallback req) ∧
    (fallback req).Mode = "fallback" ∧
    b.state = "open" := by
  have hb : (handlePay (some req) nowAllow nowReport risk b).brk = b := by
    simp [handlePay, h, allow_false_unchanged b nowAllow h]
  have ho : b.state = "open" := by
    by_contra hne
    rw [allow_not_open b nowAllow hne] at h
    exact Bool.noConfusion h
  rw [hb]
  refine ⟨?_, ?_, rfl, rfl, rfl, rfl, ?_, fallback_mode req, ho⟩ <;> simp [handlePay, h]

/-- Witness for C12: a breaker open until 10s refuses the request at 3s; the amount 80
gets the `hold_high_amount` fallback. -/
theorem handlePay_fail_fast_when_refused_witness :
    ((⟨"open", 3, 10 * second⟩ : breaker).allow (3 * second)).1 = false ∧
    (handlePay (some ⟨"u1", 80⟩) (3 * second) (4 * second) (RiskResult.response 200)
      ⟨"open", 3, 10 * second⟩).riskCalls = [] ∧
    (handlePay (some ⟨"u1", 80⟩) (3 * second) (4 * second) (RiskResult.response 200)
      ⟨"open", 3, 10 * second⟩).brk = ⟨"open", 3, 10 * second⟩ :=
  have h := handlePay_fail_fast_when_refused ⟨"u1", 80⟩ (3 * second) (4 * second)
    (RiskResult.response 200) ⟨"open", 3, 10 * second⟩ (by decide)
  ⟨by decide, h.1, h.2.2.1⟩

end Payments

namespace Gateway

theorem startsWith_iff (s p : String) : startsWith s p = true ↔ p.data <+: s.data := by
  simp [startsWith]

theorem startsWith_self (s : String) : startsWith s s = true := by
  simp [startsWith]

/-- No path starts with both configured prefixes. -/
theorem not_both_configured (path : String) :
    ¬ (startsWith path "/users/" = true ∧ startsWith path "/payments/" = true) := by
  rintro ⟨h1, h2⟩
  rw [startsWith_iff] at h1 h2
  obtain ⟨t1, e1⟩ := h1
  obtain ⟨t2, e2⟩ := h2
  have hu : ("/users/" : String).data = ['/', 'u', 's', 'e', 'r', 's', '/'] := rfl
  have hp : ("/payments/" : String).data
      = ['/', 'p', 'a', 'y', 'm', 'e', 'n', 't', 's', '/'] := rfl
  rw [hu] at e1
  rw [hp, ← e1] at e2
  simp at e2

/-- When no entry's prefix matches, no route is returned. -/
theorem chooseBackend_none_of_no_match (parse : String → Option URL) (path : String) :
    ∀ order : List (String × String), (∀ e ∈ order, startsWith path e.1 = false) →
      chooseBackend parse order path = none := by
  intro order
  induction order with
  | nil => intro _; rfl
  | cons e rest ih =>
    intro h
    obtain ⟨pfx, raw⟩ := e
    have h0 : startsWith path pfx = false := h (pfx, raw) (List.mem_cons_self _ _)
    simp only [chooseBackend, h0]
    exact ih (fun e he => h e (List.mem_cons_of_mem _ he))

/-- A returned target comes from an entry whose prefix the path starts with. -/
theorem chooseBackend_some_match (parse : String → Option URL) (path : String) (u : URL) :
    ∀ order : List (String × String), chooseBackend parse order path = some u →
      ∃ pfx raw, (pfx, raw) ∈ order ∧ startsWith path pfx = true ∧ parse raw = some u := by
  intro order
  induction order with
  | nil => intro h; simp [chooseBackend] at h
  | cons e rest ih =>
    intro h
    obtain ⟨pfx, raw⟩ := e
    by_cases h0 : startsWith path pfx = true
    · simp only [chooseBackend, h0, if_true] at h
      exact ⟨pfx, raw, List.mem_cons_self _ _, h0, h⟩
    · simp only [chooseBackend, h0] at h
      obtain ⟨p, r, hm, hs, hp⟩ := ih h
      exact ⟨p, r, List.mem_cons_of_mem _ hm, hs, hp⟩

/-- The entry returned is the first one visited whose prefix matches. -/
theorem chooseBackend_first_match (parse : String → Option URL) (path pfx raw : String)
    (post : List (String × String)) :
    ∀ pre : List (String × String), (∀ e ∈ pre, startsWith path e.1 = false) →
      startsWith path pfx = true →
      chooseBackend parse (pre ++ (pfx, raw) :: post) path = parse raw := by
  intro pre
  induction pre with
  | nil => intro _ h; simp [chooseBackend, h]
  | cons e rest ih =>
    intro hpre h
    obtain ⟨p, r⟩ := e
    have h0 : startsWith path p = false := hpre (p, r) (List.mem_cons_self _ _)
    simp only [List.cons_append, chooseBackend, h0]
    exact ih (fun e he => hpre e (List.mem_cons_of_mem _ he)) h

/-- When a single entry matches the path, that entry decides, wherever it is visited. -/
theorem chooseBackend_unique_match (parse : String → Option URL) (path pfx raw : String) :
    ∀ order : List (String × String), (pfx, raw) ∈ order → startsWith path pfx = true →
      (∀ e ∈ order, startsWith path e.1 = true → e = (pfx, raw)) →
      chooseBackend parse order path = parse raw := by
  intro order
  induction order with
  | nil => intro h; simp at h
  | cons e rest ih =>
    intro hm hs huniq
    obtain ⟨p, r⟩ := e
    by_cases h0 : startsWith path p = true
    · have := huniq (p, r) (List.mem_cons_self _ _) h0
      cases this
      simp [chooseBackend, h0]
    · have hm1 : (pfx, raw) ∈ rest := by
        rcases List.mem_cons.mp hm with h | h
        · cases h; exact absurd hs h0
        · exact h
      simp only [chooseBackend, h0]
      exact ih hm1 hs (fun e he => huniq e (List.mem_cons_of_mem _ he))

/-- On the configured table the visiting order does not matter. -/
theorem chooseBackend_perm_backends (parse : String → Option URL) (path : String)
    (order : List (String × String)) (h : order.Perm backends) :
    chooseBackend parse order path = chooseBackend parse backends path := by
  have hmem : ∀ e, e ∈ order ↔
      e = ("/users/", "http://localhost:7001") ∨ e = ("/payments/", "http://localhost:7002") := by
    intro e
    rw [h.mem_iff]
    simp [backends]
  by_cases hu : startsWith path "/users/" = true
  · have hp : ¬ startsWith path "/payments/" = true := fun hp => not_both_configured path ⟨hu, hp⟩
    have huniq : ∀ (l : List (String × String)),
        (∀ e, e ∈ l ↔ e = ("/users/", "http://localhost:7001")
          ∨ e = ("/payments/", "http://localhost:7002")) →
        chooseBackend parse l path = parse "http://localhost:7001" := by
      intro l hl
      apply chooseBackend_unique_match parse path "/users/" "http://localhost:7001" l
        ((hl _).mpr (Or.inl rfl)) hu
      intro e he hs
      rcases (hl e).mp he with rfl | rfl
      · rfl
      · exact absurd hs hp
    rw [huniq order hmem, huniq backends (by intro e; simp [backends])]
  · by_cases hp : startsWith path "/payments/" = true
    · have huniq : ∀ (l : List (String × String)),
          (∀ e, e ∈ l ↔ e = ("/users/", "http://localhost:7001")
            ∨ e = ("/payments/", "http://localhost:7002")) →
          chooseBackend parse l path = parse "http://localhost:7002" := by
        intro l hl
        apply chooseBackend_unique_match parse path "/payments/" "http://localhost:7002" l
          ((hl _).mpr (Or.inr rfl)) hp
        intro e he hs
        rcases (hl e).mp he with rfl | rfl
        · exact absurd hs hu
        · rfl
      rw [huniq order hmem, huniq backends (by intro e; simp [backends])]
    · have hnone : ∀ (l : List (String × String)),
          (∀ e, e ∈ l ↔ e = ("/users/", "http://localhost:7001")
            ∨ e = ("/payments/", "http://localhost:7002")) →
          chooseBackend parse l path = none := by
        intro l hl
        apply chooseBackend_none_of_no_match
        intro e he
        rcases (hl e).mp he with rfl | rfl
        · simpa using hu
        · simpa using hp
      rw [hnone order hmem, hnone backends (by intro e; simp [backends])]

end Gateway

namespace Gateway

/-- C13, as stated, fails: the path `/users/` is equal to a configured prefix, so no
configured prefix is a proper prefix of it, yet `chooseBackend` returns the users backend
for it, in either visiting order of the table. -/
theorem chooseBackend_path_equal_to_route_resolves :
    ("/users/", "http://localhost:7001") ∈ backends ∧
    (∀ e ∈ backends, ¬ (startsWith "/users/" e.1 = true ∧ e.1.length < "/users/".length)) ∧
    chooseBackend parseBackend backends "/users/"
      = some { scheme := "http", host := "localhost:7001", path := "" } ∧
    chooseBackend parseBackend backends.reverse "/users/"
      = some { scheme := "http", host := "localhost:7001", path := "" } := by
  decide

/-- C13 (amended). Route resolution: `chooseBackend` returns a target only when the path
starts with some configured prefix (the path may be equal to it), and returns nil for every
path that starts with no configured prefix; a path exactly equal to a configured prefix,
such as `/users/`, resolves to the backend of that prefix (what `url.Parse` makes of
`http://localhost:7001`) under every visiting order of the configured table. -/
theorem chooseBackend_resolves_on_some_route (parse : String → Option URL)
    (order : List (String × String)) (path : String) :
    (∀ u, chooseBackend parse order path = some u →
      ∃ pfx raw, (pfx, raw) ∈ order ∧ startsWith path pfx = true ∧ parse raw = some u) ∧
    ((∀ e ∈ order, startsWith path e.1 = false) → chooseBackend parse order path = none) ∧
    (order.Perm backends →
      chooseBackend parse order "/users/" = parse "http://localhost:7001") ∧
    (order.Perm backends →
      chooseBackend parseBackend order "/users/"
        = some { scheme := "http", host := "localhost:7001", path := "" }) := by
  have hu : ∀ (f : String → Option URL),
      chooseBackend f backends "/users/" = f "http://localhost:7001" := by
    intro f
    have h : startsWith "/users/" "/users/" = true := startsWith_self _
    simp [chooseBackend, backends, h]
  refine ⟨fun u h => chooseBackend_some_match parse path u order h,
    chooseBackend_none_of_no_match parse path order, ?_, ?_⟩
  · intro h
    rw [chooseBackend_perm_backends parse "/users/" order h, hu]
  · intro h
    rw [chooseBackend_perm_backends parseBackend "/users/" order h, hu]
    rfl

/-- Witness for C13 (amended): the configured table visited payments first; `/users/`
resolves to the users backend and `/orders/1` to no route. -/
theorem chooseBackend_resolves_on_some_route_witness :
    backends.reverse.Perm backends ∧
    chooseBackend parseBackend backends.reverse "/users/"
      = some { scheme := "http", host := "localhost:7001", path := "" } ∧
    chooseBackend parseBackend backends.reverse "/orders/1" = none :=
  ⟨List.reverse_perm _,
    (chooseBackend_resolves_on_some_route parseBackend backends.reverse "/users/").2.2.2
      (List.reverse_perm _),
    (chooseBackend_resolves_on_some_route parseBackend backends.reverse "/orders/1").2.1
      (by decide)⟩

/-- C14, as stated, fails: in the table with prefixes `/` and `/users/` the path
`/users/42` is matched by both; visited in the order written, `chooseBackend` returns the
backend of `/`, not that of the longer `/users/`, and visited in the other order it returns
the other backend. -/
theorem chooseBackend_not_longest_match :
    startsWith "/users/42" "/" = true ∧ startsWith "/users/42" "/users/" = true ∧
    ("/" : String).length < ("/users/" : String).length ∧
    chooseBackend parseBackend
        [("/", "http://localhost:7001"), ("/users/", "http://localhost:7002")] "/users/42"
      = some { scheme := "http", host := "localhost:7001", path := "" } ∧
    chooseBackend parseBackend
        [("/users/", "http://localhost:7002"), ("/", "http://localhost:7001")] "/users/42"
      = some { scheme := "http", host := "localhost:7002", path := "" } := by
  decide

/-- C14 (amended). First-match routing: for every route table, every order in which it is
visited and every path, `chooseBackend` returns the upstream registered for the first
entry visited whose prefix matches the path; when that entry is the only one of the table
that matches, every visiting order of the table returns its upstream, and it is then the
longest matching prefix. -/
theorem chooseBackend_first_visited_match (parse : String → Option URL)
    (pre post : List (String × String)) (pfx raw path : String)
    (hpre : ∀ e ∈ pre, startsWith path e.1 = false) (hm : startsWith path pfx = true) :
    chooseBackend parse (pre ++ (pfx, raw) :: post) path = parse raw ∧
    ((∀ e ∈ post, startsWith path e.1 = false) →
      ∀ order : List (String × String), order.Perm (pre ++ (pfx, raw) :: post) →
        chooseBackend parse order path = parse raw ∧
        ∀ e ∈ order, startsWith path e.1 = true → e.1.length ≤ pfx.length) := by
  refine ⟨chooseBackend_first_match parse path pfx raw post pre hpre hm, ?_⟩
  intro hpost order hperm
  have huniq : ∀ e ∈ order, startsWith path e.1 = true → e = (pfx, raw) := by
    intro e he hs
    have he1 : e ∈ pre ++ (pfx, raw) :: post := hperm.mem_iff.mp he
    rcases List.mem_append.mp he1 with h | h
    · rw [hpre e h] at hs; exact Bool.noConfusion hs
    · rcases List.mem_cons.mp h with h | h
      · exact h
      · rw [hpost e h] at hs; exact Bool.noConfusion hs
  have hmem : (pfx, raw) ∈ order :=
    hperm.mem_iff.mpr (List.mem_append.mpr (Or.inr (List.mem_cons_self _ _)))
  refine ⟨chooseBackend_unique_match parse path pfx raw order hmem hm huniq, ?_⟩
  intro e he hs
  rw [huniq e he hs]

/-- Witness for C14 (amended): the table with prefixes `/` and `/users/` visited `/`
first; for `/users/42` the first match `/` decides. -/
theorem chooseBackend_first_visited_match_witness :
    (∀ e ∈ ([] : List (String × String)), startsWith "/users/42" e.1 = false) ∧
    startsWith "/users/42" "/" = true ∧
    chooseBackend parseBackend
        ([] ++ ("/", "http://localhost:7001") :: [("/users/", "http://localhost:7002")])
        "/users/42"
      = parseBackend "http://localhost:7001" :=
  ⟨by simp, by decide,
    (chooseBackend_first_visited_match parseBackend []
      [("/users/", "http://localhost:7002")] "/" "http://localhost:7001" "/users/42"
      (by simp) (by decide)).1⟩

/-- C15. Router determinism: with the configured table (`/users/` to localhost:7001,
`/payments/` to localhost:7002) no path starts with both prefixes, so for every path
`chooseBackend` yields the same target under every visiting order of the table; two
resolutions of the same path, whatever order each visits the table in, yield the same
target. -/
theorem chooseBackend_configured_deterministic (parse : String → Option URL) (path : String)
    (order1 order2 : List (String × String))
    (h1 : order1.Perm backends) (h2 : order2.Perm backends) :
    ¬ (startsWith path "/users/" = true ∧ startsWith path "/payments/" = true) ∧
    chooseBackend parse order1 path = chooseBackend parse order2 path ∧
    chooseBackend parse order1 path = chooseBackend parse backends path := by
  refine ⟨not_both_configured path, ?_, chooseBackend_perm_backends parse path order1 h1⟩
  rw [chooseBackend_perm_backends parse path order1 h1,
    chooseBackend_perm_backends parse path order2 h2]

/-- Witness for C15: `/payments/7` resolved once visiting the table as written and once in
the reverse order. -/
theorem chooseBackend_configured_deterministic_witness :
    backends.Perm backends ∧ backends.reverse.Perm backends ∧
    chooseBackend parseBackend backends "/payments/7"
      = chooseBackend parseBackend backends.reverse "/payments/7" :=
  ⟨List.Perm.refl _, List.reverse_perm _,
    (chooseBackend_configured_deterministic parseBackend "/payments/7" backends
      backends.reverse (List.Perm.refl _) (List.reverse_perm _)).2.1⟩

end Gateway

section HeaderLemmas

/-- After `Set`, the key set holds exactly the new value and every other key is untouched. -/
theorem lookup_headerSet (k v k1 : String) :
    ∀ h : Header, (headerSet h k v).lookup k1 = if k1 = k then some [v] else h.lookup k1 := by
  intro h
  induction h with
  | nil =>
    by_cases hk : k1 = k
    · simp [headerSet, List.lookup, hk]
    · have hb : (k1 == k) = false := by simpa using hk
      simp [headerSet, List.lookup, hk, hb]
  | cons e rest ih =>
    obtain ⟨a, vs⟩ := e
    simp only [headerSet] at ih ⊢
    by_cases ha : a = k
    · subst ha
      by_cases hk : k1 = a
      · subst hk
        simpa [List.filter] using ih
      · simp only [hk, if_false] at ih ⊢
        have : (k1 == a) = false := by simpa using hk
        simpa [List.filter, List.lookup, this] using ih
    · have hne : (a != k) = true := by simpa using ha
      simp only [List.filter, hne, List.cons_append, List.lookup]
      by_cases hk : k1 = k
      · subst hk
        have : (k1 == a) = false := by
          simp only [beq_eq_false_iff_ne, ne_eq]
          exact fun h => ha h.symm
        simpa [this] using ih
      · simp only [hk, if_false] at ih ⊢
        rw [ih]

theorem headerGet_headerSet (h : Header) (k v : String) : headerGet (headerSet h k v) k = v := by
  simp [headerGet, lookup_headerSet]

theorem headerGet_headerSet_other (h : Header) (k v k1 : String) (hk : k1 ≠ k) :
    headerGet (headerSet h k v) k1 = headerGet h k1 := by
  simp [headerGet, lookup_headerSet, hk]

/-- Adding a value never displaces the first value stored under a key. -/
theorem headerAdd_keeps_first (k x k1 v : String) :
    ∀ (h : Header) (xs : List String), h.lookup k = some (x :: xs) →
      ∃ ys, (headerAdd h k1 v).lookup k = some (x :: ys) := by
  intro h
  induction h with
  | nil => intro xs hl; simp [List.lookup] at hl
  | cons e rest ih =>
    intro xs hl
    obtain ⟨a, vs⟩ := e
    by_cases hka : k = a
    · subst hka
      have hvs : vs = x :: xs := by simpa [List.lookup] using hl
      subst hvs
      by_cases hk1 : k = k1
      · subst hk1
        exact ⟨xs ++ [v], by simp [headerAdd, List.lookup]⟩
      · exact ⟨xs, by simp [headerAdd, List.lookup, hk1]⟩
    · have hb : (k == a) = false := by simpa using hka
      have hl1 : rest.lookup k = some (x :: xs) := by simpa [List.lookup, hb] using hl
      obtain ⟨ys, hys⟩ := ih xs hl1
      by_cases hk1 : a = k1
      · subst hk1
        exact ⟨xs, by simp [headerAdd, List.lookup, hb, hl1]⟩
      · exact ⟨ys, by simp [headerAdd, List.lookup, hb, hk1, hys]⟩

end HeaderLemmas

namespace Gateway

/-- Copying upstream headers onto a header map keeps the first value of a key already set. -/
theorem copyHeader_keeps_first (k x : String) :
    ∀ (src dst : Header) (xs : List String), dst.lookup k = some (x :: xs) →
      ∃ ys, (copyHeader dst src).lookup k = some (x :: ys) := by
  have inner : ∀ (a : String) (vs : List String) (out : Header) (xs : List String),
      out.lookup k = some (x :: xs) →
      ∃ ys, (vs.foldl (fun out v => headerAdd out a v) out).lookup k = some (x :: ys) := by
    intro a vs
    induction vs with
    | nil => intro out xs h; exact ⟨xs, h⟩
    | cons v rest ih =>
      intro out xs h
      obtain ⟨ys, hys⟩ := headerAdd_keeps_first k x a v out xs h
      exact ih (headerAdd out a v) ys hys
  intro src
  induction src with
  | nil => intro dst xs h; exact ⟨xs, h⟩
  | cons e rest ih =>
    intro dst xs h
    obtain ⟨ys, hys⟩ := inner e.1 e.2 dst xs h
    exact ih _ ys hys

/-- The first piece of a split: it holds no separator, the text is that piece followed by
nothing or by a rest that begins with the separator, and it is the whole text when the text
holds no separator. -/
theorem splitChars_first (sep : Char) :
    ∀ l : List Char, ∃ first pieces tail,
      splitChars sep l = first :: pieces ∧ sep ∉ first ∧ l = first ++ tail ∧
      (tail = [] ∨ tail.head? = some sep) ∧ (sep ∉ l → first = l) := by
  intro l
  induction l with
  | nil => exact ⟨[], [], [], rfl, by simp, rfl, Or.inl rfl, fun _ => rfl⟩
  | cons c cs ih =>
    obtain ⟨first, pieces, tail, hsplit, hno, hcat, htail, hall⟩ := ih
    by_cases hc : c = sep
    · refine ⟨[], splitChars sep cs, c :: cs, ?_, by simp, rfl, Or.inr ?_, ?_⟩
      · simp [splitChars, hc]
      · simp [hc]
      · intro h
        exact absurd (by simp [hc]) h
    · refine ⟨c :: first, pieces, tail, ?_, ?_, ?_, htail, ?_⟩
      · simp [splitChars, hc, hsplit]
      · intro h
        rcases List.mem_cons.mp h with h | h
        · exact hc h.symm
        · exact hno h
      · simp [← hcat]
      · intro h
        have : sep ∉ cs := fun hm => h (List.mem_cons_of_mem _ hm)
        rw [hall this]

/-- The function `getClientIP` returns a key for every request: its index is in range. -/
theorem getClientIP_some (r : Request) : ∃ ip, getClientIP r = some ip := by
  unfold getClientIP
  simp only
  split_ifs with h
  · obtain ⟨first, pieces, _, hsplit, _⟩ :=
      splitChars_first ',' (headerGet r.header "X-Forwarded-For").data
    exact ⟨String.mk first, by simp [stringsSplit, hsplit]⟩
  · cases r.remoteHost with
    | none => exact ⟨_, rfl⟩
    | some host => exact ⟨_, rfl⟩

end Gateway

namespace Gateway

/-- The run of `handleGateway` on a request with a wrong API key. -/
theorem handleGateway_of_bad_key (parse : String → Option URL)
    (order1 order2 : List (String × String)) (rate per now : Int) (entropy : Fin 8 → UInt8)
    (upstream : RoundTrip) (buckets : Buckets) (r : Request)
    (h : headerGet r.header "X-API-Key" ≠ validAPIKey) :
    handleGateway parse order1 order2 rate per now entropy upstream buckets r
      = some { response := httpError [] "\x7b\"error\":\"unauthorized\"\x7d" StatusUnauthorized
               buckets := buckets, allowed := [], resolved := [], forwarded := [] } := by
  simp only [handleGateway, h, ne_eq, not_false_eq_true, if_true]

/-- The run of `handleGateway` on an authenticated request that `allow` refuses. -/
theorem handleGateway_of_refused (parse : String → Option URL)
    (order1 order2 : List (String × String)) (rate per now : Int) (entropy : Fin 8 → UInt8)
    (upstream : RoundTrip) (buckets : Buckets) (r : Request) (ip : String)
    (hkey : headerGet r.header "X-API-Key" = validAPIKey) (hip : getClientIP r = some ip)
    (hdeny : (allow rate per now ip buckets).1 = false) :
    handleGateway parse order1 order2 rate per now entropy upstream buckets r
      = some { response := httpError [] "\x7b\"error\":\"rate_limit_exceeded\"\x7d"
                 StatusTooManyRequests
               buckets := (allow rate per now ip buckets).2, allowed := [ip], resolved := [],
               forwarded := [] } := by
  simp only [handleGateway, hkey, ne_eq, not_true_eq_false, if_false, hip, hdeny, if_true]

/-- The run of `handleGateway` on an authenticated, admitted request whose path has no
route. -/
theorem handleGateway_of_no_route (parse : String → Option URL)
    (order1 order2 : List (String × String)) (rate per now : Int) (entropy : Fin 8 → UInt8)
    (upstream : RoundTrip) (buckets : Buckets) (r : Request) (ip : String)
    (hkey : headerGet r.header "X-API-Key" = validAPIKey) (hip : getClientIP r = some ip)
    (hallow : (allow rate per now ip buckets).1 = true)
    (hroute : chooseBackend parse order1 r.path = none) :
    handleGateway parse order1 order2 rate per now entropy upstream buckets r
      = some { response := httpError (headerSet [] "X-Request-ID" (randomRequestID entropy))
                 "\x7b\"error\":\"not_found\"\x7d" StatusNotFound
               buckets := (allow rate per now ip buckets).2, allowed := [ip],
               resolved := [r.path], forwarded := [] } := by
  simp [handleGateway, hkey, hip, hallow, hroute]

/-- The run of `handleGateway` on an authenticated, admitted request whose path has a
route. -/
theorem handleGateway_of_route (parse : String → Option URL)
    (order1 order2 : List (String × String)) (rate per now : Int) (entropy : Fin 8 → UInt8)
    (upstream : RoundTrip) (buckets : Buckets) (r : Request) (ip : String) (target : URL)
    (hkey : headerGet r.header "X-API-Key" = validAPIKey) (hip : getClientIP r = some ip)
    (hallow : (allow rate per now ip buckets).1 = true)
    (hroute : chooseBackend parse order1 r.path = some target) :
    handleGateway parse order1 order2 rate per now entropy upstream buckets r
      = some { response := serveProxy (headerSet [] "X-Request-ID" (randomRequestID entropy))
                 upstream
               buckets := (allow rate per now ip buckets).2, allowed := [ip],
               resolved := [r.path],
               forwarded := [proxiedRequest (director order2 target (randomRequestID entropy) r
                 (headerSet r.header "X-Request-ID" (randomRequestID entropy)))] } := by
  simp [handleGateway, hkey, hip, hallow, hroute]

/-- The error responses written on an empty header map carry no `X-Request-ID`. -/
theorem httpError_nil_no_request_id (msg : String) (code : Int) :
    headerValues (httpError [] msg code).header "X-Request-ID" = [] := by
  simp [headerValues, httpError, lookup_headerSet, List.lookup]

/-- An error response written after the request id was set still carries it. -/
theorem httpError_keeps_request_id (reqID msg : String) (code : Int) :
    headerValues (httpError (headerSet [] "X-Request-ID" reqID) msg code).header "X-Request-ID"
      = [reqID] := by
  simp [headerValues, httpError, lookup_headerSet]

/-- The proxied response carries the request id set before proxying as the first value of
`X-Request-ID`. -/
theorem serveProxy_keeps_request_id (reqID : String) (upstream : RoundTrip) :
    ∃ vs, headerValues (serveProxy (headerSet [] "X-Request-ID" reqID) upstream).header
      "X-Request-ID" = reqID :: vs := by
  cases upstream with
  | failure e => exact ⟨[], by simp [serveProxy, headerValues, lookup_headerSet]⟩
  | response status header body =>
    obtain ⟨ys, hys⟩ := copyHeader_keeps_first "X-Request-ID" reqID header
      (headerSet [] "X-Request-ID" reqID) [] (by simp [lookup_headerSet])
    exact ⟨ys, by simp [serveProxy, headerValues, hys]⟩

theorem headerGet_of_values (h : Header) (k v : String) (vs : List String)
    (hv : headerValues h k = v :: vs) : headerGet h k = v := by
  unfold headerValues at hv
  unfold headerGet
  cases hl : h.lookup k with
  | none => simp [hl] at hv
  | some l =>
    simp only [hl, Option.getD_some] at hv
    subst hv
    rfl

end Gateway

namespace Gateway

/-- C16. Gateway authentication: for every request whose `X-API-Key` header differs from
the configured key, `handleGateway` responds 401 Unauthorized, does not call `allow` (the
bucket map is as before: no bucket created or decremented), does not resolve a route and
forwards nothing upstream. -/
theorem handleGateway_unauthorized (parse : String → Option URL)
    (order1 order2 : List (String × String)) (rate per now : Int) (entropy : Fin 8 → UInt8)
    (upstream : RoundTrip) (buckets : Buckets) (r : Request)
    (h : headerGet r.header "X-API-Key" ≠ validAPIKey) :
    ∃ run, handleGateway parse order1 order2 rate per now entropy upstream buckets r = some run ∧
      run.response.status = 401 ∧
      run.response = httpError [] "\x7b\"error\":\"unauthorized\"\x7d" StatusUnauthorized ∧
      run.allowed = [] ∧ run.buckets = buckets ∧ run.resolved = [] ∧ run.forwarded = [] :=
  ⟨_, handleGateway_of_bad_key parse order1 order2 rate per now entropy upstream buckets r h,
    rfl, rfl, rfl, rfl, rfl, rfl⟩

/-- Witness for C16: a request for `/users/42` with the key `wrong-key`. -/
theorem handleGateway_unauthorized_witness :
    headerGet [("X-API-Key", ["wrong-key"])] "X-API-Key" ≠ validAPIKey ∧
    ∃ run, handleGateway parseBackend backends backends rate per 0 (fun _ => 0)
        (RoundTrip.response 200 [] []) emptyBuckets
        ⟨"GET", "/users/42", [("X-API-Key", ["wrong-key"])], [], "10.0.0.9:5000",
          some "10.0.0.9"⟩ = some run ∧
      run.response.status = 401 ∧
      run.response = httpError [] "\x7b\"error\":\"unauthorized\"\x7d" StatusUnauthorized ∧
      run.allowed = [] ∧ run.buckets = emptyBuckets ∧ run.resolved = [] ∧ run.forwarded = [] :=
  ⟨by decide,
    handleGateway_unauthorized parseBackend backends backends rate per 0 (fun _ => 0)
      (RoundTrip.response 200 [] []) emptyBuckets
      ⟨"GET", "/users/42", [("X-API-Key", ["wrong-key"])], [], "10.0.0.9:5000", some "10.0.0.9"⟩
      (by decide)⟩

/-- C17. Gateway rate limiting: for every correctly authenticated request for which
`allow(clientKey)` returns false, `handleGateway` responds with 429 Too Many Requests, a
status distinct from the 401 of unauthorized and the 404 of not found, resolves no route
and forwards nothing upstream. -/
theorem handleGateway_rate_limited (parse : String → Option URL)
    (order1 order2 : List (String × String)) (rate per now : Int) (entropy : Fin 8 → UInt8)
    (upstream : RoundTrip) (buckets : Buckets) (r : Request)
    (hkey : headerGet r.header "X-API-Key" = validAPIKey)
    (hdeny : ∀ ip, getClientIP r = some ip → (allow rate per now ip buckets).1 = false) :
    ∃ run ip, handleGateway parse order1 order2 rate per now entropy upstream buckets r
        = some run ∧
      getClientIP r = some ip ∧ run.allowed = [ip] ∧
      run.response.status = 429 ∧
      run.response
        = httpError [] "\x7b\"error\":\"rate_limit_exceeded\"\x7d" StatusTooManyRequests ∧
      run.resolved = [] ∧ run.forwarded = [] ∧
      StatusTooManyRequests ≠ StatusUnauthorized ∧ StatusTooManyRequests ≠ StatusNotFound := by
  obtain ⟨ip, hip⟩ := getClientIP_some r
  exact ⟨_, ip,
    handleGateway_of_refused parse order1 order2 rate per now entropy upstream buckets r ip
      hkey hip (hdeny ip hip),
    hip, rfl, rfl, rfl, rfl, rfl, by decide, by decide⟩

/-- Witness for C17: the client 1.2.3.4 has a bucket with no token left, filled at 0s, and
asks again at 1s. -/
theorem handleGateway_rate_limited_witness :
    headerGet [("X-API-Key", ["demo-key-123"]), ("X-Forwarded-For", ["1.2.3.4"])] "X-API-Key"
      = validAPIKey ∧
    (∀ ip, getClientIP ⟨"GET", "/users/42",
        [("X-API-Key", ["demo-key-123"]), ("X-Forwarded-For", ["1.2.3.4"])], [],
        "10.0.0.9:5000", some "10.0.0.9"⟩ = some ip →
      (allow rate per (1 * second) ip (setBucket emptyBuckets "1.2.3.4" ⟨0, 0⟩)).1 = false) ∧
    ∃ run ip, handleGateway parseBackend backends backends rate per (1 * second) (fun _ => 0)
        (RoundTrip.response 200 [] []) (setBucket emptyBuckets "1.2.3.4" ⟨0, 0⟩)
        ⟨"GET", "/users/42",
          [("X-API-Key", ["demo-key-123"]), ("X-Forwarded-For", ["1.2.3.4"])], [],
          "10.0.0.9:5000", some "10.0.0.9"⟩ = some run ∧
      getClientIP ⟨"GET", "/users/42",
        [("X-API-Key", ["demo-key-123"]), ("X-Forwarded-For", ["1.2.3.4"])], [],
        "10.0.0.9:5000", some "10.0.0.9"⟩ = some ip ∧ run.allowed = [ip] ∧
      run.response.status = 429 ∧
      run.response
        = httpError [] "\x7b\"error\":\"rate_limit_exceeded\"\x7d" StatusTooManyRequests ∧
      run.resolved = [] ∧ run.forwarded = [] ∧
      StatusTooManyRequests ≠ StatusUnauthorized ∧ StatusTooManyRequests ≠ StatusNotFound :=
  have hdeny : ∀ ip, getClientIP ⟨"GET", "/users/42",
      [("X-API-Key", ["demo-key-123"]), ("X-Forwarded-For", ["1.2.3.4"])], [],
      "10.0.0.9:5000", some "10.0.0.9"⟩ = some ip →
      (allow rate per (1 * second) ip (setBucket emptyBuckets "1.2.3.4" ⟨0, 0⟩)).1 = false := by
    intro ip hip
    have h0 : getClientIP ⟨"GET", "/users/42",
        [("X-API-Key", ["demo-key-123"]), ("X-Forwarded-For", ["1.2.3.4"])], [],
        "10.0.0.9:5000", some "10.0.0.9"⟩ = some "1.2.3.4" := by decide
    rw [h0] at hip
    cases hip
    decide
  ⟨by decide, hdeny,
    handleGateway_rate_limited parseBackend backends backends rate per (1 * second)
      (fun _ => 0) (RoundTrip.response 200 [] []) (setBucket emptyBuckets "1.2.3.4" ⟨0, 0⟩)
      ⟨"GET", "/users/42",
        [("X-API-Key", ["demo-key-123"]), ("X-Forwarded-For", ["1.2.3.4"])], [],
        "10.0.0.9:5000", some "10.0.0.9"⟩ (by decide) hdeny⟩

end Gateway

namespace Gateway

/-- C18, as stated, fails: the response to a request with a wrong API key is the 401 and
carries no `X-Request-ID` header, and so does the 429 response to an authenticated client
whose bucket is empty. -/
theorem handleGateway_early_errors_lack_request_id :
    (handleGateway parseBackend backends backends rate per 0 (fun _ => 0)
        (RoundTrip.response 200 [] []) emptyBuckets
        ⟨"GET", "/users/42", [("X-API-Key", ["wrong-key"])], [], "10.0.0.9:5000",
          some "10.0.0.9"⟩).map
      (fun run => (run.response.status, headerValues run.response.header "X-Request-ID"))
      = some (401, []) ∧
    (handleGateway parseBackend backends backends rate per (1 * second) (fun _ => 0)
        (RoundTrip.response 200 [] []) (setBucket emptyBuckets "1.2.3.4" ⟨0, 0⟩)
        ⟨"GET", "/users/42",
          [("X-API-Key", ["demo-key-123"]), ("X-Forwarded-For", ["1.2.3.4"])], [],
          "10.0.0.9:5000", some "10.0.0.9"⟩).map
      (fun run => (run.response.status, headerValues run.response.header "X-Request-ID"))
      = some (429, []) := by
  decide

/-- C18 (amended). Trace id on responses: for every inbound request that passes the API key
check and the rate limit, whether its route is not found or it is proxied (and whether the
proxied round trip fails or not), the response written by `handleGateway` includes an
`X-Request-ID` header whose first value is the id generated for the request; the
unauthorized and the rate-limited responses carry no `X-Request-ID` header. -/
theorem handleGateway_request_id_after_checks (parse : String → Option URL)
    (order1 order2 : List (String × String)) (rate per now : Int) (entropy : Fin 8 → UInt8)
    (upstream : RoundTrip) (buckets : Buckets) (r : Request) :
    (headerGet r.header "X-API-Key" ≠ validAPIKey →
      ∃ run, handleGateway parse order1 order2 rate per now entropy upstream buckets r
          = some run ∧
        headerValues run.response.header "X-Request-ID" = []) ∧
    (headerGet r.header "X-API-Key" = validAPIKey →
      (∀ ip, getClientIP r = some ip → (allow rate per now ip buckets).1 = false) →
      ∃ run, handleGateway parse order1 order2 rate per now entropy upstream buckets r
          = some run ∧
        headerValues run.response.header "X-Request-ID" = []) ∧
    (headerGet r.header "X-API-Key" = validAPIKey →
      (∀ ip, getClientIP r = some ip → (allow rate per now ip buckets).1 = true) →
      ∃ run vs, handleGateway parse order1 order2 rate per now entropy upstream buckets r
          = some run ∧
        headerValues run.response.header "X-Request-ID" = randomRequestID entropy :: vs ∧
        headerGet run.response.header "X-Request-ID" = randomRequestID entropy) := by
  refine ⟨?_, ?_, ?_⟩
  · intro h
    exact ⟨_, handleGateway_of_bad_key parse order1 order2 rate per now entropy upstream
      buckets r h, httpError_nil_no_request_id _ _⟩
  · intro hkey hdeny
    obtain ⟨ip, hip⟩ := getClientIP_some r
    exact ⟨_, handleGateway_of_refused parse order1 order2 rate per now entropy upstream
      buckets r ip hkey hip (hdeny ip hip), httpError_nil_no_request_id _ _⟩
  · intro hkey hallow
    obtain ⟨ip, hip⟩ := getClientIP_some r
    cases hroute : chooseBackend parse order1 r.path with
    | none =>
      have hv := httpError_keeps_request_id (randomRequestID entropy)
        "\x7b\"error\":\"not_found\"\x7d" StatusNotFound
      exact ⟨_, [], handleGateway_of_no_route parse order1 order2 rate per now entropy
        upstream buckets r ip hkey hip (hallow ip hip) hroute, hv,
        headerGet_of_values _ _ _ _ hv⟩
    | some target =>
      obtain ⟨vs, hv⟩ := serveProxy_keeps_request_id (randomRequestID entropy) upstream
      exact ⟨_, vs, handleGateway_of_route parse order1 order2 rate per now entropy
        upstream buckets r ip target hkey hip (hallow ip hip) hroute, hv,
        headerGet_of_values _ _ _ _ hv⟩

/-- Witness for C18 (amended): an authenticated first request of client 1.2.3.4 for a path
without a route; the 404 response carries the generated id. -/
theorem handleGateway_request_id_after_checks_witness :
    headerGet [("X-API-Key", ["demo-key-123"]), ("X-Forwarded-For", ["1.2.3.4"])] "X-API-Key"
      = validAPIKey ∧
    (∀ ip, getClientIP ⟨"GET", "/orders/1",
        [("X-API-Key", ["demo-key-123"]), ("X-Forwarded-For", ["1.2.3.4"])], [],
        "10.0.0.9:5000", some "10.0.0.9"⟩ = some ip →
      (allow rate per 0 ip emptyBuckets).1 = true) ∧
    ∃ run vs, handleGateway parseBackend backends backends rate per 0 (fun _ => 0)
        (RoundTrip.response 200 [] []) emptyBuckets
        ⟨"GET", "/orders/1",
          [("X-API-Key", ["demo-key-123"]), ("X-Forwarded-For", ["1.2.3.4"])], [],
          "10.0.0.9:5000", some "10.0.0.9"⟩ = some run ∧
      headerValues run.response.header "X-Request-ID" = randomRequestID (fun _ => 0) :: vs ∧
      headerGet run.response.header "X-Request-ID" = randomRequestID (fun _ => 0) :=
  have hallow : ∀ ip, getClientIP ⟨"GET", "/orders/1",
      [("X-API-Key", ["demo-key-123"]), ("X-Forwarded-For", ["1.2.3.4"])], [],
      "10.0.0.9:5000", some "10.0.0.9"⟩ = some ip →
      (allow rate per 0 ip emptyBuckets).1 = true := by
    intro ip _
    simp [allow, emptyBuckets, timeSub, maxDuration, minDuration, per, second, rate]
  ⟨by decide, hallow,
    (handleGateway_request_id_after_checks parseBackend backends backends rate per 0
      (fun _ => 0) (RoundTrip.response 200 [] []) emptyBuckets
      ⟨"GET", "/orders/1",
        [("X-API-Key", ["demo-key-123"]), ("X-Forwarded-For", ["1.2.3.4"])], [],
        "10.0.0.9:5000", some "10.0.0.9"⟩).2.2 (by decide) hallow⟩

end Gateway

namespace Gateway

/-- What `randomRequestID()` returns: sixteen characters out of `0`..`9`, `a`..`f`, so never
the empty string, and a different text for different bytes drawn. -/
theorem randomRequestID_fresh (entropy : Fin 8 → UInt8) :
    randomRequestID entropy ≠ "" ∧
    (randomRequestID entropy).length = 16 ∧
    (∀ c ∈ (randomRequestID entropy).data, c ∈ ("0123456789abcdef" : String).data) ∧
    (∀ entropy2 : Fin 8 → UInt8,
      randomRequestID entropy2 = randomRequestID entropy → entropy2 = entropy) := by
  have hlen : (randomRequestID entropy).length = 16 := by
    rw [randomRequestID, hexEncodeToString_length, List.length_ofFn]
  refine ⟨?_, hlen, hexEncodeToString_chars _, ?_⟩
  · intro h
    rw [h] at hlen
    exact absurd hlen (by decide)
  · intro entropy2 h
    exact List.ofFn_injective (hexEncodeToString_injective _ _ h)

/-- Looking a name up after the entries were filtered by their names. -/
theorem lookup_filter_name (p : String → Bool) (k : String) :
    ∀ h : Header,
      (h.filter (fun kv => p kv.1)).lookup k = if p k = true then h.lookup k else none := by
  intro h
  induction h with
  | nil => simp [List.lookup]
  | cons e rest ih =>
    obtain ⟨a, vs⟩ := e
    by_cases hka : k = a
    · subst hka
      cases hp : p k
      · simp only [List.filter, hp]
        rw [ih, hp]
        simp
      · simp [List.filter, hp, List.lookup]
    · have hb : (k == a) = false := by simpa using hka
      cases hpa : p a
      · simp only [List.filter, hpa, List.lookup, hb]
        exact ih
      · simp only [List.filter, hpa, List.lookup, hb]
        exact ih

/-- After `Del`, nothing is stored under a name with the canonical form of the key, and
every other name is untouched. -/
theorem lookup_headerDel (h : Header) (key k : String) :
    (headerDel h key).lookup k
      = if canonicalMIMEHeaderKey k = canonicalMIMEHeaderKey key then none else h.lookup k := by
  have h1 := lookup_filter_name
    (fun x => canonicalMIMEHeaderKey x != canonicalMIMEHeaderKey key) k h
  simp only [headerDel]
  rw [h1]
  by_cases hc : canonicalMIMEHeaderKey k = canonicalMIMEHeaderKey key
  · simp [hc]
  · simp [hc]

/-- After a run of `Del` calls a name is gone when one of the keys has its canonical form,
and untouched otherwise. -/
theorem lookup_foldl_headerDel (k : String) :
    ∀ (keys : List String) (h : Header),
      (keys.foldl headerDel h).lookup k
        = if keys.any (fun key => canonicalMIMEHeaderKey k == canonicalMIMEHeaderKey key) = true
          then none else h.lookup k := by
  intro keys
  induction keys with
  | nil => intro h; simp
  | cons key keys ih =>
    intro h
    simp only [List.foldl_cons, List.any_cons]
    rw [ih, lookup_headerDel]
    by_cases hc : canonicalMIMEHeaderKey k = canonicalMIMEHeaderKey key
    · simp [hc]
    · simp [hc]

/-- What `removeHopByHopHeaders` leaves under `X-Request-ID`: nothing when a `Connection`
value names the header, and what was there otherwise. -/
theorem lookup_removeHopByHopHeaders_request_id (h : Header) :
    (removeHopByHopHeaders h).lookup "X-Request-ID"
      = if (connectionNames h).any
            (fun sf => canonicalMIMEHeaderKey "X-Request-ID" == canonicalMIMEHeaderKey sf) = true
        then none else h.lookup "X-Request-ID" := by
  have hhop : hopHeaders.any
      (fun key => canonicalMIMEHeaderKey "X-Request-ID" == canonicalMIMEHeaderKey key)
      = false := by decide
  simp only [removeHopByHopHeaders]
  rw [lookup_foldl_headerDel, hhop, lookup_foldl_headerDel]
  simp

/-- The Director leaves the `Connection` values of the inbound request as they are. -/
theorem connectionNames_director (order : List (String × String)) (target : URL)
    (reqID : String) (r : Request) :
    connectionNames (director order target reqID r (headerSet r.header "X-Request-ID" reqID)).header
      = connectionNames r.header := by
  simp [connectionNames, director, headerValues, lookup_headerSet]

/-- The `X-Request-ID` values of the outbound proxied request: the new id alone, or nothing
when a `Connection` value of the inbound request names the header. -/
theorem proxiedRequest_request_id (order : List (String × String)) (target : URL)
    (reqID : String) (r : Request) :
    headerValues (proxiedRequest
        (director order target reqID r (headerSet r.header "X-Request-ID" reqID))).header
        "X-Request-ID"
      = if (connectionNames r.header).any
            (fun sf => canonicalMIMEHeaderKey "X-Request-ID" == canonicalMIMEHeaderKey sf) = true
        then [] else [reqID] := by
  simp only [headerValues, proxiedRequest]
  rw [lookup_removeHopByHopHeaders_request_id, connectionNames_director]
  split_ifs
  · rfl
  · simp [director, lookup_headerSet]

/-- C19, as stated, fails: an authenticated, admitted request for `/users/42` arrives with
`X-Request-ID: abc-123`; with the random bytes all zero the response and the outbound
request both carry `0000000000000000` as their only `X-Request-ID`, not `abc-123`. -/
theorem handleGateway_overwrites_inbound_request_id :
    headerGet [("X-API-Key", ["demo-key-123"]), ("X-Forwarded-For", ["1.2.3.4"]),
      ("X-Request-ID", ["abc-123"])] "X-Request-ID" = "abc-123" ∧
    (handleGateway parseBackend backends backends rate per 0 (fun _ => 0)
        (RoundTrip.response 200 [] []) emptyBuckets
        ⟨"GET", "/users/42",
          [("X-API-Key", ["demo-key-123"]), ("X-Forwarded-For", ["1.2.3.4"]),
            ("X-Request-ID", ["abc-123"])], [], "10.0.0.9:5000", some "10.0.0.9"⟩).map
      (fun run => (run.response.status, headerValues run.response.header "X-Request-ID",
        run.forwarded.map (fun out => headerValues out.header "X-Request-ID")))
      = some (200, ["0000000000000000"], [["0000000000000000"]]) := by
  decide

/-- The hop-by-hop removal at work: the request of the example above with the extra header
`Connection: keep-alive, x-request-id`; the response carries the new id and the outbound
proxied request carries no `X-Request-ID` at all. -/
theorem handleGateway_connection_names_request_id :
    connectionNames [("Connection", ["keep-alive, x-request-id"])]
      = ["keep-alive", "x-request-id"] ∧
    canonicalMIMEHeaderKey "x-request-id" = canonicalMIMEHeaderKey "X-Request-ID" ∧
    (handleGateway parseBackend backends backends rate per 0 (fun _ => 0)
        (RoundTrip.response 200 [] []) emptyBuckets
        ⟨"GET", "/users/42",
          [("X-API-Key", ["demo-key-123"]), ("X-Forwarded-For", ["1.2.3.4"]),
            ("X-Request-ID", ["abc-123"]), ("Connection", ["keep-alive, x-request-id"])], [],
          "10.0.0.9:5000", some "10.0.0.9"⟩).map
      (fun run => (run.response.status, headerValues run.response.header "X-Request-ID",
        run.forwarded.map (fun out =>
          (headerValues out.header "X-Request-ID", headerValues out.header "Connection",
            headerValues out.header "X-API-Key"))))
      = some (200, ["0000000000000000"], [([], [], ["demo-key-123"])]) := by
  decide

/-- C19 (amended). Trace id is always generated: for every authenticated, non-rate-limited
request, whether or not it carries an `X-Request-ID` header, `handleGateway` generates a new
id with `randomRequestID()` (sixteen hexadecimal characters) and uses it as the
`X-Request-ID` of the response and, replacing any inbound value, of the request it proxies.
The outbound proxied request carries the new id as its only `X-Request-ID`, unless a
`Connection` value of the inbound request names `X-Request-ID` (in any capitalisation): then
the reverse proxy removes the header as hop-by-hop and the outbound request carries no
`X-Request-ID`.  Exactly one request is forwarded when the path has a route and none
otherwise. -/
theorem handleGateway_always_new_request_id (parse : String → Option URL)
    (order1 order2 : List (String × String)) (rate per now : Int) (entropy : Fin 8 → UInt8)
    (upstream : RoundTrip) (buckets : Buckets) (r : Request)
    (hkey : headerGet r.header "X-API-Key" = validAPIKey)
    (hallow : ∀ ip, getClientIP r = some ip → (allow rate per now ip buckets).1 = true) :
    ∃ run, handleGateway parse order1 order2 rate per now entropy upstream buckets r
        = some run ∧
      headerGet run.response.header "X-Request-ID" = randomRequestID entropy ∧
      (randomRequestID entropy).length = 16 ∧
      (∀ out ∈ run.forwarded,
        ((∀ sf ∈ connectionNames r.header,
            canonicalMIMEHeaderKey sf ≠ canonicalMIMEHeaderKey "X-Request-ID") →
          headerValues out.header "X-Request-ID" = [randomRequestID entropy] ∧
          headerGet out.header "X-Request-ID" = randomRequestID entropy) ∧
        ((∃ sf ∈ connectionNames r.header,
            canonicalMIMEHeaderKey sf = canonicalMIMEHeaderKey "X-Request-ID") →
          headerValues out.header "X-Request-ID" = [])) ∧
      (chooseBackend parse order1 r.path ≠ none → run.forwarded.length = 1) ∧
      (chooseBackend parse order1 r.path = none → run.forwarded = []) := by
  obtain ⟨ip, hip⟩ := getClientIP_some r
  cases hroute : chooseBackend parse order1 r.path with
  | none =>
    have hv := httpError_keeps_request_id (randomRequestID entropy)
      "\x7b\"error\":\"not_found\"\x7d" StatusNotFound
    refine ⟨_, handleGateway_of_no_route parse order1 order2 rate per now entropy
      upstream buckets r ip hkey hip (hallow ip hip) hroute,
      headerGet_of_values _ _ _ _ hv, (randomRequestID_fresh entropy).2.1, ?_, ?_,
      fun _ => rfl⟩
    · intro out hout
      simp at hout
    · intro h
      exact absurd rfl h
  | some target =>
    obtain ⟨vs, hv⟩ := serveProxy_keeps_request_id (randomRequestID entropy) upstream
    refine ⟨_, handleGateway_of_route parse order1 order2 rate per now entropy
      upstream buckets r ip target hkey hip (hallow ip hip) hroute,
      headerGet_of_values _ _ _ _ hv, (randomRequestID_fresh entropy).2.1, ?_,
      fun _ => rfl, ?_⟩
    · intro out hout
      simp only [List.mem_singleton] at hout
      subst hout
      have hvals := proxiedRequest_request_id order2 target (randomRequestID entropy) r
      constructor
      · intro hno
        have hany : (connectionNames r.header).any
            (fun sf => canonicalMIMEHeaderKey "X-Request-ID" == canonicalMIMEHeaderKey sf)
            = false := by
          rw [List.any_eq_false]
          intro sf hsf
          have := hno sf hsf
          simpa using fun h => this h.symm
        rw [hany] at hvals
        simp only [Bool.false_eq_true, if_false] at hvals
        exact ⟨hvals, headerGet_of_values _ _ _ _ hvals⟩
      · rintro ⟨sf, hsf, heq⟩
        have hany : (connectionNames r.header).any
            (fun sf => canonicalMIMEHeaderKey "X-Request-ID" == canonicalMIMEHeaderKey sf)
            = true := by
          rw [List.any_eq_true]
          exact ⟨sf, hsf, by simpa using heq.symm⟩
        rw [hany] at hvals
        simpa using hvals
    · intro h
      exact Option.noConfusion h

/-- Witness for C19 (amended): the request of the counterexample above, on an empty bucket
map; it has no `Connection` header, so the outbound request carries the new id. -/
theorem handleGateway_always_new_request_id_witness :
    headerGet [("X-API-Key", ["demo-key-123"]), ("X-Forwarded-For", ["1.2.3.4"]),
      ("X-Request-ID", ["abc-123"])] "X-API-Key" = validAPIKey ∧
    (∀ ip, getClientIP ⟨"GET", "/users/42",
        [("X-API-Key", ["demo-key-123"]), ("X-Forwarded-For", ["1.2.3.4"]),
          ("X-Request-ID", ["abc-123"])], [], "10.0.0.9:5000", some "10.0.0.9"⟩ = some ip →
      (allow rate per 0 ip emptyBuckets).1 = true) ∧
    connectionNames [("X-API-Key", ["demo-key-123"]), ("X-Forwarded-For", ["1.2.3.4"]),
      ("X-Request-ID", ["abc-123"])] = [] ∧
    ∃ run, handleGateway parseBackend backends backends rate per 0 (fun _ => 0)
        (RoundTrip.response 200 [] []) emptyBuckets
        ⟨"GET", "/users/42",
          [("X-API-Key", ["demo-key-123"]), ("X-Forwarded-For", ["1.2.3.4"]),
            ("X-Request-ID", ["abc-123"])], [], "10.0.0.9:5000", some "10.0.0.9"⟩ = some run ∧
      headerGet run.response.header "X-Request-ID" = randomRequestID (fun _ => 0) ∧
      run.forwarded.length = 1 ∧
      (∀ out ∈ run.forwarded,
        headerValues out.header "X-Request-ID" = [randomRequestID (fun _ => 0)] ∧
        headerGet out.header "X-Request-ID" = randomRequestID (fun _ => 0)) :=
  have hallow : ∀ ip, getClientIP ⟨"GET", "/users/42",
      [("X-API-Key", ["demo-key-123"]), ("X-Forwarded-For", ["1.2.3.4"]),
        ("X-Request-ID", ["abc-123"])], [], "10.0.0.9:5000", some "10.0.0.9"⟩ = some ip →
      (allow rate per 0 ip emptyBuckets).1 = true := by
    intro ip _
    simp [allow, emptyBuckets, timeSub, maxDuration, minDuration, per, second, rate]
  ⟨by decide, hallow, by decide, by
    obtain ⟨run, hrun, hresp, _, hout, hone, _⟩ :=
      handleGateway_always_new_request_id parseBackend backends backends rate per 0
        (fun _ => 0) (RoundTrip.response 200 [] []) emptyBuckets
        ⟨"GET", "/users/42",
          [("X-API-Key", ["demo-key-123"]), ("X-Forwarded-For", ["1.2.3.4"]),
            ("X-Request-ID", ["abc-123"])], [], "10.0.0.9:5000", some "10.0.0.9"⟩
        (by decide) hallow
    have hnames : connectionNames [("X-API-Key", ["demo-key-123"]),
        ("X-Forwarded-For", ["1.2.3.4"]), ("X-Request-ID", ["abc-123"])] = [] := by decide
    exact ⟨run, hrun, hresp, hone (by decide), fun out ho =>
      (hout out ho).1 (fun sf hsf => by
        rw [hnames] at hsf
        exact absurd hsf (List.not_mem_nil sf))⟩⟩

/-- C20. Client key derivation: for every request with a non-empty `X-Forwarded-For`
header, the index `[0]` into the split result is in range and `getClientIP` returns exactly
the part of the header before its first comma: the result holds no comma, the header is the
result followed by nothing or by a rest that starts with a comma, and the result is the
whole header when the header has no comma. -/
theorem getClientIP_first_forwarded_segment (r : Request)
    (h : headerGet r.header "X-Forwarded-For" ≠ "") :
    0 < (stringsSplit (headerGet r.header "X-Forwarded-For") ',').length ∧
    ∃ ip, getClientIP r = some ip ∧ ',' ∉ ip.data ∧
      (∃ tail, (headerGet r.header "X-Forwarded-For").data = ip.data ++ tail ∧
        (tail = [] ∨ tail.head? = some ',')) ∧
      (',' ∉ (headerGet r.header "X-Forwarded-For").data →
        ip = headerGet r.header "X-Forwarded-For") := by
  obtain ⟨first, pieces, tail, hsplit, hno, hcat, htail, hall⟩ :=
    splitChars_first ',' (headerGet r.header "X-Forwarded-For").data
  refine ⟨by simp [stringsSplit, hsplit], String.mk first, ?_, hno, ⟨tail, hcat, htail⟩, ?_⟩
  · simp [getClientIP, h, stringsSplit, hsplit]
  · intro hc
    rw [hall hc]

/-- Witness for C20: the header `1.2.3.4, 5.6.7.8` gives the key `1.2.3.4`. -/
theorem getClientIP_first_forwarded_segment_witness :
    headerGet [("X-Forwarded-For", ["1.2.3.4, 5.6.7.8"])] "X-Forwarded-For" ≠ "" ∧
    0 < (stringsSplit (headerGet [("X-Forwarded-For", ["1.2.3.4, 5.6.7.8"])]
      "X-Forwarded-For") ',').length ∧
    getClientIP ⟨"GET", "/users/42", [("X-Forwarded-For", ["1.2.3.4, 5.6.7.8"])], [],
      "10.0.0.9:5000", some "10.0.0.9"⟩ = some "1.2.3.4" :=
  ⟨by decide,
    (getClientIP_first_forwarded_segment
      ⟨"GET", "/users/42", [("X-Forwarded-For", ["1.2.3.4, 5.6.7.8"])], [],
        "10.0.0.9:5000", some "10.0.0.9"⟩ (by decide)).1,
    by decide⟩

end Gateway

namespace Gateway

theorem setBucket_other (m : Buckets) (ip k : String) (b : bucket) (h : k ≠ ip) :
    setBucket m ip b k = m k := by
  simp [setBucket, h]

/-- What a call leaves in the map: the bucket of the key asked for is replaced, by a bucket
whose tokens lie between 0 and `rate` when the bucket found did (or none was found), and
which holds no token when the call was refused. -/
theorem allow_result_bucket (rate per now : Int) (ip : String) (m : Buckets) (hr : 0 ≤ rate)
    (hm : ∀ b, m ip = some b → 0 ≤ b.tokens ∧ b.tokens ≤ rate) :
    ∃ b1 : bucket, (allow rate per now ip m).2 = setBucket m ip b1 ∧
      0 ≤ b1.tokens ∧ b1.tokens ≤ rate ∧
      ((allow rate per now ip m).1 = false → b1.tokens = 0) := by
  cases hb : m ip with
  | none =>
    by_cases hreset : timeSub now now ≥ per
    · by_cases hpos : rate > 0
      · exact ⟨⟨rate - 1, now⟩, by simp [allow, hb, hreset, hpos], by simp; omega, by simp,
          by simp [allow, hb, hreset, hpos]⟩
      · exact ⟨⟨rate, now⟩, by simp [allow, hb, hreset, hpos], hr, le_refl _,
          by intro _; simp; omega⟩
    · by_cases hpos : rate > 0
      · exact ⟨⟨rate - 1, now⟩, by simp [allow, hb, hreset, hpos], by simp; omega, by simp,
          by simp [allow, hb, hreset, hpos]⟩
      · exact ⟨⟨rate, now⟩, by simp [allow, hb, hreset, hpos], hr, le_refl _,
          by intro _; simp; omega⟩
  | some b =>
    obtain ⟨h0, h1⟩ := hm b hb
    by_cases hreset : timeSub now b.last ≥ per
    · by_cases hpos : rate > 0
      · exact ⟨⟨rate - 1, now⟩, by simp [allow, hb, hreset, hpos], by simp; omega, by simp,
          by simp [allow, hb, hreset, hpos]⟩
      · exact ⟨⟨rate, now⟩, by simp [allow, hb, hreset, hpos], hr, le_refl _,
          by intro _; simp; omega⟩
    · by_cases hpos : b.tokens > 0
      · exact ⟨⟨b.tokens - 1, b.last⟩, by simp [allow, hb, hreset, hpos], by simp; omega,
          by simp; omega, by simp [allow, hb, hreset, hpos]⟩
      · exact ⟨b, by simp [allow, hb, hreset, hpos], h0, h1, by intro _; omega⟩

/-- One call keeps every bucket's tokens between 0 and `rate`. -/
theorem allow_keeps_range (rate per now : Int) (ip : String) (m : Buckets) (hr : 0 ≤ rate)
    (hm : ∀ k b, m k = some b → 0 ≤ b.tokens ∧ b.tokens ≤ rate) :
    ∀ k b, (allow rate per now ip m).2 k = some b → 0 ≤ b.tokens ∧ b.tokens ≤ rate := by
  obtain ⟨b1, hres, h0, h1, _⟩ := allow_result_bucket rate per now ip m hr (hm ip)
  intro k b hk
  rw [hres] at hk
  by_cases hkip : k = ip
  · subst hkip
    rw [setBucket_same] at hk
    cases hk
    exact ⟨h0, h1⟩
  · rw [setBucket_other m ip k b1 hkip] at hk
    exact hm k b hk

/-- C22. Token bucket invariant: with `rate >= 0`, after every sequence of `allow` calls
(for any keys, at any clock readings, non-decreasing ones included), started on the empty
map or on any map whose buckets satisfy it, every bucket in the map satisfies
`0 <= tokens <= rate`; a single call never leaves a bucket above `rate`, never takes a
token from a bucket that holds none (a refused call leaves the bucket with 0 tokens), and
touches no bucket but that of its key. -/
theorem allowTrace_tokens_in_range (rate per : Int) (hr : 0 ≤ rate) :
    (∀ (calls : List (Int × String)) (m : Buckets),
      (∀ k b, m k = some b → 0 ≤ b.tokens ∧ b.tokens ≤ rate) →
      ∀ k b, (allowTrace rate per calls m).2 k = some b → 0 ≤ b.tokens ∧ b.tokens ≤ rate) ∧
    (∀ (calls : List (Int × String)) k b,
      (allowTrace rate per calls emptyBuckets).2 k = some b →
        0 ≤ b.tokens ∧ b.tokens ≤ rate) ∧
    (∀ (now : Int) (ip : String) (m : Buckets),
      (∀ b, m ip = some b → 0 ≤ b.tokens ∧ b.tokens ≤ rate) →
      ∃ b1 : bucket, (allow rate per now ip m).2 ip = some b1 ∧
        0 ≤ b1.tokens ∧ b1.tokens ≤ rate ∧
        ((allow rate per now ip m).1 = false → b1.tokens = 0) ∧
        (∀ k, k ≠ ip → (allow rate per now ip m).2 k = m k)) := by
  have hmain : ∀ (calls : List (Int × String)) (m : Buckets),
      (∀ k b, m k = some b → 0 ≤ b.tokens ∧ b.tokens ≤ rate) →
      ∀ k b, (allowTrace rate per calls m).2 k = some b → 0 ≤ b.tokens ∧ b.tokens ≤ rate := by
    intro calls
    induction calls with
    | nil => intro m hm k b hk; exact hm k b hk
    | cons c rest ih =>
      intro m hm k b hk
      obtain ⟨now, ip⟩ := c
      exact ih (allow rate per now ip m).2 (allow_keeps_range rate per now ip m hr hm) k b hk
  refine ⟨hmain, ?_, ?_⟩
  · intro calls k b hk
    exact hmain calls emptyBuckets (by intro k b h; simp [emptyBuckets] at h) k b hk
  · intro now ip m hm
    obtain ⟨b1, hres, h0, h1, hf⟩ := allow_result_bucket rate per now ip m hr hm
    refine ⟨b1, by rw [hres]; exact setBucket_same _ _ _, h0, h1, hf, ?_⟩
    intro k hk
    rw [hres]
    exact setBucket_other m ip k b1 hk

/-- Witness for C22: capacity 2, two clients, five calls; the bucket of `a` ends with no
token and that of `b` with one. -/
theorem allowTrace_tokens_in_range_witness :
    (0 : Int) ≤ 2 ∧
    (∀ k b, (allowTrace 2 per [(0, "a"), (1, "a"), (2, "b"), (3, "a"), (4, "a")]
        emptyBuckets).2 k = some b → 0 ≤ b.tokens ∧ b.tokens ≤ 2) ∧
    (allowTrace 2 per [(0, "a"), (1, "a"), (2, "b"), (3, "a"), (4, "a")] emptyBuckets).1
      = [true, true, true, false, false] :=
  ⟨by decide,
    (allowTrace_tokens_in_range 2 per (by decide)).2.1
      [(0, "a"), (1, "a"), (2, "b"), (3, "a"), (4, "a")],
    by decide⟩

end Gateway

section SharedLemmas

theorem timeSub_ge_of_ge {t u p : Int} (hlo : minDuration < p) (hhi : p ≤ maxDuration)
    (h : p ≤ t - u) : p ≤ timeSub t u := by
  unfold timeSub
  unfold maxDuration minDuration at *
  split_ifs <;> omega

theorem timeSub_lt_of_lt_duration {t u p : Int} (hlo : minDuration < p) (h : t - u < p) :
    timeSub t u < p := by
  unfold timeSub
  unfold maxDuration minDuration at *
  split_ifs <;> omega

end SharedLemmas

namespace Gateway

/-- C23. Hard window reset: for every existing bucket and every call `allow(ip)` at a clock
reading `now` with `now - last >= per` (equality included), the bucket is reset to
`tokens = rate` and `last = now` before the decision, so with `rate >= 1` the call returns
true and leaves `tokens = rate - 1`, `last = now`, however many tokens remained (and with
`rate <= 0` it is refused on the reset bucket); when `now - last < per`, `last` is left
unchanged and no tokens are added.  Here `per` is any `time.Duration` but the smallest. -/
theorem allow_hard_window_reset (rate per now : Int) (ip : String) (m : Buckets) (b : bucket)
    (hb : m ip = some b) (hlo : minDuration < per) (hhi : per ≤ maxDuration) :
    (per ≤ now - b.last → 1 ≤ rate →
      allow rate per now ip m = (true, setBucket m ip { tokens := rate - 1, last := now })) ∧
    (per ≤ now - b.last → rate ≤ 0 →
      allow rate per now ip m = (false, setBucket m ip { tokens := rate, last := now })) ∧
    (now - b.last < per →
      ∃ b1 : bucket, (allow rate per now ip m).2 ip = some b1 ∧ b1.last = b.last ∧
        b1.tokens ≤ b.tokens ∧
        (b1.tokens = b.tokens ∨ b1.tokens = b.tokens - 1)) := by
  refine ⟨?_, ?_, ?_⟩
  · intro hge hrate
    have h1 : timeSub now b.last ≥ per := timeSub_ge_of_ge hlo hhi hge
    have h2 : rate > 0 := by omega
    simp [allow, hb, h1, h2]
  · intro hge hrate
    have h1 : timeSub now b.last ≥ per := timeSub_ge_of_ge hlo hhi hge
    have h2 : ¬ rate > 0 := by omega
    simp [allow, hb, h1, h2]
  · intro hlt
    have h1 : ¬ timeSub now b.last ≥ per := not_le.mpr (timeSub_lt_of_lt_duration hlo hlt)
    by_cases hpos : b.tokens > 0
    · refine ⟨⟨b.tokens - 1, b.last⟩, ?_, rfl, by simp, Or.inr rfl⟩
      simp [allow, hb, h1, hpos, setBucket]
    · refine ⟨b, ?_, rfl, le_refl _, Or.inl rfl⟩
      simp [allow, hb, h1, hpos, setBucket]

/-- Witness for C23: a bucket emptied in the window that started at 0s is asked at exactly
10s: it is refilled to 5 and the call takes one token. -/
theorem allow_hard_window_reset_witness :
    setBucket emptyBuckets "1.2.3.4" ⟨0, 0⟩ "1.2.3.4" = some ⟨0, 0⟩ ∧
    minDuration < per ∧ per ≤ maxDuration ∧
    per ≤ 10 * second - (⟨0, 0⟩ : bucket).last ∧ (1 : Int) ≤ 5 ∧
    allow 5 per (10 * second) "1.2.3.4" (setBucket emptyBuckets "1.2.3.4" ⟨0, 0⟩)
      = (true, setBucket (setBucket emptyBuckets "1.2.3.4" ⟨0, 0⟩) "1.2.3.4"
          { tokens := 5 - 1, last := 10 * second }) :=
  ⟨rfl, by decide, by decide, by decide, by decide,
    (allow_hard_window_reset 5 per (10 * second) "1.2.3.4"
      (setBucket emptyBuckets "1.2.3.4" ⟨0, 0⟩) ⟨0, 0⟩ rfl (by decide) (by decide)).1
      (by decide) (by decide)⟩

end Gateway

namespace Payments

theorem report_nil_not_half (b : breaker) (now : Int) (hs : b.state ≠ "half") :
    b.report none now = { b with failCount := 0 } := by
  simp [breaker.report, hs]

/-- From a closed breaker whose `failCount` is the length `k` of the current run of
failures, a sequence of calls that never completes a run of three failures leaves the
breaker closed after each of its calls. -/
theorem run_closed_of_no_three_failures :
    ∀ (es : List Event) (b : breaker) (k : Nat), b.state = "closed" → b.failCount = k →
      k ≤ 2 → ¬ [true, true, true] <:+: List.replicate k true ++ reportedFailures es →
      ∀ pre, pre <+: es → (b.run pre).state = "closed" := by
  intro es
  induction es with
  | nil =>
    intro b k hs _ _ _ pre hpre
    rw [List.prefix_nil.mp hpre]
    exact hs
  | cons e rest ih =>
    intro b k hs hf hk hno pre hpre
    rcases List.prefix_cons_iff.mp hpre with h | ⟨t, h, ht⟩
    · rw [h]; exact hs
    · rw [h]
      have hno_open : b.state ≠ "open" := by rw [hs]; decide
      have hno_half : ¬ b.state = "half" := by rw [hs]; decide
      cases e with
      | allow now =>
        have hstep : b.step (Event.allow now) = b := by
          simp [breaker.step, allow_not_open b now hno_open]
        simp only [breaker.run, hstep]
        exact ih b k hs hf hk hno t ht
      | report err now =>
        cases err with
        | none =>
          have hstep : b.step (Event.report none now) = { b with failCount := 0 } := by
            simp [breaker.step, report_nil_not_half b now hno_half]
          simp only [breaker.run, hstep]
          refine ih { b with failCount := 0 } 0 hs rfl (by omega) ?_ t ht
          intro hin
          apply hno
          have hsuf : reportedFailures rest
              <:+ List.replicate k true ++ reportedFailures (Event.report none now :: rest) := by
            refine ⟨List.replicate k true ++ [false], ?_⟩
            simp [reportedFailures]
          simpa using hin.trans hsuf.isInfix
        | some e =>
          have hk1 : k ≤ 1 := by
            by_contra hgt
            have hk2 : k = 2 := by omega
            apply hno
            subst hk2
            exact (show [true, true, true] <+: List.replicate 2 true
                ++ reportedFailures (Event.report (some e) now :: rest) from
              ⟨reportedFailures rest, by simp [reportedFailures, List.replicate]⟩).isInfix
          have hw : wrapInt (b.failCount + 1) = ((k + 1 : Nat) : Int) := by
            rw [hf]
            unfold wrapInt
            push_cast
            omega
          have hstep : b.step (Event.report (some e) now)
              = { b with failCount := ((k + 1 : Nat) : Int) } := by
            have hlt : ¬ ((k + 1 : Nat) : Int) ≥ 3 := by push_cast; omega
            simp only [breaker.step, report_failure_closed b e now hs, hw, hlt, if_false]
          simp only [breaker.run, hstep]
          refine ih { b with failCount := ((k + 1 : Nat) : Int) } (k + 1) hs rfl (by omega)
            ?_ t ht
          intro hin
          apply hno
          have heq : List.replicate (k + 1) true ++ reportedFailures rest
              = List.replicate k true
                ++ reportedFailures (Event.report (some e) now :: rest) := by
            simp [reportedFailures, List.replicate_succ']
          rw [← heq]
          exact hin

/-- C24. Only consecutive failures trip the breaker: starting from a closed breaker with
`failCount = 0`, for every sequence of calls whose `report` calls contain no run of 3
consecutive failures (each run of failures is ended by a `report(nil)` before reaching 3),
the breaker is closed after every call of the sequence and every `allow()` returns true;
each `report(nil)` in the closed state sets `failCount` to 0 and leaves `state` and
`openUntil` unchanged. -/
theorem breaker_closed_without_three_consecutive_failures (b : breaker) (es : List Event)
    (hs : b.state = "closed") (hf : b.failCount = 0)
    (hno : ¬ [true, true, true] <:+: reportedFailures es) :
    (∀ pre, pre <+: es → (b.run pre).state = "closed") ∧
    (∀ pre now, pre <+: es → ((b.run pre).allow now).1 = true) ∧
    (b.run es).state = "closed" ∧
    (∀ (c : breaker) (now : Int), c.state = "closed" →
      c.report none now
        = { state := c.state, failCount := 0, openUntil := c.openUntil }) := by
  have hall := run_closed_of_no_three_failures es b 0 hs (by simpa using hf) (by omega)
    (by simpa using hno)
  refine ⟨hall, ?_, hall es (List.prefix_refl _), ?_⟩
  · intro pre now hpre
    have hc := hall pre hpre
    have hno_open : (b.run pre).state ≠ "open" := by rw [hc]; decide
    rw [allow_not_open _ now hno_open]
  · intro c now hc
    have hno_half : c.state ≠ "half" := by rw [hc]; decide
    rw [report_nil_not_half c now hno_half]

/-- Witness for C24: two failures, a success, two more failures and an `allow()`: no run
of three, the initial breaker ends closed. -/
theorem breaker_closed_without_three_consecutive_failures_witness :
    brk.state = "closed" ∧ brk.failCount = 0 ∧
    ¬ [true, true, true] <:+: reportedFailures
      [Event.report (some "5xx") 1, Event.report (some "5xx") 2, Event.report none 3,
        Event.report (some "5xx") 4, Event.report (some "5xx") 5, Event.allow 6] ∧
    (brk.run
      [Event.report (some "5xx") 1, Event.report (some "5xx") 2, Event.report none 3,
        Event.report (some "5xx") 4, Event.report (some "5xx") 5, Event.allow 6]).state
      = "closed" :=
  have hno : ¬ [true, true, true] <:+: reportedFailures
      [Event.report (some "5xx") 1, Event.report (some "5xx") 2, Event.report none 3,
        Event.report (some "5xx") 4, Event.report (some "5xx") 5, Event.allow 6] := by
    decide
  ⟨rfl, rfl, hno,
    (breaker_closed_without_three_consecutive_failures brk _ rfl rfl hno).2.2.1⟩

end Payments

namespace Payments

theorem run_append (b : breaker) (es fs : List Event) :
    b.run (es ++ fs) = (b.run es).run fs := by
  induction es generalizing b with
  | nil => rfl
  | cons e rest ih => exact ih (b.step e)

/-- One call keeps the state among the three names and keeps `failCount` between 0 and 2
while the breaker is closed. -/
theorem step_keeps_state_names (b : breaker) (e : Event)
    (hst : b.state = "closed" ∨ b.state = "open" ∨ b.state = "half")
    (hcl : b.state = "closed" → 0 ≤ b.failCount ∧ b.failCount < 3) :
    ((b.step e).state = "closed" ∨ (b.step e).state = "open" ∨ (b.step e).state = "half") ∧
    ((b.step e).state = "closed" → 0 ≤ (b.step e).failCount ∧ (b.step e).failCount < 3) := by
  cases e with
  | allow now =>
    by_cases h1 : b.state = "open"
    · by_cases h2 : timeAfter now b.openUntil = true
      · have hstep : b.step (Event.allow now) = { b with state := "half" } := by
          simp [breaker.step, breaker.allow, h1, h2]
        rw [hstep]
        exact ⟨Or.inr (Or.inr rfl), fun h => by simp at h⟩
      · have hstep : b.step (Event.allow now) = b := by
          simp [breaker.step, breaker.allow, h1, h2]
        rw [hstep]
        exact ⟨hst, hcl⟩
    · have hstep : b.step (Event.allow now) = b := by
        simp [breaker.step, breaker.allow, h1]
      rw [hstep]
      exact ⟨hst, hcl⟩
  | report err now =>
    by_cases hh : b.state = "half"
    · cases err with
      | none =>
        have hstep : b.step (Event.report none now)
            = { b with state := "closed", failCount := 0 } := by
          simp [breaker.step, breaker.report, hh]
        rw [hstep]
        exact ⟨Or.inl rfl, fun _ => ⟨le_refl _, by simp⟩⟩
      | some e =>
        have hstep : b.step (Event.report (some e) now)
            = { b with state := "open", openUntil := timeAdd now (10 * second) } := by
          simp [breaker.step, breaker.report, hh]
        rw [hstep]
        exact ⟨Or.inr (Or.inl rfl), fun h => by simp at h⟩
    · cases err with
      | none =>
        have hstep : b.step (Event.report none now) = { b with failCount := 0 } := by
          simp [breaker.step, breaker.report, hh]
        rw [hstep]
        exact ⟨hst, fun _ => ⟨le_refl _, by simp⟩⟩
      | some e =>
        by_cases h3 : wrapInt (b.failCount + 1) ≥ 3
        · have hstep : b.step (Event.report (some e) now)
              = { state := "open", failCount := wrapInt (b.failCount + 1),
                  openUntil := timeAdd now (10 * second) } := by
            simp [breaker.step, breaker.report, hh, h3]
          rw [hstep]
          exact ⟨Or.inr (Or.inl rfl), fun h => by simp at h⟩
        · have hstep : b.step (Event.report (some e) now)
              = { b with failCount := wrapInt (b.failCount + 1) } := by
            simp only [breaker.step, breaker.report, hh, if_false, h3]
          rw [hstep]
          refine ⟨hst, fun hc => ?_⟩
          obtain ⟨h0, h2⟩ := hcl hc
          have hw : wrapInt (b.failCount + 1) = b.failCount + 1 := by
            unfold wrapInt; omega
          rw [hw] at h3
          show 0 ≤ wrapInt (b.failCount + 1) ∧ wrapInt (b.failCount + 1) < 3
          rw [hw]
          omega

/-- One call raises `failCount` by at most one and keeps it non-negative, as long as the
count stays below the largest `int`. -/
theorem step_failCount_bounds (b : breaker) (e : Event) (n : Int)
    (h0 : 0 ≤ b.failCount) (hn : b.failCount ≤ n) (hmax : n < 9223372036854775807) :
    0 ≤ (b.step e).failCount ∧ (b.step e).failCount ≤ n + 1 := by
  have hw : wrapInt (b.failCount + 1) = b.failCount + 1 := by
    unfold wrapInt; omega
  cases e with
  | allow now =>
    simp only [breaker.step, breaker.allow]
    split_ifs <;> exact ⟨h0, by simp only; omega⟩
  | report err now =>
    cases err with
    | none =>
      simp only [breaker.step, breaker.report]
      split_ifs <;> exact ⟨le_refl _, by simp only; omega⟩
    | some e =>
      simp only [breaker.step, breaker.report]
      split_ifs
      · exact ⟨h0, by simp only; omega⟩
      · simp only [hw]; omega
      · simp only [hw]; omega

theorem run_keeps_state_names :
    ∀ (es : List Event) (b : breaker),
      (b.state = "closed" ∨ b.state = "open" ∨ b.state = "half") →
      (b.state = "closed" → 0 ≤ b.failCount ∧ b.failCount < 3) →
      ((b.run es).state = "closed" ∨ (b.run es).state = "open" ∨ (b.run es).state = "half") ∧
      ((b.run es).state = "closed" → 0 ≤ (b.run es).failCount ∧ (b.run es).failCount < 3) := by
  intro es
  induction es with
  | nil => intro b h1 h2; exact ⟨h1, h2⟩
  | cons e rest ih =>
    intro b h1 h2
    obtain ⟨h3, h4⟩ := step_keeps_state_names b e h1 h2
    exact ih (b.step e) h3 h4

theorem run_failCount_bounds :
    ∀ (es : List Event) (b : breaker) (n : Int), 0 ≤ b.failCount → b.failCount ≤ n →
      n + es.length ≤ 9223372036854775807 →
      0 ≤ (b.run es).failCount ∧ (b.run es).failCount ≤ n + es.length := by
  intro es
  induction es with
  | nil => intro b n h0 hn _; exact ⟨h0, by simpa using hn⟩
  | cons e rest ih =>
    intro b n h0 hn hlen
    have hlen1 : n + 1 + (rest.length : Int) ≤ 9223372036854775807 := by
      simp only [List.length_cons] at hlen
      push_cast at hlen
      omega
    obtain ⟨h1, h2⟩ := step_failCount_bounds b e n h0 hn (by omega)
    have := ih (b.step e) (n + 1) h1 h2 hlen1
    simp only [breaker.run, List.length_cons]
    push_cast
    constructor
    · exact this.1
    · have := this.2; omega

/-- While the breaker is open, `k` further failure reports keep it open and add `k` to
`failCount` in 64-bit two's-complement arithmetic. -/
theorem run_failures_while_open (e : String) (t : Int) :
    ∀ (k : Nat) (b : breaker), b.state = "open" →
      -9223372036854775808 ≤ b.failCount → b.failCount ≤ 9223372036854775807 →
      (b.run (List.replicate k (Event.report (some e) t))).state = "open" ∧
      (b.run (List.replicate k (Event.report (some e) t))).failCount
        = wrapInt (b.failCount + k) := by
  intro k
  induction k with
  | zero =>
    intro b hs hlo hhi
    refine ⟨hs, ?_⟩
    simp only [List.replicate, breaker.run]
    unfold wrapInt
    push_cast
    omega
  | succ k ih =>
    intro b hs hlo hhi
    have hnh : ¬ b.state = "half" := by rw [hs]; decide
    have hstate : (b.step (Event.report (some e) t)).state = "open" := by
      simp only [breaker.step, breaker.report, hnh, if_false]
      split_ifs
      · rfl
      · exact hs
    have hcount : (b.step (Event.report (some e) t)).failCount = wrapInt (b.failCount + 1) := by
      simp only [breaker.step, breaker.report, hnh, if_false]
      split_ifs <;> rfl
    have hrange : -9223372036854775808 ≤ wrapInt (b.failCount + 1)
        ∧ wrapInt (b.failCount + 1) ≤ 9223372036854775807 := by
      unfold wrapInt; omega
    obtain ⟨h1, h2⟩ := ih (b.step (Event.report (some e) t)) hstate
      (by rw [hcount]; exact hrange.1) (by rw [hcount]; exact hrange.2)
    rw [List.replicate_succ]
    simp only [breaker.run]
    refine ⟨h1, ?_⟩
    rw [h2, hcount]
    unfold wrapInt
    push_cast
    omega

end Payments

namespace Payments

/-- C26, as stated, fails on the 64-bit `int`: from the initial breaker, 2^63 failure
reports (all at clock reading 0, so at non-decreasing times) trip the breaker at the third
and then keep incrementing `failCount` while it stays open, until the increment wraps: the
state reached is open with `failCount = -2^63 < 0`. -/
theorem breaker_failCount_wraps_negative :
    (∀ e ∈ List.replicate 9223372036854775808 (Event.report (some "5xx") 0), e.time = 0) ∧
    (brk.run (List.replicate 9223372036854775808 (Event.report (some "5xx") 0))).state
      = "open" ∧
    (brk.run (List.replicate 9223372036854775808 (Event.report (some "5xx") 0))).failCount
      = -9223372036854775808 ∧
    (brk.run (List.replicate 9223372036854775808 (Event.report (some "5xx") 0))).failCount
      < 0 := by
  have hsplit : List.replicate 9223372036854775808 (Event.report (some "5xx") 0)
      = List.replicate 3 (Event.report (some "5xx") 0)
        ++ List.replicate 9223372036854775805 (Event.report (some "5xx") 0) :=
    List.replicate_add 3 9223372036854775805 (Event.report (some "5xx") 0)
  have h3 : brk.run (List.replicate 3 (Event.report (some "5xx") 0))
      = ⟨"open", 3, 10 * second⟩ := by decide
  have hrest := run_failures_while_open "5xx" 0 9223372036854775805 ⟨"open", 3, 10 * second⟩
    rfl (by decide) (by decide)
  have hw : wrapInt ((⟨"open", 3, 10 * second⟩ : breaker).failCount
      + ((9223372036854775805 : Nat) : Int)) = -9223372036854775808 := by
    show wrapInt (3 + ((9223372036854775805 : Nat) : Int)) = -9223372036854775808
    unfold wrapInt
    norm_num
  have hrun : brk.run (List.replicate 9223372036854775808 (Event.report (some "5xx") 0))
      = (⟨"open", 3, 10 * second⟩ : breaker).run
          (List.replicate 9223372036854775805 (Event.report (some "5xx") 0)) := by
    rw [hsplit, run_append, h3]
  refine ⟨fun e he => ?_, ?_, ?_, ?_⟩
  · rw [List.eq_of_mem_replicate he]
    rfl
  · rw [hrun]; exact hrest.1
  · rw [hrun, hrest.2, hw]
  · rw [hrun, hrest.2, hw]
    decide

/-- C26 (amended). Breaker reachable-state invariant: in every state reached from the
initial breaker by any sequence of `allow` and `report` calls (at any clock readings,
non-decreasing ones included), `state` is one of closed, open, half, and `state = closed`
implies `0 <= failCount < 3`; in every state reached by a sequence of at most `2^63 - 1`
calls, `failCount >= 0`, and it is at most the number of calls made. -/
theorem breaker_reachable_invariant (es : List Event) :
    ((brk.run es).state = "closed" ∨ (brk.run es).state = "open"
      ∨ (brk.run es).state = "half") ∧
    ((brk.run es).state = "closed" →
      0 ≤ (brk.run es).failCount ∧ (brk.run es).failCount < 3) ∧
    ((es.length : Int) ≤ 9223372036854775807 →
      0 ≤ (brk.run es).failCount ∧ (brk.run es).failCount ≤ es.length) := by
  obtain ⟨h1, h2⟩ := run_keeps_state_names es brk (Or.inl rfl)
    (fun _ => ⟨le_refl _, by decide⟩)
  refine ⟨h1, h2, fun hlen => ?_⟩
  have := run_failCount_bounds es brk 0 (le_refl _) (le_refl _) (by omega)
  constructor
  · exact this.1
  · have := this.2; omega

/-- Witness for C26 (amended): four failures, a probe after the cooldown and its success:
the breaker is closed again with `failCount = 0`. -/
theorem breaker_reachable_invariant_witness :
    (([Event.report (some "5xx") 0, Event.report (some "5xx") 1, Event.report (some "5xx") 2,
        Event.report (some "5xx") 3, Event.allow (14 * second),
        Event.report none (15 * second)].length : Nat) : Int) ≤ 9223372036854775807 ∧
    (brk.run [Event.report (some "5xx") 0, Event.report (some "5xx") 1,
        Event.report (some "5xx") 2, Event.report (some "5xx") 3, Event.allow (14 * second),
        Event.report none (15 * second)]).state = "closed" ∧
    0 ≤ (brk.run [Event.report (some "5xx") 0, Event.report (some "5xx") 1,
        Event.report (some "5xx") 2, Event.report (some "5xx") 3, Event.allow (14 * second),
        Event.report none (15 * second)]).failCount :=
  ⟨by decide, by decide,
    ((breaker_reachable_invariant [Event.report (some "5xx") 0, Event.report (some "5xx") 1,
        Event.report (some "5xx") 2, Event.report (some "5xx") 3, Event.allow (14 * second),
        Event.report none (15 * second)]).2.2 (by decide)).1⟩

end Payments

namespace Meshproxy

/-- What `randomID()` returns: sixteen characters out of `0`..`9`, `a`..`f`, so never the
empty string, and a different text for different bytes drawn. -/
theorem randomID_fresh (entropy : Fin 8 → UInt8) :
    randomID entropy ≠ "" ∧
    (randomID entropy).length = 16 ∧
    (∀ c ∈ (randomID entropy).data, c ∈ ("0123456789abcdef" : String).data) ∧
    (∀ entropy2 : Fin 8 → UInt8, randomID entropy2 = randomID entropy → entropy2 = entropy) := by
  have hlen : (randomID entropy).length = 16 := by
    rw [randomID, hexEncodeToString_length, List.length_ofFn]
  refine ⟨?_, hlen, hexEncodeToString_chars _, ?_⟩
  · intro h
    rw [h] at hlen
    exact absurd hlen (by decide)
  · intro entropy2 h
    exact List.ofFn_injective (hexEncodeToString_injective _ _ h)

/-- The headers every outbound attempt is built with. -/
theorem outboundRequest_headers (r : Request) (traceID target : String) (inBody : Bytes) :
    headerGet (outboundRequest r traceID target inBody).header "X-Request-ID" = traceID ∧
    headerGet (outboundRequest r traceID target inBody).header "X-Mesh-mTLS" = "true" ∧
    headerGet (outboundRequest r traceID target inBody).header "X-Service-Identity"
      = "payments" ∧
    (outboundRequest r traceID target inBody).body = inBody := by
  refine ⟨?_, ?_, ?_, rfl⟩
  · simp only [outboundRequest]
    rw [headerGet_headerSet_other _ _ _ _ (by decide),
      headerGet_headerSet_other _ _ _ _ (by decide), headerGet_headerSet]
  · simp only [outboundRequest]
    rw [headerGet_headerSet_other _ _ _ _ (by decide), headerGet_headerSet]
  · simp only [outboundRequest]
    rw [headerGet_headerSet]

/-- C25. Outbound attempts carry trace and identity headers: every outbound attempt of one
run of `handleProxy` is the same request; it carries the same `X-Request-ID`, together with
`X-Mesh-mTLS = true` and `X-Service-Identity = payments`, and the body bytes read from the
inbound request; there is at least one attempt when `http.NewRequest` returns a request for
the method and target URL.  The `X-Request-ID` sent equals the inbound `X-Request-ID` when
that header is non-empty, and otherwise is a freshly generated `randomID()`: sixteen
characters out of `0`..`9`, `a`..`f`, hence non-empty, that encode the eight bytes drawn, a
different text for different bytes. -/
theorem handleProxy_attempts_carry_mesh_headers (newRequestOK : String → String → Bool)
    (upstream : Nat → DoResult)
    (entropy : Fin 8 → UInt8) (totalReq totalRetry : Int) (r : Request) :
    (∀ run, handleProxy newRequestOK upstream entropy totalReq totalRetry r = some run →
      ∀ out ∈ run.sent,
        out = outboundRequest r (proxyTraceID entropy r) (upstreamURL ++ r.path) r.body ∧
        headerGet out.header "X-Request-ID" = proxyTraceID entropy r ∧
        headerGet out.header "X-Mesh-mTLS" = "true" ∧
        headerGet out.header "X-Service-Identity" = "payments" ∧
        out.body = r.body) ∧
    (newRequestOK r.method (upstreamURL ++ r.path) = true →
      ∃ run, handleProxy newRequestOK upstream entropy totalReq totalRetry r = some run ∧
        1 ≤ run.sent.length) ∧
    (headerGet r.header "X-Request-ID" ≠ "" →
      proxyTraceID entropy r = headerGet r.header "X-Request-ID") ∧
    (headerGet r.header "X-Request-ID" = "" →
      proxyTraceID entropy r = randomID entropy ∧
      proxyTraceID entropy r ≠ "" ∧
      (proxyTraceID entropy r).length = 16 ∧
      (∀ c ∈ (proxyTraceID entropy r).data, c ∈ ("0123456789abcdef" : String).data) ∧
      (∀ entropy2 : Fin 8 → UInt8,
        randomID entropy2 = proxyTraceID entropy r → entropy2 = entropy)) := by
  have hruns := handleProxy_runs_iff newRequestOK upstream entropy totalReq totalRetry r
  refine ⟨?_, ?_, ?_, ?_⟩
  · intro run hrun out hout
    cases hok : newRequestOK r.method (upstreamURL ++ r.path) with
    | false =>
      rw [hruns.1 hok] at hrun
      cases hrun
    | true =>
      obtain ⟨run1, n, hrun1, _, hsent⟩ := hruns.2 hok
      rw [hrun1] at hrun
      cases hrun
      rw [hsent] at hout
      have ho := List.eq_of_mem_replicate hout
      subst ho
      obtain ⟨h1, h2, h3, h4⟩ :=
        outboundRequest_headers r (proxyTraceID entropy r) (upstreamURL ++ r.path) r.body
      exact ⟨rfl, h1, h2, h3, h4⟩
  · intro hok
    obtain ⟨run, n, hrun, hn, hsent⟩ := hruns.2 hok
    exact ⟨run, hrun, by rw [hsent]; simpa using hn⟩
  · intro h
    simp [proxyTraceID, h]
  · intro h
    have hid : proxyTraceID entropy r = randomID entropy := by simp [proxyTraceID, h]
    rw [hid]
    exact ⟨rfl, randomID_fresh entropy⟩

/-- Witness for C25: `POST /ledger` without an `X-Request-ID`, the bytes drawn all `0xab`,
against an upstream that always answers 500: the id is generated, it is
`abababababababab`, and each of the three attempts carries it with the two mesh headers
and the inbound body. -/
theorem handleProxy_attempts_carry_mesh_headers_witness :
    headerGet ([] : Header) "X-Request-ID" = "" ∧
    plainRequestOK "POST" (upstreamURL ++ "/ledger") = true ∧
    (proxyTraceID (fun _ => 171) ⟨"POST", "/ledger", [], [1, 2]⟩ = randomID (fun _ => 171) ∧
      proxyTraceID (fun _ => 171) ⟨"POST", "/ledger", [], [1, 2]⟩ ≠ "" ∧
      (proxyTraceID (fun _ => 171) ⟨"POST", "/ledger", [], [1, 2]⟩).length = 16 ∧
      (∀ c ∈ (proxyTraceID (fun _ => 171) ⟨"POST", "/ledger", [], [1, 2]⟩).data,
        c ∈ ("0123456789abcdef" : String).data) ∧
      (∀ entropy2 : Fin 8 → UInt8,
        randomID entropy2 = proxyTraceID (fun _ => 171) ⟨"POST", "/ledger", [], [1, 2]⟩ →
          entropy2 = fun _ => 171)) ∧
    randomID (fun _ => 171) = "abababababababab" ∧
    (∃ run, handleProxy plainRequestOK (fun _ => DoResult.response 500 []) (fun _ => 171) 0 0
        ⟨"POST", "/ledger", [], [1, 2]⟩ = some run ∧ 1 ≤ run.sent.length) ∧
    (handleProxy plainRequestOK (fun _ => DoResult.response 500 []) (fun _ => 171) 0 0
        ⟨"POST", "/ledger", [], [1, 2]⟩).map
        (fun run => run.sent.map (fun out =>
          (headerGet out.header "X-Request-ID", headerGet out.header "X-Mesh-mTLS",
            headerGet out.header "X-Service-Identity", out.body)))
      = some (List.replicate 3 ("abababababababab", "true", "payments", [1, 2])) :=
  have h := handleProxy_attempts_carry_mesh_headers plainRequestOK
    (fun _ => DoResult.response 500 []) (fun _ => 171) 0 0 ⟨"POST", "/ledger", [], [1, 2]⟩
  ⟨by decide, by decide, h.2.2.2 (by decide), by decide, h.2.1 (by decide), by decide⟩

end Meshproxy

namespace Meshproxy

end Meshproxy


section SharedLemmas

theorem le_sub_of_le_timeSub {t u p : Int} (hp : 0 < p) (h : p ≤ timeSub t u) : p ≤ t - u := by
  unfold timeSub at h
  unfold maxDuration minDuration at *
  split_ifs at h <;> omega

end SharedLemmas

namespace Gateway

/-- With capacity 1, once the bucket of a key is empty, the calls that are allowed are at
least `per` after the bucket's `last` and at least `per` apart from one another. -/
theorem allowedTimes_rate_one_spaced (per : Int) (ip : String) (hp : 0 < per) :
    ∀ (ts : List Int) (m : Buckets) (b : bucket), m ip = some b → b.tokens ≤ 0 →
      (∀ a ∈ allowedTimes 1 per ip ts m, per ≤ a - b.last) ∧
      (allowedTimes 1 per ip ts m).Pairwise (fun a c => per ≤ c - a) := by
  intro ts
  induction ts with
  | nil => intro m b _ _; simp [allowedTimes]
  | cons t rest ih =>
    intro m b hb htok
    by_cases hreset : timeSub t b.last ≥ per
    · have hstep : allow 1 per t ip m = (true, setBucket m ip ⟨0, t⟩) := by
        simp [allow, hb, hreset]
      have hge : per ≤ t - b.last := le_sub_of_le_timeSub hp hreset
      obtain ⟨h1, h2⟩ := ih (setBucket m ip ⟨0, t⟩) ⟨0, t⟩ (setBucket_same _ _ _) (le_refl _)
      simp only [allowedTimes, hstep, if_true]
      refine ⟨?_, List.pairwise_cons.mpr ⟨fun a ha => h1 a ha, h2⟩⟩
      intro a ha
      rcases List.mem_cons.mp ha with h | h
      · rw [h]; exact hge
      · have := h1 a h
        simp only at this
        omega
    · have hpos : ¬ b.tokens > 0 := by omega
      have hstep : allow 1 per t ip m = (false, setBucket m ip b) := by
        simp [allow, hb, hreset, hpos]
      simp only [allowedTimes, hstep]
      exact ih (setBucket m ip b) b (setBucket_same _ _ _) htok

/-- With capacity 1, on a key without a bucket, any two allowed calls are at least `per`
apart. -/
theorem allowedTimes_rate_one_fresh (per : Int) (ip : String) (hp : 0 < per) (m : Buckets)
    (hm : m ip = none) (ts : List Int) :
    (allowedTimes 1 per ip ts m).Pairwise (fun a c => per ≤ c - a) := by
  cases ts with
  | nil => simp [allowedTimes]
  | cons t rest =>
    have h0 : ¬ timeSub t t ≥ per := by
      have : timeSub t t = 0 := by simp [timeSub, maxDuration, minDuration]
      rw [this]; omega
    have hstep : allow 1 per t ip m = (true, setBucket m ip ⟨0, t⟩) := by
      simp [allow, hm, h0]
    obtain ⟨h1, h2⟩ := allowedTimes_rate_one_spaced per ip hp rest (setBucket m ip ⟨0, t⟩)
      ⟨0, t⟩ (setBucket_same _ _ _) (le_refl _)
    simp only [allowedTimes, hstep, if_true]
    exact List.pairwise_cons.mpr ⟨fun a ha => h1 a ha, h2⟩

/-- C28, as stated, fails at capacity 1: with `rate = 1` and `per = 10s`, for no client key
and no sequence of `allow` calls on a key without a bucket do `2 * 1` calls return true
within a time span strictly shorter than `per`. -/
theorem no_boundary_burst_at_rate_one :
    ¬ ∃ (ip : String) (ts sub : List Int),
      sub.Sublist (allowedTimes 1 per ip ts emptyBuckets) ∧ sub.length = 2 * 1 ∧
      ∀ a ∈ sub, ∀ c ∈ sub, a - c < per := by
  rintro ⟨ip, ts, sub, hsub, hlen, hspan⟩
  have hp : 0 < per := by decide
  have hpair := (allowedTimes_rate_one_fresh per ip hp emptyBuckets rfl ts).sublist hsub
  match sub, hlen, hpair, hspan with
  | [a, c], _, hpair, hspan =>
    have h1 : per ≤ c - a := by simpa using hpair
    have h2 : c - a < per := hspan c (by simp) a (by simp)
    omega

end Gateway

namespace Gateway

theorem allowCalls_append (rate per : Int) (ip : String) :
    ∀ (ts us : List Int) (m : Buckets),
      (allowCalls rate per ip (ts ++ us) m).2
        = (allowCalls rate per ip us (allowCalls rate per ip ts m).2).2 := by
  intro ts
  induction ts with
  | nil => intro us m; rfl
  | cons t rest ih =>
    intro us m
    exact ih us (allow rate per t ip m).2

theorem allowedTimes_append (rate per : Int) (ip : String) :
    ∀ (ts us : List Int) (m : Buckets),
      allowedTimes rate per ip (ts ++ us) m
        = allowedTimes rate per ip ts m
          ++ allowedTimes rate per ip us (allowCalls rate per ip ts m).2 := by
  intro ts
  induction ts with
  | nil => intro us m; rfl
  | cons t rest ih =>
    intro us m
    have h := ih us (allow rate per t ip m).2
    by_cases hd : (allow rate per t ip m).1 = true
    · show allowedTimes rate per ip (t :: (rest ++ us)) m = _
      simp only [allowedTimes, allowCalls, hd, if_true, h, List.cons_append]
    · show allowedTimes rate per ip (t :: (rest ++ us)) m = _
      simp only [allowedTimes, allowCalls, hd, if_false, h]
      simp

/-- Inside the window, `n` calls at one clock reading on a bucket holding at least `n`
tokens are all allowed and take `n` tokens. -/
theorem allowedTimes_burst (rate per : Int) (ip : String) (t : Int) (hp : 0 < per) :
    ∀ (n : Nat) (m : Buckets) (b : bucket), m ip = some b → t - b.last < per →
      (n : Int) ≤ b.tokens →
      allowedTimes rate per ip (List.replicate n t) m = List.replicate n t ∧
      (allowCalls rate per ip (List.replicate n t) m).2 ip
        = some ⟨b.tokens - n, b.last⟩ := by
  intro n
  induction n with
  | zero =>
    intro m b hb _ _
    refine ⟨rfl, ?_⟩
    simp [allowCalls, hb]
  | succ n ih =>
    intro m b hb hw hn
    have hpos : b.tokens > 0 := by push_cast at hn; omega
    have hstep : allow rate per t ip m
        = (true, setBucket m ip { b with tokens := b.tokens - 1 }) := by
      rw [allow_in_window rate per t ip m b hb hp hw, if_pos hpos]
    obtain ⟨h1, h2⟩ := ih (setBucket m ip { b with tokens := b.tokens - 1 })
      { b with tokens := b.tokens - 1 } (setBucket_same _ _ _) hw
      (by push_cast at hn; simp only; omega)
    rw [List.replicate_succ]
    refine ⟨?_, ?_⟩
    · simp only [allowedTimes, hstep, if_true, h1]
    · simp only [allowCalls, hstep, h2]
      congr 2
      push_cast
      omega

/-- C28 (amended). Fixed-window boundary burst: for every capacity `C = rate >= 1` and
window `W = per` of at least 2ns, on a key without a bucket the calls at readings 0, then
`C - 1` times at `W - 1`, then `C` times at `W` are all allowed: `2*C` allowed calls
within a span of exactly `W`, of which the last `2*C - 1` (`C - 1` just before the window
boundary and `C` at it) lie within a span strictly shorter than `W`; so for `C >= 2` more
than `C` calls are allowed within a sliding window of length `W`. -/
theorem boundary_burst_allows_two_rate_minus_one (c : Nat) (per : Int) (ip : String)
    (m : Buckets) (hc : 1 ≤ c) (hper : 2 ≤ per) (hhi : per ≤ maxDuration)
    (hm : m ip = none) :
    allowedTimes c per ip
        (0 :: (List.replicate (c - 1) (per - 1) ++ List.replicate c per)) m
      = 0 :: (List.replicate (c - 1) (per - 1) ++ List.replicate c per) ∧
    (0 :: (List.replicate (c - 1) (per - 1) ++ List.replicate c per)).length = 2 * c ∧
    (∀ a ∈ 0 :: (List.replicate (c - 1) (per - 1) ++ List.replicate c per),
      ∀ d ∈ 0 :: (List.replicate (c - 1) (per - 1) ++ List.replicate c per), a - d ≤ per) ∧
    (List.replicate (c - 1) (per - 1) ++ List.replicate c per).Sublist
      (allowedTimes c per ip
        (0 :: (List.replicate (c - 1) (per - 1) ++ List.replicate c per)) m) ∧
    (List.replicate (c - 1) (per - 1) ++ List.replicate c per).length = 2 * c - 1 ∧
    (∀ a ∈ List.replicate (c - 1) (per - 1) ++ List.replicate c per,
      ∀ d ∈ List.replicate (c - 1) (per - 1) ++ List.replicate c per, a - d < per) ∧
    (2 ≤ c → c < 2 * c - 1) := by
  have hp : 0 < per := by omega
  have hlo : minDuration < per := by unfold minDuration; omega
  -- the first call creates the bucket and takes one token
  have h00 : ¬ timeSub 0 0 ≥ per := by
    have : timeSub 0 0 = 0 := by simp [timeSub, maxDuration, minDuration]
    rw [this]; omega
  have hcpos : (c : Int) > 0 := by exact_mod_cast hc
  have hstep0 : allow c per 0 ip m = (true, setBucket m ip ⟨(c : Int) - 1, 0⟩) := by
    simp [allow, hm, h00, hcpos]
  -- the calls just before the boundary take the remaining tokens
  obtain ⟨hb1, hb2⟩ := allowedTimes_burst c per ip (per - 1) hp (c - 1)
    (setBucket m ip ⟨(c : Int) - 1, 0⟩) ⟨(c : Int) - 1, 0⟩ (setBucket_same _ _ _)
    (by simp) (by simp only; omega)
  -- the first call at the boundary resets the bucket
  have hreset : timeSub per 0 ≥ per := timeSub_ge_of_ge hlo hhi (by simp)
  have hstepW : ∀ m1 : Buckets, m1 ip = some ⟨(c : Int) - 1 - ((c - 1 : Nat) : Int), 0⟩ →
      allow c per per ip m1 = (true, setBucket m1 ip ⟨(c : Int) - 1, per⟩) := by
    intro m1 h1
    simp [allow, h1, hreset, hcpos]
  have hrepl : List.replicate c per = per :: List.replicate (c - 1) per := by
    have : c = (c - 1) + 1 := by omega
    conv_lhs => rw [this, List.replicate_succ]
  have hlast : ∀ m1 : Buckets, m1 ip = some ⟨(c : Int) - 1 - ((c - 1 : Nat) : Int), 0⟩ →
      allowedTimes c per ip (List.replicate c per) m1 = List.replicate c per := by
    intro m1 h1
    obtain ⟨hb3, _⟩ := allowedTimes_burst c per ip per hp (c - 1)
      (setBucket m1 ip ⟨(c : Int) - 1, per⟩) ⟨(c : Int) - 1, per⟩ (setBucket_same _ _ _)
      (by simp; omega) (by simp only; omega)
    rw [hrepl]
    simp only [allowedTimes, hstepW m1 h1, if_true, hb3]
  have hall : allowedTimes c per ip
      (0 :: (List.replicate (c - 1) (per - 1) ++ List.replicate c per)) m
      = 0 :: (List.replicate (c - 1) (per - 1) ++ List.replicate c per) := by
    simp only [allowedTimes, hstep0, if_true]
    rw [allowedTimes_append, hb1, hlast _ hb2]
  have hmem : ∀ a ∈ List.replicate (c - 1) (per - 1) ++ List.replicate c per,
      a = per - 1 ∨ a = per := by
    intro a ha
    rcases List.mem_append.mp ha with h | h
    · exact Or.inl (List.eq_of_mem_replicate h)
    · exact Or.inr (List.eq_of_mem_replicate h)
  refine ⟨hall, by simp; omega, ?_, ?_, by simp; omega, ?_, fun h => by omega⟩
  · intro a ha d hd
    have ha1 : a = 0 ∨ a = per - 1 ∨ a = per := by
      rcases List.mem_cons.mp ha with h | h
      · exact Or.inl h
      · exact Or.inr (hmem a h)
    have hd1 : d = 0 ∨ d = per - 1 ∨ d = per := by
      rcases List.mem_cons.mp hd with h | h
      · exact Or.inl h
      · exact Or.inr (hmem d h)
    omega
  · rw [hall]
    exact List.sublist_cons_self _ _
  · intro a ha d hd
    have := hmem a ha
    have := hmem d hd
    omega

/-- Witness for C28 (amended): capacity 3 and a 10s window on the empty map: six calls
allowed, the last five of them within one nanosecond. -/
theorem boundary_burst_allows_two_rate_minus_one_witness :
    1 ≤ 3 ∧ (2 : Int) ≤ per ∧ per ≤ maxDuration ∧ emptyBuckets "1.2.3.4" = none ∧
    allowedTimes (3 : Nat) per "1.2.3.4"
        (0 :: (List.replicate (3 - 1) (per - 1) ++ List.replicate 3 per)) emptyBuckets
      = 0 :: (List.replicate (3 - 1) (per - 1) ++ List.replicate 3 per) ∧
    (List.replicate (3 - 1) (per - 1) ++ List.replicate 3 per).length = 2 * 3 - 1 :=
  have h := boundary_burst_allows_two_rate_minus_one 3 per "1.2.3.4" emptyBuckets
    (by decide) (by decide) (by decide) rfl
  ⟨by decide, by decide, by decide, rfl, h.1, h.2.2.2.2.1⟩

end Gateway

namespace Gateway

/-- When the path starts with the prefix of a single entry, the loop of the Director
removes that prefix, wherever the entry is visited. -/
theorem rewritePath_unique_match (path pfx : String) :
    ∀ order : List (String × String), (∃ raw, (pfx, raw) ∈ order) →
      startsWith path pfx = true →
      (∀ e ∈ order, startsWith path e.1 = true → e.1 = pfx) →
      rewritePath order path
        = if trimLeading path pfx = "" then "/" else trimLeading path pfx := by
  intro order
  induction order with
  | nil => rintro ⟨raw, h⟩; simp at h
  | cons e rest ih =>
    intro hm hs huniq
    obtain ⟨p, r⟩ := e
    by_cases h0 : startsWith path p = true
    · have hp : p = pfx := huniq (p, r) (List.mem_cons_self _ _) h0
      subst hp
      simp only [rewritePath, h0, if_true]
    · have hm1 : ∃ raw, (pfx, raw) ∈ rest := by
        obtain ⟨raw, h⟩ := hm
        rcases List.mem_cons.mp h with h | h
        · cases h; exact absurd hs h0
        · exact ⟨raw, h⟩
      simp only [rewritePath, h0]
      exact ih hm1 hs (fun e he => huniq e (List.mem_cons_of_mem _ he))

/-- When no entry matches, the loop of the Director leaves the path as it is. -/
theorem rewritePath_no_match (path : String) :
    ∀ order : List (String × String), (∀ e ∈ order, startsWith path e.1 = false) →
      rewritePath order path = path := by
  intro order
  induction order with
  | nil => intro _; rfl
  | cons e rest ih =>
    intro h
    obtain ⟨p, r⟩ := e
    have h0 : startsWith path p = false := h (p, r) (List.mem_cons_self _ _)
    simp only [rewritePath, h0]
    exact ih (fun e he => h e (List.mem_cons_of_mem _ he))

/-- Joining the empty path of a target with a request path that starts with a slash gives
the request path. -/
theorem singleJoiningSlash_empty (b : String) (h : startsWith b "/" = true) :
    singleJoiningSlash "" b = b := by
  have he : endsWith "" "/" = false := by decide
  simp [singleJoiningSlash, he, h]

/-- A path matched by a configured prefix starts with a slash. -/
theorem startsWith_slash_of_configured (path pfx raw : String) (hm : (pfx, raw) ∈ backends)
    (hs : startsWith path pfx = true) : startsWith path "/" = true := by
  have hcases : pfx = "/users/" ∨ pfx = "/payments/" := by
    simp only [backends, List.mem_cons, Prod.mk.injEq, List.mem_singleton, List.not_mem_nil,
      or_false] at hm
    rcases hm with ⟨h, _⟩ | ⟨h, _⟩
    · exact Or.inl h
    · exact Or.inr h
  rw [startsWith_iff] at hs ⊢
  have hsl : ("/" : String).data = ['/'] := rfl
  rcases hcases with h | h
  · subst h
    have hu : ("/users/" : String).data = ['/', 'u', 's', 'e', 'r', 's', '/'] := rfl
    rw [hu] at hs
    rw [hsl]
    exact (show ['/'] <+: ['/', 'u', 's', 'e', 'r', 's', '/'] from ⟨_, rfl⟩).trans hs
  · subst h
    have hp : ("/payments/" : String).data
        = ['/', 'p', 'a', 'y', 'm', 'e', 'n', 't', 's', '/'] := rfl
    rw [hp] at hs
    rw [hsl]
    exact (show ['/'] <+: ['/', 'p', 'a', 'y', 'm', 'e', 'n', 't', 's', '/'] from
      ⟨_, rfl⟩).trans hs

/-- The targets that `url.Parse` makes of the configured addresses have an empty path. -/
theorem parseBackend_path (raw : String) (u : URL) (h : parseBackend raw = some u) :
    u.path = "" := by
  unfold parseBackend at h
  split_ifs at h
  · cases h; rfl
  · cases h; rfl

/-- A run of `handleGateway` forwards nothing, or forwards the one request its Director
builds for the target that `chooseBackend` returned, with the hop-by-hop headers removed. -/
theorem handleGateway_forwarded_cases (parse : String → Option URL)
    (order1 order2 : List (String × String)) (rate per now : Int) (entropy : Fin 8 → UInt8)
    (upstream : RoundTrip) (buckets : Buckets) (r : Request) (run : GatewayRun)
    (h : handleGateway parse order1 order2 rate per now entropy upstream buckets r = some run) :
    (run.forwarded = [] ∧
      (chooseBackend parse order1 r.path = none ∨ run.resolved = [])) ∨
    ∃ target, chooseBackend parse order1 r.path = some target ∧
      run.forwarded = [proxiedRequest (director order2 target (randomRequestID entropy) r
        (headerSet r.header "X-Request-ID" (randomRequestID entropy)))] := by
  by_cases hkey : headerGet r.header "X-API-Key" = validAPIKey
  · obtain ⟨ip, hip⟩ := getClientIP_some r
    by_cases hallow : (allow rate per now ip buckets).1 = true
    · cases hroute : chooseBackend parse order1 r.path with
      | none =>
        rw [handleGateway_of_no_route parse order1 order2 rate per now entropy upstream
          buckets r ip hkey hip hallow hroute] at h
        cases h
        exact Or.inl ⟨rfl, Or.inl rfl⟩
      | some target =>
        rw [handleGateway_of_route parse order1 order2 rate per now entropy upstream
          buckets r ip target hkey hip hallow hroute] at h
        cases h
        exact Or.inr ⟨target, rfl, rfl⟩
    · have hdeny : (allow rate per now ip buckets).1 = false := by simpa using hallow
      rw [handleGateway_of_refused parse order1 order2 rate per now entropy upstream
        buckets r ip hkey hip hdeny] at h
      cases h
      exact Or.inl ⟨rfl, Or.inr rfl⟩
  · rw [handleGateway_of_bad_key parse order1 order2 rate per now entropy upstream
      buckets r hkey] at h
    cases h
    exact Or.inl ⟨rfl, Or.inr rfl⟩

end Gateway

namespace Gateway

/-- On the configured table a path is matched by one prefix at most. -/
theorem configured_match_unique (path pfx raw : String) (hm : (pfx, raw) ∈ backends)
    (hs : startsWith path pfx = true) :
    ∀ e ∈ backends, startsWith path e.1 = true → e.1 = pfx := by
  intro e he hse
  simp only [backends, List.mem_cons, List.mem_singleton, List.not_mem_nil, or_false] at hm he
  rcases hm with hm | hm <;> rcases he with he | he
  · cases hm; subst he; rfl
  · cases hm; subst he
    exact absurd ⟨hs, hse⟩ (not_both_configured path)
  · cases hm; subst he
    exact absurd ⟨hse, hs⟩ (not_both_configured path)
  · cases hm; subst he; rfl

/-- On the configured table a matched path gets a target. -/
theorem chooseBackend_configured_some (path pfx raw : String) (order : List (String × String))
    (ho : order.Perm backends) (hm : (pfx, raw) ∈ backends)
    (hs : startsWith path pfx = true) :
    ∃ target, chooseBackend parseBackend order path = some target := by
  rw [chooseBackend_perm_backends parseBackend path order ho]
  simp only [backends, List.mem_cons, List.mem_singleton, List.not_mem_nil, or_false] at hm
  rcases hm with hm | hm
  · cases hm
    exact ⟨{ scheme := "http", host := "localhost:7001", path := "" },
      by simp [chooseBackend, backends, hs, parseBackend]⟩
  · cases hm
    have hu : startsWith path "/users/" = false := by
      by_contra h
      exact not_both_configured path ⟨by simpa using h, hs⟩
    exact ⟨{ scheme := "http", host := "localhost:7002", path := "" },
      by simp [chooseBackend, backends, hs, hu, parseBackend]⟩

/-- C29. Gateway path rewrite: with the configured table, whatever orders the two loops
visit it in, for every request path that starts with a configured prefix the path of the
request that the proxy Director forwards upstream is the request path with that prefix
removed, or `/` when nothing remains (so `/users/42` is forwarded as `42` and `/users/` as
`/`); an authenticated, admitted request with such a path is forwarded once; a request
whose path starts with no configured prefix is never forwarded. -/
theorem handleGateway_forwards_path_without_route (order1 order2 : List (String × String))
    (rate per now : Int) (entropy : Fin 8 → UInt8) (upstream : RoundTrip) (buckets : Buckets)
    (r : Request) (h1 : order1.Perm backends) (h2 : order2.Perm backends) :
    (∀ pfx raw, (pfx, raw) ∈ backends → startsWith r.path pfx = true →
      ∀ run, handleGateway parseBackend order1 order2 rate per now entropy upstream buckets r
          = some run →
        ∀ out ∈ run.forwarded,
          trimLeading r.path pfx = String.mk (r.path.data.drop pfx.data.length) ∧
          out.path = if trimLeading r.path pfx = "" then "/" else trimLeading r.path pfx) ∧
    (∀ pfx raw, (pfx, raw) ∈ backends → startsWith r.path pfx = true →
      headerGet r.header "X-API-Key" = validAPIKey →
      (∀ ip, getClientIP r = some ip → (allow rate per now ip buckets).1 = true) →
      ∃ run out,
        handleGateway parseBackend order1 order2 rate per now entropy upstream buckets r
          = some run ∧ run.forwarded = [out]) ∧
    ((∀ e ∈ backends, startsWith r.path e.1 = false) →
      ∀ run, handleGateway parseBackend order1 order2 rate per now entropy upstream buckets r
          = some run → run.forwarded = []) ∧
    (r.path = "/users/42" →
      ∀ run, handleGateway parseBackend order1 order2 rate per now entropy upstream buckets r
          = some run → ∀ out ∈ run.forwarded, out.path = "42") ∧
    (r.path = "/users/" →
      ∀ run, handleGateway parseBackend order1 order2 rate per now entropy upstream buckets r
          = some run → ∀ out ∈ run.forwarded, out.path = "/") := by
  have hA : ∀ pfx raw, (pfx, raw) ∈ backends → startsWith r.path pfx = true →
      ∀ run, handleGateway parseBackend order1 order2 rate per now entropy upstream buckets r
          = some run →
        ∀ out ∈ run.forwarded,
          out.path = if trimLeading r.path pfx = "" then "/" else trimLeading r.path pfx := by
    intro pfx raw hm hs run hrun out hout
    rcases handleGateway_forwarded_cases parseBackend order1 order2 rate per now entropy
      upstream buckets r run hrun with ⟨hnil, _⟩ | ⟨target, htarget, hfwd⟩
    · rw [hnil] at hout; simp at hout
    · rw [hfwd] at hout
      simp only [List.mem_singleton] at hout
      subst hout
      obtain ⟨p, rw1, _, _, hparse⟩ :=
        chooseBackend_some_match parseBackend r.path target order1 htarget
      have hpath : target.path = "" := parseBackend_path rw1 target hparse
      have hslash := startsWith_slash_of_configured r.path pfx raw hm hs
      have huniq : ∀ e ∈ order2, startsWith r.path e.1 = true → e.1 = pfx :=
        fun e he hse => configured_match_unique r.path pfx raw hm hs e (h2.mem_iff.mp he) hse
      simp only [proxiedRequest, director, hpath, singleJoiningSlash_empty r.path hslash]
      exact rewritePath_unique_match r.path pfx order2 ⟨raw, h2.mem_iff.mpr hm⟩ hs huniq
  refine ⟨?_, ?_, ?_, ?_, ?_⟩
  · intro pfx raw hm hs run hrun out hout
    exact ⟨by simp [trimLeading, hs], hA pfx raw hm hs run hrun out hout⟩
  · intro pfx raw hm hs hkey hallow
    obtain ⟨ip, hip⟩ := getClientIP_some r
    obtain ⟨target, htarget⟩ := chooseBackend_configured_some r.path pfx raw order1 h1 hm hs
    exact ⟨_, _, handleGateway_of_route parseBackend order1 order2 rate per now entropy
      upstream buckets r ip target hkey hip (hallow ip hip) htarget, rfl⟩
  · intro hno run hrun
    rcases handleGateway_forwarded_cases parseBackend order1 order2 rate per now entropy
      upstream buckets r run hrun with ⟨hnil, _⟩ | ⟨target, htarget, _⟩
    · exact hnil
    · obtain ⟨p, rw1, hmem, hs, _⟩ :=
        chooseBackend_some_match parseBackend r.path target order1 htarget
      have := hno (p, rw1) (h1.mem_iff.mp hmem)
      rw [hs] at this
      exact Bool.noConfusion this
  · intro hp run hrun out hout
    have hs : startsWith r.path "/users/" = true := by rw [hp]; decide
    have := hA "/users/" "http://localhost:7001" (by simp [backends]) hs run hrun out hout
    rw [this, hp]
    decide
  · intro hp run hrun out hout
    have hs : startsWith r.path "/users/" = true := by rw [hp]; decide
    have := hA "/users/" "http://localhost:7001" (by simp [backends]) hs run hrun out hout
    rw [this, hp]
    decide

/-- Witness for C29: an authenticated first request of client 1.2.3.4 for `/payments/7`,
the two loops visiting the table in opposite orders; it is forwarded once. -/
theorem handleGateway_forwards_path_without_route_witness :
    backends.Perm backends ∧ backends.reverse.Perm backends ∧
    ("/payments/", "http://localhost:7002") ∈ backends ∧
    startsWith "/payments/7" "/payments/" = true ∧
    (handleGateway parseBackend backends backends.reverse rate per 0 (fun _ => 0)
        (RoundTrip.response 200 [] []) emptyBuckets
        ⟨"GET", "/payments/7",
          [("X-API-Key", ["demo-key-123"]), ("X-Forwarded-For", ["1.2.3.4"])], [],
          "10.0.0.9:5000", some "10.0.0.9"⟩).map
      (fun run => run.forwarded.map (fun out => (out.host, out.path)))
      = some [("localhost:7002", "7")] ∧
    ∀ run, handleGateway parseBackend backends backends.reverse rate per 0 (fun _ => 0)
        (RoundTrip.response 200 [] []) emptyBuckets
        ⟨"GET", "/payments/7",
          [("X-API-Key", ["demo-key-123"]), ("X-Forwarded-For", ["1.2.3.4"])], [],
          "10.0.0.9:5000", some "10.0.0.9"⟩ = some run →
      ∀ out ∈ run.forwarded,
        trimLeading "/payments/7" "/payments/"
          = String.mk (("/payments/7" : String).data.drop ("/payments/" : String).data.length) ∧
        out.path = if trimLeading "/payments/7" "/payments/" = "" then "/"
          else trimLeading "/payments/7" "/payments/" :=
  ⟨List.Perm.refl _, List.reverse_perm _, by decide, by decide, by decide,
    (handleGateway_forwards_path_without_route backends backends.reverse rate per 0
      (fun _ => 0) (RoundTrip.response 200 [] []) emptyBuckets
      ⟨"GET", "/payments/7",
        [("X-API-Key", ["demo-key-123"]), ("X-Forwarded-For", ["1.2.3.4"])], [],
        "10.0.0.9:5000", some "10.0.0.9"⟩ (List.Perm.refl _) (List.reverse_perm _)).1
      "/payments/" "http://localhost:7002" (by decide) (by decide)⟩

end Gateway
